import Mathlib

/-! Saga service: a shallow embedding of the coordinator, the store and the poll.

The Go packages `pkg/business/saga`, `pkg/data/database` and `pkg/data/queue`
are embedded as pure functions over an explicit world state.  Every call a
function makes on a collaborator (the `Storer`, a `Sender`, the `Receiver`) is
applied to the world and recorded in a log, so that statements such as
"sends exactly one command" are statements about the returned log.
-/

namespace SagaService

/-! ## Go values: errors, uuids, messages -/

/-- Go `error` values.  The three nullary constructors are the package level
variables `saga.ErrEndOfWorkflow`, `saga.ErrServiceNotFound` and
`sql.ErrNoRows`; `foreign` is an error made by a collaborator (a driver, a
queue client, a test double), told apart by `ident`; `errorf` is the value of
`fmt.Errorf` with no `%w` verb and `wrapf pre inner` the value of
`fmt.Errorf(pre + "%w", inner)`. -/
inductive GoError where
  | ErrEndOfWorkflow
  | ErrServiceNotFound
  | ErrNoRows
  | foreign (ident : Nat) (text : String)
  | errorf (text : String)
  | wrapf (pre : String) (inner : GoError)
  deriving DecidableEq, Repr

/-- The method `Error()` of an error value: its message. -/
def GoError.Error : GoError → String
  | .ErrEndOfWorkflow => "end of workflow"
  | .ErrServiceNotFound => "service not found"
  | .ErrNoRows => "sql: no rows in result set"
  | .foreign _ text => text
  | .errorf text => text
  | .wrapf pre inner => pre ++ inner.Error

/-- The function `errors.Is`: `target` is `err` or is reached by unwrapping it. -/
def errorsIs : GoError → GoError → Bool
  | .wrapf pre inner, target =>
      decide (GoError.wrapf pre inner = target) || errorsIs inner target
  | err, target => decide (err = target)

/-- A `uuid.UUID`: sixteen bytes. -/
structure UUID where
  bytes : List Nat
  deriving DecidableEq, Repr

/-- Two lower-case hexadecimal digits of a byte. -/
def hexByte (b : Nat) : List Char :=
  [Nat.digitChar (b / 16 % 16), Nat.digitChar (b % 16)]

/-- Hexadecimal digits of the bytes `lo ≤ k < hi` of a uuid. -/
def UUID.hexRange (u : UUID) (lo hi : Nat) : List Char :=
  (((u.bytes.take hi).drop lo).map hexByte).flatten

/-- The method `String()` of a uuid, `xxxxxxxx-xxxx-xxxx-xxxx-xxxxxxxxxxxx`,
which is what the verb `%s` prints. -/
def UUID.String (u : UUID) : String :=
  String.mk (u.hexRange 0 4 ++ '-' :: u.hexRange 4 6 ++ '-' :: u.hexRange 6 8
    ++ '-' :: u.hexRange 8 10 ++ '-' :: u.hexRange 10 16)

/-- The struct `queue.Command`. -/
structure Command where
  SagaID : UUID
  Name : String
  deriving DecidableEq, Repr

/-- The struct `queue.Response`. -/
structure Response where
  SagaID : UUID
  Service : String
  Status : String
  deriving DecidableEq, Repr

/-- A value of type `any` handed to a `Processor`. -/
inductive AnyMsg where
  | Command (c : Command)
  | Response (r : Response)
  | other (typeName : String)
  deriving DecidableEq, Repr

/-- The type constraint `queue.Message`: `Command | Response`, with the
conversion to `any` made when the poll calls the processor. -/
class Message (M : Type) where
  toAny : M → AnyMsg

instance : Message Command := ⟨AnyMsg.Command⟩

instance : Message Response := ⟨AnyMsg.Response⟩

/-! ## Package saga -/

def CommandStart : String := "start"

def QueueName : String := "responses"

def StatusStarted : String := "started"

def StatusError : String := "error"

def StatusWorkDone : String := "done"

def StatusCompleted : String := "completed"

/-- How a Go call ends: it returns a value or it panics. -/
inductive Outcome (α : Type) where
  | ret (v : α)
  | panic (reason : String)

/-- A call made on a collaborator of the saga. -/
inductive Call where
  | InsertSaga (id : UUID) (service status : String)
  | UpdateStatus (id : UUID) (status : String)
  | UpdateService (id : UUID) (prev next : String)
  | Send (sender : Nat) (msg : Command)
  deriving DecidableEq, Repr

/-- The result of running a method in a world: its outcome, the world it
leaves and the collaborator calls it made, in order. -/
structure Run (W α : Type) where
  out : Outcome α
  world : W
  calls : List Call

/-- The interface `saga.Storer` over a world `W`. -/
structure Storer (W : Type) where
  InsertSaga : UUID → String → String → W → Option GoError × W
  UpdateStatus : UUID → String → W → Option GoError × W
  UpdateService : UUID → String → String → W → Option GoError × W

/-- A non-nil value of the interface `saga.Sender`: `ref` is the identity of
the object behind it. -/
structure Sender (W : Type) where
  ref : Nat
  Send : Command → W → Option GoError × W

/-- The struct `saga.Service`; `Sender = none` is the nil interface. -/
structure Service (W : Type) where
  Name : String
  Topic : String
  Sender : Option (Sender W)

/-- The zero value `Service{}`. -/
def Service.zero {W : Type} : Service W := ⟨"", "", none⟩

/-- The struct `saga.Workflow`. -/
structure Workflow (W : Type) where
  Services : List (Service W)

/-- The struct `saga.Saga`. -/
structure Saga (W : Type) where
  storage : Storer W
  workflow : Workflow W

/-- The function `saga.New`. -/
def New {W : Type} (workflow : Workflow W) (storage : Storer W) : Saga W :=
  { storage := storage, workflow := workflow }

/-- The method `Service.send`: `s.Sender.Send(msg)`, a nil dereference when
the sender is nil. -/
def Service.send {W : Type} (s : Service W) (msg : Command) (w : W) :
    Run W (Option GoError) :=
  match s.Sender with
  | none => ⟨.panic "invalid memory address or nil pointer dereference", w, []⟩
  | some sd =>
    match sd.Send msg w with
    | (err, w1) => ⟨.ret err, w1, [Call.Send sd.ref msg]⟩

/-- The loop `for i = range services` of `findNextService`, `n` iterations
left, the next one with index `k`; `i` is the variable declared before the
loop.  Returns the final `(i, found)`.  Indexing is checked as Go does. -/
def findNextService.loop {W : Type} (services : List (Service W)) (service : String) :
    Nat → Nat → Nat → Outcome (Nat × Bool)
  | 0, _, i => .ret (i, false)
  | n + 1, k, _ =>
    match services[k]? with
    | none => .panic "index out of range"
    | some sv =>
      if sv.Name = service then .ret (k, true)
      else findNextService.loop services service n (k + 1) k

/-- The method `Saga.findNextService`. -/
def Saga.findNextService {W : Type} (s : Saga W) (service : String) :
    Outcome (Service W × Option GoError) :=
  match findNextService.loop s.workflow.Services service s.workflow.Services.length 0 0 with
  | .panic reason => .panic reason
  | .ret (i, found) =>
    if !found then .ret (Service.zero, some GoError.ErrServiceNotFound)
    else if i + 1 ≥ s.workflow.Services.length then
      .ret (Service.zero, some GoError.ErrEndOfWorkflow)
    else
      match s.workflow.Services[i + 1]? with
      | none => .panic "index out of range"
      | some next => .ret (next, none)

/-- The method `Saga.Start`. -/
def Saga.Start {W : Type} (s : Saga W) (sagaID : UUID) (w : W) : Run W (Option GoError) :=
  if s.workflow.Services.length = 0 then
    ⟨.ret (some (GoError.errorf "empty workflow")), w, []⟩
  else
    match s.workflow.Services[0]? with
    | none => ⟨.panic "index out of range", w, []⟩
    | some service =>
      match s.storage.InsertSaga sagaID service.Name StatusStarted w with
      | (some err, w1) => ⟨.ret (some err), w1, [Call.InsertSaga sagaID service.Name StatusStarted]⟩
      | (none, w1) =>
        let sent := service.send ⟨sagaID, CommandStart⟩ w1
        let log := Call.InsertSaga sagaID service.Name StatusStarted :: sent.calls
        match sent.out with
        | .panic reason => ⟨.panic reason, sent.world, log⟩
        | .ret (some err) => ⟨.ret (some (GoError.wrapf "service send: " err)), sent.world, log⟩
        | .ret none => ⟨.ret none, sent.world, log⟩

/-- The method `Saga.startNextService`. -/
def Saga.startNextService {W : Type} (s : Saga W) (r : Response) (w : W) :
    Run W (Option GoError) :=
  match s.findNextService r.Service with
  | .panic reason => ⟨.panic reason, w, []⟩
  | .ret (_, some err) =>
    if err = GoError.ErrEndOfWorkflow then
      match s.storage.UpdateStatus r.SagaID StatusCompleted w with
      | (some e, w1) =>
        ⟨.ret (some (GoError.wrapf "update status: " e)), w1,
          [Call.UpdateStatus r.SagaID StatusCompleted]⟩
      | (none, w1) => ⟨.ret none, w1, [Call.UpdateStatus r.SagaID StatusCompleted]⟩
    else
      match s.storage.UpdateStatus r.SagaID StatusError w with
      | (some e, w1) =>
        ⟨.ret (some (GoError.wrapf "update status: " e)), w1,
          [Call.UpdateStatus r.SagaID StatusError]⟩
      | (none, w1) =>
        ⟨.ret (some (GoError.wrapf "find next: " err)), w1,
          [Call.UpdateStatus r.SagaID StatusError]⟩
  | .ret (next, none) =>
    match s.storage.UpdateService r.SagaID r.Service next.Name w with
    | (some e, w1) =>
      if e = GoError.ErrNoRows then
        ⟨.ret none, w1, [Call.UpdateService r.SagaID r.Service next.Name]⟩
      else
        ⟨.ret (some (GoError.wrapf "update service: " e)), w1,
          [Call.UpdateService r.SagaID r.Service next.Name]⟩
    | (none, w1) =>
      let sent := next.send ⟨r.SagaID, CommandStart⟩ w1
      let log := Call.UpdateService r.SagaID r.Service next.Name :: sent.calls
      match sent.out with
      | .panic reason => ⟨.panic reason, sent.world, log⟩
      | .ret (some e) => ⟨.ret (some (GoError.wrapf "service send: " e)), sent.world, log⟩
      | .ret none => ⟨.ret none, sent.world, log⟩

/-- The method `Saga.ProcessMessage`. -/
def Saga.ProcessMessage {W : Type} (s : Saga W) (inp : AnyMsg) (w : W) :
    Run W (Option GoError) :=
  match inp with
  | .Response response =>
    if response.Status = StatusWorkDone then s.startNextService response w
    else if response.Status = StatusError then
      match s.storage.UpdateStatus response.SagaID response.Status w with
      | (some e, w1) =>
        ⟨.ret (some (GoError.wrapf "save status: " e)), w1,
          [Call.UpdateStatus response.SagaID response.Status]⟩
      | (none, w1) =>
        ⟨.ret (some (GoError.errorf ("response error " ++ response.SagaID.String))), w1,
          [Call.UpdateStatus response.SagaID response.Status]⟩
    else
      ⟨.ret (some (GoError.errorf
        ("unknown status " ++ response.Status ++ " saga " ++ response.SagaID.String))), w, []⟩
  | _ => ⟨.ret (some (GoError.errorf "malformed response")), w, []⟩

/-! ## Package database -/

/-- A row of the table `sagas(id, status, service, date_created)`. -/
structure SagaRow where
  id : UUID
  status : String
  service : String
  date_created : Nat
  deriving DecidableEq, Repr

/-- What the driver does with one statement: it runs it (`ok`), it fails in
`ExecContext`, or it runs it and the result fails in `RowsAffected`. -/
inductive Fault where
  | ok
  | execContext (e : GoError)
  | rowsAffected (e : GoError)
  deriving DecidableEq, Repr

/-- The database behind `*sqlx.DB`: the table, the clock read by `NOW()` and
the driver outcomes of the statements to come (none left: every statement
runs). -/
structure DB where
  rows : List SagaRow
  clock : Nat
  faults : List Fault
  deriving DecidableEq, Repr

/-- A `sql.Result`: what `RowsAffected()` returns. -/
abbrev SqlResult := Except GoError Nat

/-- The call `db.ExecContext(ctx, query, args...)`, the statement given by its
effect on the table at a time: the new table and the number of rows affected. -/
def DB.ExecContext (db : DB) (stmt : Nat → List SagaRow → List SagaRow × Nat) :
    Except GoError SqlResult × DB :=
  match db.faults with
  | Fault.execContext e :: rest =>
    (.error e, { rows := db.rows, clock := db.clock + 1, faults := rest })
  | Fault.rowsAffected e :: rest =>
    (.ok (.error e), { rows := (stmt db.clock db.rows).1, clock := db.clock + 1, faults := rest })
  | Fault.ok :: rest =>
    (.ok (.ok (stmt db.clock db.rows).2),
      { rows := (stmt db.clock db.rows).1, clock := db.clock + 1, faults := rest })
  | [] =>
    (.ok (.ok (stmt db.clock db.rows).2),
      { rows := (stmt db.clock db.rows).1, clock := db.clock + 1, faults := [] })

/-- The statement `INSERT INTO sagas(...) VALUES ($1, $2, $3, NOW()) ON CONFLICT(id) DO NOTHING`
with `$1 = id`, `$2 = status`, `$3 = service`. -/
def insertStmt (id : UUID) (status service : String) (now : Nat) (rows : List SagaRow) :
    List SagaRow × Nat :=
  if rows.any (fun r => decide (r.id = id)) then (rows, 0)
  else (rows ++ [{ id := id, status := status, service := service, date_created := now }], 1)

/-- The statement `UPDATE sagas SET status = $1 WHERE id = $2`. -/
def updateStatusStmt (status : String) (id : UUID) (_now : Nat) (rows : List SagaRow) :
    List SagaRow × Nat :=
  (rows.map (fun r => if r.id = id then { r with status := status } else r),
    rows.countP (fun r => decide (r.id = id)))

/-- The statement `UPDATE sagas SET service = $1 WHERE id = $2 AND service = $3`. -/
def updateServiceStmt (next : String) (id : UUID) (prev : String) (_now : Nat)
    (rows : List SagaRow) : List SagaRow × Nat :=
  (rows.map (fun r => if r.id = id ∧ r.service = prev then { r with service := next } else r),
    rows.countP (fun r => decide (r.id = id ∧ r.service = prev)))

def Storage.insertQuery : String :=
  "INSERT INTO sagas(id, status, service, date_created) VALUES ($1, $2, $3, NOW()) \n                \tON CONFLICT(id) DO NOTHING"

def Storage.updateStatusQuery : String := "UPDATE sagas SET status = $1 WHERE id = $2"

def Storage.updateServiceQuery : String :=
  "UPDATE sagas SET service = $1 WHERE id = $2 AND service = $3"

/-- The method `Storage.InsertSaga`. -/
def Storage.InsertSaga (sagaID : UUID) (service status : String) (db : DB) :
    Option GoError × DB :=
  match db.ExecContext (insertStmt sagaID status service) with
  | (.error err, db1) =>
    (some (GoError.wrapf ("query " ++ Storage.insertQuery ++ ": ") err), db1)
  | (.ok _, db1) => (none, db1)

/-- The method `Storage.UpdateStatus`. -/
def Storage.UpdateStatus (sagaID : UUID) (status : String) (db : DB) : Option GoError × DB :=
  match db.ExecContext (updateStatusStmt status sagaID) with
  | (.error err, db1) =>
    (some (GoError.wrapf ("query " ++ Storage.updateStatusQuery ++ ": ") err), db1)
  | (.ok res, db1) =>
    match res with
    | .error err => (some (GoError.wrapf "affected rows: " err), db1)
    | .ok affected => if affected = 0 then (some GoError.ErrNoRows, db1) else (none, db1)

/-- The method `Storage.UpdateService`. -/
def Storage.UpdateService (sagaID : UUID) (prev next : String) (db : DB) :
    Option GoError × DB :=
  match db.ExecContext (updateServiceStmt next sagaID prev) with
  | (.error err, db1) =>
    (some (GoError.wrapf ("query " ++ Storage.updateServiceQuery ++ ": ") err), db1)
  | (.ok _, db1) => (none, db1)

/-- The world of the running service: the database and the state `Q` of the
queues the senders write to. -/
structure Sys (Q : Type) where
  db : DB
  queues : Q

/-- The value `database.NewStorage(db)` as a `saga.Storer`: it acts on the
database of the world. -/
def Storage.storer {Q : Type} : Storer (Sys Q) where
  InsertSaga := fun id service status w =>
    ((Storage.InsertSaga id service status w.db).1,
      { w with db := (Storage.InsertSaga id service status w.db).2 })
  UpdateStatus := fun id status w =>
    ((Storage.UpdateStatus id status w.db).1,
      { w with db := (Storage.UpdateStatus id status w.db).2 })
  UpdateService := fun id prev next w =>
    ((Storage.UpdateService id prev next w.db).1,
      { w with db := (Storage.UpdateService id prev next w.db).2 })

/-- A sender over the queues taken as a sender of the running service: it
acts on the queues of the world. -/
def Sender.onQueues {Q : Type} (sd : Sender Q) : Sender (Sys Q) where
  ref := sd.ref
  Send := fun msg w => ((sd.Send msg w.queues).1, { w with queues := (sd.Send msg w.queues).2 })

/-- A service whose sender writes to the queues, in the running service. -/
def Service.onQueues {Q : Type} (sv : Service Q) : Service (Sys Q) where
  Name := sv.Name
  Topic := sv.Topic
  Sender := sv.Sender.map Sender.onQueues

/-- The saga that `main` builds: the workflow over the queues with
`database.NewStorage(db)` as its store. -/
def Saga.onStorage {Q : Type} (services : List (Service Q)) : Saga (Sys Q) :=
  New { Services := services.map Service.onQueues } Storage.storer

/-- The variable `saga.SampleWorkflow`. -/
def SampleWorkflow {W : Type} : List (Service W) :=
  [⟨"service1", "commands1", none⟩, ⟨"service2", "commands2", none⟩,
   ⟨"service3", "commands3", none⟩]

/-- The world after `k` deliveries of the same message to `ProcessMessage`. -/
def deliveries {W : Type} (s : Saga W) (inp : AnyMsg) : Nat → W → W
  | 0, w => w
  | k + 1, w => deliveries s inp k (s.ProcessMessage inp w).world

/-! ## Package queue: the poll -/

/-- An `sqs.Message`, of which the poll reads the two pointer fields `Body`
and `ReceiptHandle` (`none` is nil). -/
structure SqsMessage where
  Body : Option String
  ReceiptHandle : Option String
  deriving DecidableEq, Repr

/-- The two methods of `queue.Receiver` the poll calls. -/
structure Receiver (W : Type) where
  ReceiveMessages : W → Except GoError (List SqsMessage) × W
  DeleteMessage : Option String → W → Option GoError × W

/-- The interface `queue.Processor`. -/
structure Processor (W : Type) where
  ProcessMessage : AnyMsg → W → Outcome (Option GoError) × W

/-- A saga as a `queue.Processor`. -/
def Saga.processor {W : Type} (s : Saga W) : Processor W where
  ProcessMessage := fun inp w => ((s.ProcessMessage inp w).out, (s.ProcessMessage inp w).world)

/-- The struct `queue.Poll[M]` with the two things its method `Start` reads
from outside: `unmarshal`, the result of `json.Unmarshal` into a zero `M`
(`none` is an error), and `isDone`, the observation of `ctx.Done()`, which may
differ from one observation to the next as the world goes on.  The logger
writes nothing the poll reads and is left out. -/
structure Poll (W M : Type) where
  incoming : Receiver W
  target : Processor W
  unmarshal : String → Option M
  isDone : W → Bool × W

/-- What the poll does with the message at position `pos` of a batch. -/
inductive PollEvent (M : Type) where
  | process (pos : Nat) (msg : M)
  | delete (pos : Nat) (handle : Option String)

/-- The position of the message an event is about. -/
def PollEvent.pos {M : Type} : PollEvent M → Nat
  | .process pos _ => pos
  | .delete pos _ => pos

/-- How the loop over a batch ends: it runs out of messages, it executes
`return nil`, or it panics. -/
inductive BatchEnd where
  | completed
  | returned
  | panicked (reason : String)
  deriving DecidableEq, Repr

/-- The loop `for _, m := range msgs` of `Poll.Start`, from position `pos`. -/
def Poll.batch {W M : Type} [Message M] (p : Poll W M) :
    Nat → List SqsMessage → W → BatchEnd × W × List (PollEvent M)
  | _, [], w => (.completed, w, [])
  | pos, m :: rest, w =>
    match p.isDone w with
    | (true, w1) => (.returned, w1, [])
    | (false, w1) =>
      match m.Body with
      | none => (.panicked "invalid memory address or nil pointer dereference", w1, [])
      | some body =>
        match p.unmarshal body with
        | none => p.batch (pos + 1) rest w1
        | some msg =>
          match p.target.ProcessMessage (Message.toAny msg) w1 with
          | (.panic reason, w2) => (.panicked reason, w2, [.process pos msg])
          | (.ret (some _), w2) =>
            let rest1 := p.batch (pos + 1) rest w2
            (rest1.1, rest1.2.1, .process pos msg :: rest1.2.2)
          | (.ret none, w2) =>
            let rest1 := p.batch (pos + 1) rest (p.incoming.DeleteMessage m.ReceiptHandle w2).2
            (rest1.1, rest1.2.1, .process pos msg :: .delete pos m.ReceiptHandle :: rest1.2.2)

/-- One turn of the outer loop of `Poll.Start` that received a batch. -/
structure Round (M : Type) where
  batch : List SqsMessage
  events : List (PollEvent M)

/-- The method `Poll.Start`, the outer loop run for at most `fuel` turns:
`none` when the loop is still running after them. -/
def Poll.Start {W M : Type} [Message M] (p : Poll W M) :
    Nat → W → Option (Outcome (Option GoError)) × W × List (Round M)
  | 0, w => (none, w, [])
  | fuel + 1, w =>
    match p.isDone w with
    | (true, w1) => (some (.ret none), w1, [])
    | (false, w1) =>
      match p.incoming.ReceiveMessages w1 with
      | (.error _, w2) => p.Start fuel w2
      | (.ok msgs, w2) =>
        match p.batch 0 msgs w2 with
        | (.completed, w3, evs) =>
          let later := p.Start fuel w3
          (later.1, later.2.1, ⟨msgs, evs⟩ :: later.2.2)
        | (.returned, w3, evs) => (some (.ret none), w3, [⟨msgs, evs⟩])
        | (.panicked reason, w3, evs) => (some (.panic reason), w3, [⟨msgs, evs⟩])

/-! ## Test doubles -/

/-- A store in the manner of `MockStorer`: each method returns the error it
was set up with and keeps no state. -/
def mockStorer (insertErr statusErr serviceErr : Option GoError) : Storer Unit where
  InsertSaga := fun _ _ _ w => (insertErr, w)
  UpdateStatus := fun _ _ w => (statusErr, w)
  UpdateService := fun _ _ _ w => (serviceErr, w)

/-- A sender in the manner of `MockSender`: `Send` returns the error it was
set up with. -/
def mockSender (ref : Nat) (err : Option GoError) : Sender Unit where
  ref := ref
  Send := fun _ w => (err, w)

/-- A sender that appends the command, with its own identity, to the list of
everything sent. -/
def recordingSender (ref : Nat) : Sender (List (Nat × Command)) where
  ref := ref
  Send := fun msg q => (none, q ++ [(ref, msg)])

/-- The sample workflow with a recording sender for each service. -/
def recordingWorkflow : List (Service (List (Nat × Command))) :=
  [⟨"service1", "commands1", some (recordingSender 1)⟩,
   ⟨"service2", "commands2", some (recordingSender 2)⟩,
   ⟨"service3", "commands3", some (recordingSender 3)⟩]

/-- A saga id used in the examples. -/
def exampleID : UUID := ⟨[1, 2, 3, 4, 5, 6, 7, 8, 9, 10, 11, 12, 13, 14, 15, 16]⟩

/-- A poll over a receiver that hands out one message, whose body decodes to
a response with the empty status; the context is never done. -/
def examplePoll (s : Saga Unit) : Poll Unit Response where
  incoming :=
    { ReceiveMessages := fun w => (.ok [⟨some "empty status", some "handle1"⟩], w)
      DeleteMessage := fun _ w => (none, w) }
  target := s.processor
  unmarshal := fun body =>
    if body = "empty status" then some ⟨exampleID, "service1", ""⟩ else none
  isDone := fun w => (false, w)

/-- What was done to the world of a recording poll: a message was handed to
the processor, or `DeleteMessage` was called with a receipt handle. -/
inductive PollCall where
  | processed (r : Response)
  | deleted (handle : Option String)
  deriving DecidableEq, Repr

/-- A batch of four messages: the second does not decode and the processing
of the third fails. -/
def recordingBatch : List SqsMessage :=
  [⟨some "service1", some "handle1"⟩, ⟨some "not json", some "handle2"⟩,
   ⟨some "failing", some "handle3"⟩, ⟨some "service3", some "handle4"⟩]

/-- A poll whose world is the list of the calls made on its processor and of
the calls of `DeleteMessage` on its receiver, in order.  The receiver hands
out `recordingBatch`; a body decodes to a response of the service it names,
with status "done", but for "not json", which does not decode, and "failing",
which decodes to a response with status "error"; the processor returns nil
for the status "done" and an error otherwise; the context is never done. -/
def recordingPoll : Poll (List PollCall) Response where
  incoming :=
    { ReceiveMessages := fun w => (.ok recordingBatch, w)
      DeleteMessage := fun handle w => (none, w ++ [PollCall.deleted handle]) }
  target :=
    { ProcessMessage := fun inp w =>
        match inp with
        | .Response r =>
          (if r.Status = "done" then .ret none else .ret (some (GoError.errorf "failed")),
            w ++ [PollCall.processed r])
        | _ => (.ret (some (GoError.errorf "malformed response")), w) }
  unmarshal := fun body =>
    if body = "not json" then none
    else if body = "failing" then some ⟨exampleID, "failing", "error"⟩
    else some ⟨exampleID, body, "done"⟩
  isDone := fun w => (false, w)

/-- The effect of `UpdateService(id, prev, next)` on a row. -/
def advanceRow (id : UUID) (prev next : String) (r : SagaRow) : SagaRow :=
  if r.id = id ∧ r.service = prev then { r with service := next } else r

/-- A database whose driver runs every statement to come. -/
def DB.healthy (db : DB) : Prop := ∀ f ∈ db.faults, f = Fault.ok

/-- The running service with one stored saga, owned by `service1`, and
nothing sent yet. -/
def exampleSys : Sys (List (Nat × Command)) :=
  { db := { rows := [⟨exampleID, "started", "service1", 0⟩], clock := 1, faults := [] }
    queues := [] }

/-- A workflow in which the first and the third participant have the name
`a`; the sender of the last participant fails with a queue error. -/
def repeatedWorkflow : List (Service Unit) :=
  [⟨"a", "t1", some (mockSender 1 none)⟩, ⟨"b", "t2", some (mockSender 2 none)⟩,
   ⟨"a", "t3", some (mockSender 3 none)⟩,
   ⟨"c", "t4", some (mockSender 4 (some (GoError.foreign 2 "queue error")))⟩]

/-- A workflow of two participants with the same name, with recording
senders. -/
def twinWorkflow : List (Service (List (Nat × Command))) :=
  [⟨"a", "t1", some (recordingSender 1)⟩, ⟨"a", "t2", some (recordingSender 2)⟩]

/-- The running service with one stored saga, owned by `a`, and nothing sent
yet. -/
def twinSys : Sys (List (Nat × Command)) :=
  { db := { rows := [⟨exampleID, "started", "a", 0⟩], clock := 1, faults := [] }
    queues := [] }

/-! ## Sequences of calls on the saga -/

/-- A call on the saga: `Start` from the HTTP handler or `ProcessMessage` from
the poll. -/
inductive Op where
  | Start (sagaID : UUID)
  | ProcessMessage (inp : AnyMsg)
  deriving DecidableEq, Repr

/-- The world a call leaves. -/
def applyOp {W : Type} (s : Saga W) (op : Op) (w : W) : W :=
  match op with
  | .Start sagaID => (s.Start sagaID w).world
  | .ProcessMessage inp => (s.ProcessMessage inp w).world

/-- The world a sequence of calls leaves, each call made in the world the one
before it left. -/
def applyOps {W : Type} (s : Saga W) : List Op → W → W
  | [], w => w
  | op :: ops, w => applyOps s ops (applyOp s op w)

/-- The effect of `UpdateStatus(id, status)` on a row. -/
def setStatusRow (id : UUID) (status : String) (r : SagaRow) : SagaRow :=
  if r.id = id then { r with status := status } else r

/-- The next statement runs and its result can be read: the driver fails
neither in `ExecContext` nor in `RowsAffected`. -/
def DB.nextRuns (db : DB) : Prop := db.faults.head? = none ∨ db.faults.head? = some Fault.ok

/-- The world in which the loop over a batch, started at position `pos` in
the world `w`, takes up the message at position `j` of the batch, past the
check of the context: `none` when the loop ends at an earlier message (a
`return nil` or a panic) or finds the context done at this one. -/
def Poll.reached {W M : Type} [Message M] (p : Poll W M) (pos : Nat) (msgs : List SqsMessage)
    (w : W) (j : Nat) : Option W :=
  if (p.batch pos (msgs.take j) w).1 = BatchEnd.completed then
    (if (p.isDone (p.batch pos (msgs.take j) w).2.1).1 = true then none
     else some (p.isDone (p.batch pos (msgs.take j) w).2.1).2)
  else none

/-! ## Package handlers -/

/-- The constant `http.StatusOK`. -/
def StatusOK : Nat := 200

/-- The constant `http.StatusBadRequest`. -/
def StatusBadRequest : Nat := 400

/-- The constant `http.StatusInternalServerError`. -/
def StatusInternalServerError : Nat := 500

/-- The function `http.StatusText` on the codes the handlers use. -/
def StatusText (code : Nat) : String :=
  if code = 200 then "OK"
  else if code = 400 then "Bad Request"
  else if code = 500 then "Internal Server Error"
  else ""

/-- The struct `handlers.errorResponse`, with the field tag `json:"error"`. -/
structure errorResponse where
  Error : String
  deriving DecidableEq, Repr

/-- A value of type `any` handed to `respond`: nil, an `errorResponse`, or a
value `encoding/json` has no encoding for. -/
inductive RespData where
  | nil
  | errorResponse (e : errorResponse)
  | unsupported (typeName : String)
  deriving DecidableEq, Repr

/-- The encoding of one character inside a JSON string by `encoding/json`:
the quote, the backslash, the control characters and the characters `<`, `>`
and `&` are escaped. -/
def jsonEscapeChar (c : Char) : List Char :=
  if c.toNat = 34 then [Char.ofNat 92, Char.ofNat 34]
  else if c.toNat = 92 then [Char.ofNat 92, Char.ofNat 92]
  else if c.toNat = 10 then [Char.ofNat 92, 'n']
  else if c.toNat = 13 then [Char.ofNat 92, 'r']
  else if c.toNat = 9 then [Char.ofNat 92, 't']
  else if c.toNat = 8 then [Char.ofNat 92, 'b']
  else if c.toNat = 12 then [Char.ofNat 92, 'f']
  else if c.toNat < 32 ∨ c.toNat = 60 ∨ c.toNat = 62 ∨ c.toNat = 38 then
    Char.ofNat 92 :: 'u' :: '0' :: '0' :: hexByte c.toNat
  else if c.toNat = 8232 then [Char.ofNat 92, 'u', '2', '0', '2', '8']
  else if c.toNat = 8233 then [Char.ofNat 92, 'u', '2', '0', '2', '9']
  else [c]

/-- The encoding of a Go string by `encoding/json`. -/
def jsonString (s : String) : String :=
  String.mk (Char.ofNat 34 :: (s.data.map jsonEscapeChar).flatten ++ [Char.ofNat 34])

/-- The function `json.Marshal` on the values handed to `respond`. -/
def jsonMarshal : RespData → Except GoError String
  | .nil => .ok "null"
  | .errorResponse e => .ok ("\x7b\"error\":" ++ jsonString e.Error ++ "\x7d")
  | .unsupported typeName => .error (GoError.foreign 0 ("json: unsupported type: " ++ typeName))

/-- An `http.ResponseWriter` that records what is written to it: the header
map, the status code once `WriteHeader` has run, the body, and the error its
`Write` returns, if it is to fail. -/
structure ResponseWriter where
  header : List (String × String)
  status : Option Nat
  body : String
  failWrite : Option GoError
  deriving DecidableEq, Repr

/-- A writer nothing was written to, whose `Write` succeeds. -/
def ResponseWriter.fresh : ResponseWriter :=
  { header := [], status := none, body := "", failWrite := none }

/-- The call `w.Header().Set(key, value)`. -/
def ResponseWriter.HeaderSet (w : ResponseWriter) (key value : String) : ResponseWriter :=
  { w with header := (key, value) :: w.header.filter (fun kv => kv.1 ≠ key) }

/-- The method `WriteHeader`: the first call fixes the status code. -/
def ResponseWriter.WriteHeader (w : ResponseWriter) (statusCode : Nat) : ResponseWriter :=
  match w.status with
  | some _ => w
  | none => { w with status := some statusCode }

/-- The method `Write`: it sends the header with status 200 if none was sent,
then the bytes. -/
def ResponseWriter.Write (w : ResponseWriter) (data : String) :
    Option GoError × ResponseWriter :=
  match w.failWrite with
  | some err => (some err, w.WriteHeader StatusOK)
  | none => (none, { w.WriteHeader StatusOK with body := w.body ++ data })

/-- The part of an `http.Request` the handler reads: the method and the
parsed form, each key with its values. -/
structure Request where
  Method : String
  Form : List (String × List String)
  deriving DecidableEq, Repr

/-- The method `FormValue`: the first value of the key, or the empty string. -/
def Request.FormValue (r : Request) (key : String) : String :=
  match r.Form.find? (fun kv => kv.1 = key) with
  | some (_, v :: _) => v
  | _ => ""

/-- The struct `handlers.APIConfig`, with the function `uuid.Parse` the
handler calls; the logger and the database handle are not read by
`handleStart` and `respond` for anything but logging. -/
structure APIConfig (W : Type) where
  Saga : Saga W
  uuidParse : String → Except GoError UUID

/-- The method `APIConfig.respond`. -/
def APIConfig.respond {W : Type} (_cfg : APIConfig W) (w : ResponseWriter) (statusCode : Nat)
    (data : RespData) : ResponseWriter :=
  match jsonMarshal data with
  | .error _ => w.WriteHeader StatusInternalServerError
  | .ok jsonData =>
    (((w.HeaderSet "Content-Type" "application/json").WriteHeader statusCode).Write jsonData).2

/-- What a handler leaves: how it ended, the writer, the world, the ids
`Saga.Start` was called with and the calls the saga made. -/
structure Handled (W : Type) where
  out : Outcome Unit
  writer : ResponseWriter
  world : W
  started : List UUID
  calls : List Call

/-- The handler `APIConfig.handleStart` returns. -/
def APIConfig.handleStart {W : Type} (cfg : APIConfig W) (rw : ResponseWriter) (r : Request)
    (w : W) : Handled W :=
  match cfg.uuidParse (r.FormValue "saga_id") with
  | .error _ =>
    { out := .ret (), world := w, started := [], calls := []
      writer := cfg.respond rw StatusBadRequest
        (.errorResponse { Error := "input saga id is incorrect" }) }
  | .ok sagaUUID =>
    let run := cfg.Saga.Start sagaUUID w
    match run.out with
    | .panic reason =>
      { out := .panic reason, writer := rw, world := run.world, started := [sagaUUID],
        calls := run.calls }
    | .ret (some _) =>
      { out := .ret (), world := run.world, started := [sagaUUID], calls := run.calls
        writer := cfg.respond rw StatusInternalServerError
          (.errorResponse { Error := StatusText StatusInternalServerError }) }
    | .ret none =>
      { out := .ret (), world := run.world, started := [sagaUUID], calls := run.calls
        writer := cfg.respond rw StatusOK .nil }

/-- A parser that takes the one text "0102...10" for the example id and
rejects every other text. -/
def exampleParse (s : String) : Except GoError UUID :=
  if s = "01020304-0506-0708-090a-0b0c0d0e0f10" then .ok exampleID
  else .error (GoError.foreign 3 "invalid UUID length")

/-! ## Package service: the task supervisor

`App.Run` starts one goroutine for each task and one monitor goroutine and
waits for the tasks.  It is embedded as a step function on the joint state of
these goroutines: a step is one action of one goroutine (or of the world
around: the caller's context is cancelled, a signal arrives), a run is a list
of steps, and a statement on every run is a statement on every list. -/

/-- The constant `ExitOK`. -/
def ExitOK : Nat := 0

/-- The constant `ExitFail`. -/
def ExitFail : Nat := 1

/-- How the call `task(ctx)` ends: it returns nil, it returns an error, or it
panics with a value (printed with `%v`) that `recover` gets back. -/
inductive TaskResult where
  | nil
  | err (e : GoError)
  | panic (v : String)
  deriving DecidableEq, Repr

/-- The task ended with an error or a panic. -/
def TaskResult.failed : TaskResult → Bool
  | .nil => false
  | .err _ => true
  | .panic _ => true

/-- The error the goroutine of a task sends on `serviceErr`: the task's error,
or `fmt.Errorf("panic: %v", r)` from the deferred function. -/
def TaskResult.sent : TaskResult → Option GoError
  | .nil => none
  | .err e => some e
  | .panic v => some (GoError.errorf ("panic: " ++ v))

/-- A `Runner`, given by the ways it may end: `ends done r` says that the call
`task(ctx)` may end with `r` at a moment when `ctx` is done (`done = true`) or
is not. -/
structure Runner where
  ends : Bool → TaskResult → Bool

/-- The struct `App`. -/
structure App where
  tasks : List Runner

/-- The method `App.Add`. -/
def App.Add (a : App) (r : Runner) : App := { tasks := a.tasks ++ [r] }

/-- The goroutine of a task: not started, inside `task(ctx)`, blocked in the
send on `serviceErr`, past the send or a nil return with `wg.Done()` still to
run, and ended. -/
inductive Worker where
  | idle
  | running
  | sending (r : TaskResult)
  | exiting (r : TaskResult)
  | done (r : TaskResult)
  deriving DecidableEq, Repr

/-- Where the goroutine that called `Run` is: in the loop that starts the
tasks, `k` of them started; before `go func()` of the monitor; in `wg.Wait()`;
in the send on `monitorExit`; returned. -/
inductive MainPC where
  | launching (k : Nat)
  | spawn
  | waiting
  | sendingExit
  | returned (code : Nat)
  deriving DecidableEq, Repr

/-- Where the monitor goroutine is: not started, in the `select`, in the case
of `serviceErr` with the error received, before `cancel()`, returned. -/
inductive MonitorPC where
  | absent
  | selecting
  | received (e : GoError)
  | cancelling
  | exited
  deriving DecidableEq, Repr

/-- The joint state of a run of `App.Run`. -/
structure AppState where
  workers : List Worker
  wg : Nat
  main : MainPC
  monitor : MonitorPC
  exitCode : Nat
  cancelled : Bool
  parentDone : Bool
  notified : Bool
  stop : Option String
  deriving DecidableEq, Repr

/-- The context handed to the tasks is done: `cancel()` was called or the
caller's context is done. -/
def AppState.ctxDone (s : AppState) : Bool := s.cancelled || s.parentDone

/-- One action of one goroutine, or of the world around. -/
inductive Step where
  | launch
  | setup
  | spawnMonitor
  | taskEnd (i : Nat) (r : TaskResult)
  | recvErr (i : Nat)
  | workerDone (i : Nat)
  | monitorSet
  | recvSignal
  | monitorCancel
  | wait
  | recvExit
  | parentCancel
  | signal (sig : String)
  deriving DecidableEq, Repr

/-- The step is of the world around `Run`, not of one of its goroutines. -/
def Step.external : Step → Bool
  | .parentCancel => true
  | .signal _ => true
  | _ => false

/-- The state when `Run` is called. -/
def App.init (a : App) : AppState :=
  { workers := List.replicate a.tasks.length Worker.idle, wg := 0, main := .launching 0,
    monitor := .absent, exitCode := ExitOK, cancelled := false, parentDone := false,
    notified := false, stop := none }

/-- The state after a step, `none` when the step cannot be taken.
* `launch`: `a.wg.Add(1); go func(task Runner)` for the next task;
* `setup`: the loop is over; `exitCode := ExitOK`, `signal.Notify(stop, ...)`;
* `spawnMonitor`: `go func()` of the monitor, then `a.wg.Wait()` is entered;
* `taskEnd i r`: `task(ctx)` of task `i` ends with `r`; a nil return goes on to
  the deferred calls, an error or a recovered panic to the send on `serviceErr`;
* `recvErr i`: the unbuffered send of task `i` meets `case sErr := <-serviceErr`;
* `workerDone i`: the deferred `a.wg.Done()`;
* `monitorSet`: `exitCode = ExitFail`;
* `recvSignal`: `case osSignal := <-stop`;
* `monitorCancel`: `cancel()`, and back to the `select`;
* `wait`: `a.wg.Wait()` returns, the counter being zero;
* `recvExit`: the send on `monitorExit` meets `case <-monitorExit`, the monitor
  returns and `Run` returns `exitCode`;
* `parentCancel`: the caller's context is cancelled;
* `signal sig`: an interrupt or terminate signal arrives, kept if the buffer of
  `stop` (one place) is free. -/
def App.step (a : App) (st : Step) (s : AppState) : Option AppState :=
  match st with
  | .launch =>
    match s.main with
    | .launching k =>
      if k < a.tasks.length then
        some { s with workers := s.workers.set k .running, wg := s.wg + 1,
                      main := .launching (k + 1) }
      else none
    | _ => none
  | .setup =>
    match s.main with
    | .launching k =>
      if k = a.tasks.length then some { s with exitCode := ExitOK, notified := true, main := .spawn }
      else none
    | _ => none
  | .spawnMonitor =>
    match s.main with
    | .spawn => some { s with monitor := .selecting, main := .waiting }
    | _ => none
  | .taskEnd i r =>
    match s.workers[i]?, a.tasks[i]? with
    | some .running, some t =>
      if t.ends s.ctxDone r then
        some { s with workers := s.workers.set i (if r.failed then .sending r else .exiting r) }
      else none
    | _, _ => none
  | .recvErr i =>
    match s.workers[i]?, s.monitor with
    | some (.sending r), .selecting =>
      match r.sent with
      | some e => some { s with workers := s.workers.set i (.exiting r), monitor := .received e }
      | none => none
    | _, _ => none
  | .workerDone i =>
    match s.workers[i]? with
    | some (.exiting r) => some { s with workers := s.workers.set i (.done r), wg := s.wg - 1 }
    | _ => none
  | .monitorSet =>
    match s.monitor with
    | .received _ => some { s with exitCode := ExitFail, monitor := .cancelling }
    | _ => none
  | .recvSignal =>
    match s.monitor, s.stop with
    | .selecting, some _ => some { s with stop := none, monitor := .cancelling }
    | _, _ => none
  | .monitorCancel =>
    match s.monitor with
    | .cancelling => some { s with cancelled := true, monitor := .selecting }
    | _ => none
  | .wait =>
    match s.main with
    | .waiting => if s.wg = 0 then some { s with main := .sendingExit } else none
    | _ => none
  | .recvExit =>
    match s.main, s.monitor with
    | .sendingExit, .selecting => some { s with main := .returned s.exitCode, monitor := .exited }
    | _, _ => none
  | .parentCancel => some { s with parentDone := true }
  | .signal sig =>
    if s.notified then
      some { s with stop := match s.stop with
                            | none => some sig
                            | some kept => some kept }
    else none

/-- The state after a list of steps, `none` when one of them cannot be taken. -/
def App.exec (a : App) : List Step → AppState → Option AppState
  | [], s => some s
  | st :: rest, s =>
    match a.step st s with
    | none => none
    | some s1 => a.exec rest s1

/-- The method `App.Run` along a list of steps: the exit code when the steps
can be taken and `Run` has returned after them. -/
def App.Run (a : App) (sched : List Step) : Option Nat :=
  match a.exec sched a.init with
  | some s =>
    match s.main with
    | .returned code => some code
    | _ => none
  | none => none

/-- A task as in `initApp` of the tests: it blocks until the context is done
and then returns nil. -/
def Runner.untilDone : Runner := { ends := fun done r => done && decide (r = TaskResult.nil) }

/-- A task that ends with `r` whatever the context. -/
def Runner.ending (r : TaskResult) : Runner := { ends := fun _ x => decide (x = r) }

/-- The number of steps of its own a worker is away from having ended, the
communication with the monitor counted in. -/
def Worker.weight : Worker → Nat
  | .idle => 7
  | .running => 6
  | .sending _ => 4
  | .exiting _ => 1
  | .done _ => 0

/-- One for a worker that `wg` counts: started and `wg.Done()` not yet run. -/
def Worker.active : Worker → Nat
  | .running => 1
  | .sending _ => 1
  | .exiting _ => 1
  | _ => 0

/-- One for a worker not started. -/
def Worker.isIdle : Worker → Nat
  | .idle => 1
  | _ => 0

/-- One for a worker whose error the monitor has received. -/
def Worker.reported : Worker → Nat
  | .exiting r => if r.failed then 1 else 0
  | .done r => if r.failed then 1 else 0
  | _ => 0

/-- One for a worker in the send with a result that is not a failure. -/
def Worker.wrong : Worker → Nat
  | .sending r => if r.failed then 0 else 1
  | _ => 0

/-- A bound on the number of steps of its goroutines that `Run` is away from
returning. -/
def AppState.measure (s : AppState) : Nat :=
  (s.workers.map Worker.weight).sum +
  (match s.main with
    | .launching _ => 4
    | .spawn => 3
    | .waiting => 2
    | .sendingExit => 1
    | .returned _ => 0) +
  (match s.monitor with
    | .received _ => 2
    | .cancelling => 1
    | _ => 0) +
  (match s.stop with
    | some _ => 2
    | none => 0)

/-- How the call `task(ctx)` of the worker has ended, if it has. -/
def Worker.result : Worker → Option TaskResult
  | .sending r => some r
  | .exiting r => some r
  | .done r => some r
  | _ => none

/-- The call `task(ctx)` of the worker has ended. -/
def Worker.ended : Worker → Bool
  | .idle => false
  | .running => false
  | _ => true

/-- What holds of every state of a run of `App.Run`: the counter of the wait
group is the number of workers started and not ended; the workers not started
are those the loop has not reached; the monitor is there from the moment `Run`
waits until `Run` returns; the exit code is `ExitFail`, or about to be set to
it, exactly when the monitor has received the error of a task; only failures
are sent; past the wait the counter is zero; the code returned is the exit
code; a task that cannot end while the context is not done has ended only if
the context is done; once the error of a task is received `cancel()` has run
or is about to; a task has ended in one of the ways it may end. -/
structure AppState.Inv (a : App) (s : AppState) : Prop where
  len : s.workers.length = a.tasks.length
  wg_eq : s.wg = (s.workers.map Worker.active).sum
  idle_iff : ∀ i, i < a.tasks.length →
    (s.workers[i]? = some Worker.idle ↔ ∃ k, s.main = MainPC.launching k ∧ k ≤ i)
  launching_le : ∀ k, s.main = MainPC.launching k → k ≤ a.tasks.length
  monitor_absent : s.monitor = MonitorPC.absent ↔
    (s.main = MainPC.spawn ∨ ∃ k, s.main = MainPC.launching k)
  monitor_exited : s.monitor = MonitorPC.exited ↔ ∃ code, s.main = MainPC.returned code
  code_iff : (s.exitCode = ExitFail ∨ ∃ e, s.monitor = MonitorPC.received e) ↔
    0 < (s.workers.map Worker.reported).sum
  code_le : s.exitCode = ExitOK ∨ s.exitCode = ExitFail
  no_wrong : (s.workers.map Worker.wrong).sum = 0
  wg_zero : (s.main = MainPC.sendingExit ∨ ∃ code, s.main = MainPC.returned code) → s.wg = 0
  ret_code : ∀ code, s.main = MainPC.returned code → code = s.exitCode
  absent_code : s.monitor = MonitorPC.absent → s.exitCode = ExitOK
  blocked_done : ∀ (i : Nat) (t : Runner) (w : Worker), a.tasks[i]? = some t →
    s.workers[i]? = some w → w.ended = true → (∀ r, t.ends false r = false) → s.ctxDone = true
  cancel_follows : 0 < (s.workers.map Worker.reported).sum →
    s.cancelled = true ∨ (∃ e, s.monitor = MonitorPC.received e) ∨
      s.monitor = MonitorPC.cancelling
  result_ok : ∀ (i : Nat) (w : Worker) (x : TaskResult), s.workers[i]? = some w →
    w.result = some x → ∃ (t : Runner) (c : Bool), a.tasks[i]? = some t ∧ t.ends c x = true

/-- A goroutine of `Run` can take a step that brings `Run` nearer to its
return. -/
def App.CanStep (a : App) (s : AppState) : Prop :=
  ∃ (st : Step) (s1 : AppState), st.external = false ∧ a.step st s = some s1 ∧
    s1.measure < s.measure

/-- In an app whose task `j` fails on its own: as long as the context is not
done, the failure of task `j` is still to come or to be received, or the
monitor is on its way to `cancel()`. -/
def AppState.cancelPending (s : AppState) (j : Nat) : Prop :=
  s.ctxDone = false →
    (∃ w, s.workers[j]? = some w ∧
      (w = Worker.idle ∨ w = Worker.running ∨ ∃ x, w = Worker.sending x)) ∨
    (∃ e, s.monitor = MonitorPC.received e) ∨ s.monitor = MonitorPC.cancelling

/-- The app of the tests `A task with an error` and `A task with panic`: `N`
tasks that block until the context is done, then one task that ends with `r`
on its own. -/
def blockedApp (N : Nat) (r : TaskResult) : App :=
  { tasks := List.replicate N Runner.untilDone ++ [Runner.ending r] }

/-- The position and the message of an event of processing. -/
def PollEvent.processed {M : Type} : PollEvent M → Option (Nat × M)
  | .process pos msg => some (pos, msg)
  | .delete _ _ => none

/-- The messages of a batch whose body decodes into `M`, in the order of the
batch, each with its position, the first message being at position `pos`. -/
def Poll.decodable {W M : Type} (p : Poll W M) : Nat → List SqsMessage → List (Nat × M)
  | _, [] => []
  | pos, m :: rest =>
    match m.Body.bind p.unmarshal with
    | some msg => (pos, msg) :: p.decodable (pos + 1) rest
    | none => p.decodable (pos + 1) rest

/-! ## Command saga-service: the start-up -/

/-- The variable `conf.ErrHelpWanted` of the configuration library. -/
def confErrHelpWanted : GoError := GoError.foreign 1001 "help wanted"

/-- What the calls of `main` and `initialize` on the world around return: the
errors of the logger, of the configuration parser and printer, of the database,
of the AWS session, of the senders and of the receiver (`none` is nil), and the
four tasks `initialize` builds, each given by the ways it may end. -/
structure Startup where
  loggerNew : Option GoError
  confParse : Option GoError
  confStringInParse : Option GoError
  confString : Option GoError
  databaseOpen : Option GoError
  newSession : Option GoError
  newWorkflowWithSQS : Option GoError
  newReceiver : Option GoError
  serveHTTP : Runner
  pollResponses : Runner
  shutdownHTTP : Runner
  closeDatabase : Runner

/-- The function `parseConfig`: the error it returns. -/
def parseConfig (st : Startup) : Option GoError :=
  match st.confParse with
  | some err => some err
  | none =>
    match st.confStringInParse with
    | some err => some (GoError.wrapf "generating config for output: " err)
    | none => none

/-- The function `initialize` of the command, under the name `initService`: the app
and the error it returns; it panics
when `session.Must` is handed an error.  `queue.NewPoll` returns a nil error. -/
def initService (st : Startup) : Outcome (App × Option GoError) :=
  match parseConfig st with
  | some err =>
    if errorsIs err confErrHelpWanted then .ret ({ tasks := [] }, none)
    else .ret ({ tasks := [] }, some (GoError.wrapf "parsing config: " err))
  | none =>
    match st.confString with
    | some err => .ret ({ tasks := [] }, some (GoError.wrapf "generating config for output: " err))
    | none =>
      match st.databaseOpen with
      | some err => .ret ({ tasks := [] }, some (GoError.wrapf "connecting to db: " err))
      | none =>
        match st.newSession with
        | some err => .panic err.Error
        | none =>
          match st.newWorkflowWithSQS with
          | some err =>
            .ret ({ tasks := [] }, some (GoError.wrapf "creating saga workflow: " err))
          | none =>
            match st.newReceiver with
            | some err =>
              .ret ({ tasks := [] },
                some (GoError.wrapf ("creating receiver(" ++ QueueName ++ "): ") err))
            | none =>
              .ret (((((App.mk []).Add st.serveHTTP).Add st.pollResponses).Add
                st.shutdownHTTP).Add st.closeDatabase, none)

/-- The function `main` along a list of steps of `App.Run`: the exit status of
the process, `none` while `Run` has not returned. -/
def main (st : Startup) (sched : List Step) : Outcome (Option Nat) :=
  match st.loggerNew with
  | some _ => .ret (some 1)
  | none =>
    match initService st with
    | .panic reason => .panic reason
    | .ret (app, _) => .ret (app.Run sched)

/-! ## A saga run from its start to its end -/

/-- The result of a call on the saga. -/
def runOp {W : Type} (s : Saga W) (op : Op) (w : W) : Run W (Option GoError) :=
  match op with
  | .Start sagaID => s.Start sagaID w
  | .ProcessMessage inp => s.ProcessMessage inp w

/-- The results of a sequence of calls, each call made in the world the one
before it left. -/
def runOps {W : Type} (s : Saga W) : List Op → W → List (Run W (Option GoError))
  | [], _ => []
  | op :: ops, w => runOp s op w :: runOps s ops (runOp s op w).world

/-- The call is a `Send` on a sender. -/
def Call.isSend : Call → Bool
  | .Send _ _ => true
  | _ => false

/-- The delivery of the response with which the participant `name` reports
its work on the saga as done. -/
def doneFrom (sagaID : UUID) (name : String) : Op :=
  .ProcessMessage (.Response ⟨sagaID, name, "done"⟩)

/-- The calls of a saga that meets no failure: `Start`, then the "done"
response of every participant, in the order of the workflow. -/
def happyPath {W : Type} (services : List (Service W)) (sagaID : UUID) : List Op :=
  Op.Start sagaID :: services.map (fun sv => doneFrom sagaID sv.Name)

/-- The states of the queues as the command "start" of the saga is sent on the
senders of the services in turn, from the state `q`: the state each `Send`
leaves; the list ends at a service that has no sender. -/
def sendStart {Q : Type} (sagaID : UUID) : List (Service Q) → Q → List Q
  | [], _ => []
  | sv :: rest, q =>
    match sv.Sender with
    | none => []
    | some sd =>
      (sd.Send ⟨sagaID, "start"⟩ q).2 :: sendStart sagaID rest (sd.Send ⟨sagaID, "start"⟩ q).2

/-- A record of the saga is stored and every stored record of it has `service`
as its current service. -/
def DB.storedService (db : DB) (sagaID : UUID) (service : String) : Prop :=
  (∃ r ∈ db.rows, r.id = sagaID) ∧ ∀ r ∈ db.rows, r.id = sagaID → r.service = service

/-- A record of the saga is stored and every stored record of it has the
status `status`. -/
def DB.storedStatus (db : DB) (sagaID : UUID) (status : String) : Prop :=
  (∃ r ∈ db.rows, r.id = sagaID) ∧ ∀ r ∈ db.rows, r.id = sagaID → r.status = status

/-! ## The workflow lookup -/

section Lookup

variable {W : Type}

theorem findNextService.loop_found (services : List (Service W)) (name : String) (j : Nat)
    (sv : Service W) (hj : services[j]? = some sv) (hname : sv.Name = name)
    (hmin : ∀ (m : Nat) (tv : Service W), m < j → services[m]? = some tv → tv.Name ≠ name) :
    ∀ n k i, k ≤ j → k + n = services.length →
      findNextService.loop services name n k i = .ret (j, true) := by
  have hjlt : j < services.length := by
    rcases Nat.lt_or_ge j services.length with h | h
    · exact h
    · rw [List.getElem?_eq_none h] at hj; cases hj
  intro n
  induction n with
  | zero => intro k i hk hlen; omega
  | succ n ih =>
    intro k i hk hlen
    have hklt : k < services.length := by omega
    rcases Nat.eq_or_lt_of_le hk with heq | hlt
    · subst heq
      simp [findNextService.loop, hj, hname]
    · have hne := hmin k (services[k]) hlt (List.getElem?_eq_getElem hklt)
      simp only [findNextService.loop, List.getElem?_eq_getElem hklt, if_neg hne]
      exact ih (k + 1) k hlt (by omega)

theorem findNextService.loop_absent (services : List (Service W)) (name : String)
    (habs : ∀ (m : Nat) (tv : Service W), services[m]? = some tv → tv.Name ≠ name) :
    ∀ n k i, k + n = services.length →
      ∃ i1, findNextService.loop services name n k i = .ret (i1, false) := by
  intro n
  induction n with
  | zero => intro k i _; exact ⟨i, rfl⟩
  | succ n ih =>
    intro k i hlen
    have hklt : k < services.length := by omega
    have hne := habs k (services[k]) (List.getElem?_eq_getElem hklt)
    simp only [findNextService.loop, List.getElem?_eq_getElem hklt, if_neg hne]
    exact ih (k + 1) k (by omega)

/-- The lookup at the first position holding the name. -/
theorem findNextService_at (s : Saga W) (name : String) (i : Nat) (sv : Service W)
    (hi : s.workflow.Services[i]? = some sv) (hname : sv.Name = name)
    (hmin : ∀ (j : Nat) (tv : Service W), j < i →
      s.workflow.Services[j]? = some tv → tv.Name ≠ name) :
    (i + 1 = s.workflow.Services.length →
      s.findNextService name = .ret (Service.zero, some GoError.ErrEndOfWorkflow)) ∧
    (∀ next, s.workflow.Services[i + 1]? = some next →
      s.findNextService name = .ret (next, none)) := by
  have hloop := findNextService.loop_found s.workflow.Services name i sv hi hname hmin
    s.workflow.Services.length 0 0 (Nat.zero_le _) (by simp)
  constructor
  · intro hlast
    simp [Saga.findNextService, hloop, hlast]
  · intro next hnext
    have hlt : i + 1 < s.workflow.Services.length := by
      rcases Nat.lt_or_ge (i + 1) s.workflow.Services.length with h | h
      · exact h
      · rw [List.getElem?_eq_none h] at hnext; cases hnext
    simp [Saga.findNextService, hloop, hnext, hlt]

/-- The lookup of a name no participant has. -/
theorem findNextService_absent (s : Saga W) (name : String)
    (habs : ∀ sv ∈ s.workflow.Services, sv.Name ≠ name) :
    s.findNextService name = .ret (Service.zero, some GoError.ErrServiceNotFound) := by
  obtain ⟨i1, hloop⟩ := findNextService.loop_absent s.workflow.Services name
    (fun m tv hm => habs tv (List.getElem?_mem hm)) s.workflow.Services.length 0 0 (by simp)
  simp [Saga.findNextService, hloop]

/-- A name some participant has is held at a first position. -/
theorem exists_first_index (services : List (Service W)) (name : String)
    (hex : ∃ sv ∈ services, sv.Name = name) :
    ∃ (i : Nat) (sv : Service W), services[i]? = some sv ∧ sv.Name = name ∧
      ∀ (j : Nat) (tv : Service W), j < i → services[j]? = some tv → tv.Name ≠ name := by
  classical
  have hP : ∃ i : Nat, ∃ sv : Service W, services[i]? = some sv ∧ sv.Name = name := by
    obtain ⟨sv, hmem, hn⟩ := hex
    obtain ⟨i, hi⟩ := List.getElem?_of_mem hmem
    exact ⟨i, sv, hi, hn⟩
  refine ⟨Nat.find hP, ?_⟩
  obtain ⟨sv, h1, h2⟩ := Nat.find_spec hP
  refine ⟨sv, h1, h2, ?_⟩
  intro j tv hj htv hn
  exact Nat.find_min hP hj ⟨tv, htv, hn⟩

/-- C8: `findNextService` never panics on an index, on the empty workflow
either; it returns `ErrServiceNotFound` exactly when no participant has the
name; and when `i` is the first position holding the name it returns
`ErrEndOfWorkflow` if `i` is the last position and otherwise the participant
at position `i + 1` with a nil error. -/
theorem findNextService_spec (s : Saga W) (name : String) :
    (∀ reason, s.findNextService name ≠ .panic reason) ∧
    ((∃ sv, s.findNextService name = .ret (sv, some GoError.ErrServiceNotFound)) ↔
      ∀ sv ∈ s.workflow.Services, sv.Name ≠ name) ∧
    (∀ (i : Nat) (sv : Service W), s.workflow.Services[i]? = some sv → sv.Name = name →
      (∀ (j : Nat) (tv : Service W), j < i →
        s.workflow.Services[j]? = some tv → tv.Name ≠ name) →
      (i + 1 = s.workflow.Services.length →
        s.findNextService name = .ret (Service.zero, some GoError.ErrEndOfWorkflow)) ∧
      (∀ next, s.workflow.Services[i + 1]? = some next →
        s.findNextService name = .ret (next, none))) := by
  have hcases : (∀ sv ∈ s.workflow.Services, sv.Name ≠ name) ∨
      ∃ sv ∈ s.workflow.Services, sv.Name = name := by
    by_cases h : ∃ sv ∈ s.workflow.Services, sv.Name = name
    · exact Or.inr h
    · left
      intro sv hsv hn
      exact h ⟨sv, hsv, hn⟩
  have hfound : (∃ sv ∈ s.workflow.Services, sv.Name = name) →
      (s.findNextService name = .ret (Service.zero, some GoError.ErrEndOfWorkflow)) ∨
      ∃ next, s.findNextService name = .ret (next, none) := by
    intro hex
    obtain ⟨i, sv, hi, hn, hmin⟩ := exists_first_index s.workflow.Services name hex
    have hat := findNextService_at s name i sv hi hn hmin
    have hilt : i < s.workflow.Services.length := by
      rcases Nat.lt_or_ge i s.workflow.Services.length with h | h
      · exact h
      · rw [List.getElem?_eq_none h] at hi; cases hi
    rcases Nat.eq_or_lt_of_le (Nat.succ_le_of_lt hilt) with hlast | hlt
    · exact Or.inl (hat.1 hlast)
    · exact Or.inr ⟨_, hat.2 _ (List.getElem?_eq_getElem hlt)⟩
  refine ⟨?_, ?_, ?_⟩
  · intro reason hp
    rcases hcases with habs | hex
    · rw [findNextService_absent s name habs] at hp; cases hp
    · rcases hfound hex with h | ⟨next, h⟩ <;> rw [h] at hp <;> cases hp
  · constructor
    · rintro ⟨sv, hsv⟩
      rcases hcases with habs | hex
      · exact habs
      · rcases hfound hex with h | ⟨next, h⟩ <;> rw [h] at hsv <;> cases hsv
    · intro habs
      exact ⟨_, findNextService_absent s name habs⟩
  · intro i sv hi hn hmin
    exact findNextService_at s name i sv hi hn hmin

end Lookup

/-! ## Starting a saga -/

section Coordinator

variable {W : Type}

/-- C9: on a workflow with a first participant, when the insert and the send
succeed, `Start` calls `InsertSaga(id, first.Name, "started")` once, then sends
one `Command` with the id and the name "start" through the first participant's
sender, makes no other call and returns nil. -/
theorem Start_success (storage : Storer W) (first : Service W) (rest : List (Service W))
    (sd : Sender W) (sagaID : UUID) (w w1 w2 : W)
    (hsender : first.Sender = some sd)
    (hinsert : storage.InsertSaga sagaID first.Name "started" w = (none, w1))
    (hsend : sd.Send ⟨sagaID, "start"⟩ w1 = (none, w2)) :
    (New ⟨first :: rest⟩ storage).Start sagaID w =
      ⟨.ret none, w2,
        [Call.InsertSaga sagaID first.Name "started", Call.Send sd.ref ⟨sagaID, "start"⟩]⟩ := by
  simp [Saga.Start, New, Service.send, hsender, hinsert, hsend, StatusStarted, CommandStart]

theorem Start_success_witness :
    (New ⟨[⟨"service1", "commands1", some (mockSender 1 none)⟩]⟩
        (mockStorer none none none)).Start exampleID () =
      ⟨.ret none, (),
        [Call.InsertSaga exampleID "service1" "started",
         Call.Send 1 ⟨exampleID, "start"⟩]⟩ :=
  Start_success (mockStorer none none none) ⟨"service1", "commands1", some (mockSender 1 none)⟩
    [] (mockSender 1 none) exampleID () () () rfl rfl rfl

/-- C10: on a workflow with no participant `Start` returns a non-nil error,
makes no call on the store or on a sender and leaves the world as it was. -/
theorem Start_empty_workflow (storage : Storer W) (sagaID : UUID) (w : W) :
    (New ⟨[]⟩ storage).Start sagaID w =
      ⟨.ret (some (GoError.errorf "empty workflow")), w, []⟩ := by
  simp [Saga.Start, New]

/-! ## Processing a response -/

/-- C3: for a response with status "done" whose service is first found at a
position `i` that is not the last one, when `UpdateService` and the sender of
the participant at `i + 1` succeed, `ProcessMessage` calls
`UpdateService(id, response.Service, next.Name)` once, then sends one `Command`
with the id and the name "start" through that sender, makes no other call (no
`UpdateStatus`, no other sender) and returns nil. -/
theorem ProcessMessage_done_step (s : Saga W) (r : Response) (i : Nat) (sv next : Service W)
    (sd : Sender W) (w w1 w2 : W)
    (hstatus : r.Status = "done")
    (hi : s.workflow.Services[i]? = some sv) (hname : sv.Name = r.Service)
    (hmin : ∀ (j : Nat) (tv : Service W), j < i →
      s.workflow.Services[j]? = some tv → tv.Name ≠ r.Service)
    (hnext : s.workflow.Services[i + 1]? = some next)
    (hsender : next.Sender = some sd)
    (hupdate : s.storage.UpdateService r.SagaID r.Service next.Name w = (none, w1))
    (hsend : sd.Send ⟨r.SagaID, "start"⟩ w1 = (none, w2)) :
    s.ProcessMessage (.Response r) w =
      ⟨.ret none, w2,
        [Call.UpdateService r.SagaID r.Service next.Name,
         Call.Send sd.ref ⟨r.SagaID, "start"⟩]⟩ := by
  have hfind := (findNextService_at s r.Service i sv hi hname hmin).2 next hnext
  simp [Saga.ProcessMessage, Saga.startNextService, hstatus, StatusWorkDone, hfind, hupdate,
    Service.send, hsender, CommandStart, hsend]

theorem ProcessMessage_done_step_witness :
    (New ⟨[⟨"service1", "commands1", none⟩, ⟨"service2", "commands2", some (mockSender 2 none)⟩,
        ⟨"service3", "commands3", none⟩]⟩ (mockStorer none none none)).ProcessMessage
        (.Response ⟨exampleID, "service1", "done"⟩) () =
      ⟨.ret none, (),
        [Call.UpdateService exampleID "service1" "service2",
         Call.Send 2 ⟨exampleID, "start"⟩]⟩ :=
  ProcessMessage_done_step
    (New ⟨[⟨"service1", "commands1", none⟩, ⟨"service2", "commands2", some (mockSender 2 none)⟩,
        ⟨"service3", "commands3", none⟩]⟩ (mockStorer none none none))
    ⟨exampleID, "service1", "done"⟩ 0 ⟨"service1", "commands1", none⟩
    ⟨"service2", "commands2", some (mockSender 2 none)⟩ (mockSender 2 none) () () ()
    rfl rfl rfl (fun j _ hj => absurd hj (Nat.not_lt_zero j)) rfl rfl rfl rfl

/-- C4 as stated fails when an earlier participant has the name of the last
one: on the workflow `[a, a]` a "done" response from `a` is answered with
`UpdateService(id, a, a)` and a command to the second participant, and
`UpdateStatus(id, "completed")` is not called. -/
theorem ProcessMessage_done_last_counterexample :
    (([⟨"a", "t1", some (mockSender 1 none)⟩, ⟨"a", "t2", some (mockSender 2 none)⟩] :
        List (Service Unit)).getLast?.map (fun sv => sv.Name) = some "a") ∧
    ((mockStorer none none none).UpdateStatus exampleID "completed" () = (none, ())) ∧
    ((New ⟨[⟨"a", "t1", some (mockSender 1 none)⟩, ⟨"a", "t2", some (mockSender 2 none)⟩]⟩
        (mockStorer none none none)).ProcessMessage (.Response ⟨exampleID, "a", "done"⟩) ()).calls
      = [Call.UpdateService exampleID "a" "a", Call.Send 2 ⟨exampleID, "start"⟩] := by
  refine ⟨rfl, rfl, rfl⟩

/-- C4, amended: for a response with status "done" whose service is the name
of the last participant and of no earlier one, when `UpdateStatus` succeeds,
`ProcessMessage` calls `UpdateStatus(id, "completed")` once, makes no other
call (no `UpdateService`, no send) and returns nil. -/
theorem ProcessMessage_done_last (s : Saga W) (r : Response) (i : Nat) (sv : Service W)
    (w w1 : W)
    (hstatus : r.Status = "done")
    (hi : s.workflow.Services[i]? = some sv) (hlast : i + 1 = s.workflow.Services.length)
    (hname : sv.Name = r.Service)
    (hmin : ∀ (j : Nat) (tv : Service W), j < i →
      s.workflow.Services[j]? = some tv → tv.Name ≠ r.Service)
    (hupdate : s.storage.UpdateStatus r.SagaID "completed" w = (none, w1)) :
    s.ProcessMessage (.Response r) w =
      ⟨.ret none, w1, [Call.UpdateStatus r.SagaID "completed"]⟩ := by
  have hfind := (findNextService_at s r.Service i sv hi hname hmin).1 hlast
  simp [Saga.ProcessMessage, Saga.startNextService, hstatus, StatusWorkDone, hfind, hupdate,
    StatusCompleted]

theorem ProcessMessage_done_last_witness :
    (New ⟨[⟨"service1", "commands1", none⟩, ⟨"service2", "commands2", none⟩,
        ⟨"service3", "commands3", none⟩]⟩ (mockStorer none none none)).ProcessMessage
        (.Response ⟨exampleID, "service3", "done"⟩) () =
      ⟨.ret none, (), [Call.UpdateStatus exampleID "completed"]⟩ :=
  ProcessMessage_done_last
    (New ⟨[⟨"service1", "commands1", none⟩, ⟨"service2", "commands2", none⟩,
        ⟨"service3", "commands3", none⟩]⟩ (mockStorer none none none))
    ⟨exampleID, "service3", "done"⟩ 2 ⟨"service3", "commands3", none⟩ () ()
    rfl rfl rfl rfl
    (fun j tv hj htv => by
      have hcase : j = 0 ∨ j = 1 := by omega
      rcases hcase with h | h <;> subst h <;> simp [New] at htv <;> subst htv <;> decide)
    rfl

/-- C5: for a response with status "error", from any service name, when
`UpdateStatus` succeeds, `ProcessMessage` calls `UpdateStatus(id, "error")`
once, makes no other call, and returns a non-nil error whose message is
"response error " followed by the saga id. -/
theorem ProcessMessage_error_status (s : Saga W) (r : Response) (w w1 : W)
    (hstatus : r.Status = "error")
    (hupdate : s.storage.UpdateStatus r.SagaID "error" w = (none, w1)) :
    ∃ err : GoError,
      s.ProcessMessage (.Response r) w =
        ⟨.ret (some err), w1, [Call.UpdateStatus r.SagaID "error"]⟩ ∧
      err.Error = "response error " ++ r.SagaID.String ∧
      ("response error " ++ r.SagaID.String).data <:+: err.Error.data := by
  refine ⟨GoError.errorf ("response error " ++ r.SagaID.String), ?_, rfl, List.infix_refl _⟩
  simp [Saga.ProcessMessage, hstatus, StatusWorkDone, StatusError, hupdate]

theorem ProcessMessage_error_status_witness :
    ∃ err : GoError,
      (New ⟨SampleWorkflow⟩ (mockStorer none none none)).ProcessMessage
          (.Response ⟨exampleID, "no such service", "error"⟩) () =
        ⟨.ret (some err), (), [Call.UpdateStatus exampleID "error"]⟩ ∧
      err.Error = "response error " ++ exampleID.String ∧
      ("response error " ++ exampleID.String).data <:+: err.Error.data :=
  ProcessMessage_error_status (New ⟨SampleWorkflow⟩ (mockStorer none none none))
    ⟨exampleID, "no such service", "error"⟩ () () rfl rfl

theorem errorsIs_self (e : GoError) : errorsIs e e = true := by
  cases e <;> simp [errorsIs]

/-- C7 as stated fails when the store's own error is `ErrServiceNotFound`:
the response names no participant, `UpdateStatus` fails, and the error
`ProcessMessage` returns still wraps `ErrServiceNotFound`. -/
theorem ProcessMessage_unknown_service_counterexample :
    (∀ sv ∈ (SampleWorkflow : List (Service Unit)), sv.Name ≠ "service9") ∧
    ((mockStorer none (some GoError.ErrServiceNotFound) none).UpdateStatus exampleID "error" ()
      = (some GoError.ErrServiceNotFound, ())) ∧
    ((New ⟨SampleWorkflow⟩ (mockStorer none (some GoError.ErrServiceNotFound) none)).ProcessMessage
        (.Response ⟨exampleID, "service9", "done"⟩) () =
      ⟨.ret (some (GoError.wrapf "update status: " GoError.ErrServiceNotFound)), (),
        [Call.UpdateStatus exampleID "error"]⟩) ∧
    errorsIs (GoError.wrapf "update status: " GoError.ErrServiceNotFound)
      GoError.ErrServiceNotFound = true := by
  refine ⟨by decide, rfl, rfl, rfl⟩

/-- C7, amended: for a response with status "done" whose service is the name
of no participant, `ProcessMessage` calls `UpdateStatus(id, "error")` and makes
no other call (no `UpdateService`, no send); when that `UpdateStatus` succeeds
the returned error wraps `ErrServiceNotFound`; when it fails with `e` the
returned error wraps `e`, and it wraps `ErrServiceNotFound` exactly when `e`
itself does. -/
theorem ProcessMessage_unknown_service (s : Saga W) (r : Response) (w : W)
    (hstatus : r.Status = "done")
    (habs : ∀ sv ∈ s.workflow.Services, sv.Name ≠ r.Service) :
    (s.ProcessMessage (.Response r) w).calls = [Call.UpdateStatus r.SagaID "error"] ∧
    (s.ProcessMessage (.Response r) w).world = (s.storage.UpdateStatus r.SagaID "error" w).2 ∧
    ((s.storage.UpdateStatus r.SagaID "error" w).1 = none →
      ∃ err : GoError, (s.ProcessMessage (.Response r) w).out = .ret (some err) ∧
        errorsIs err GoError.ErrServiceNotFound = true) ∧
    (∀ e : GoError, (s.storage.UpdateStatus r.SagaID "error" w).1 = some e →
      ∃ err : GoError, (s.ProcessMessage (.Response r) w).out = .ret (some err) ∧
        errorsIs err e = true ∧
        errorsIs err GoError.ErrServiceNotFound = errorsIs e GoError.ErrServiceNotFound) := by
  have hfind := findNextService_absent s r.Service habs
  have hrun : s.ProcessMessage (.Response r) w =
      match s.storage.UpdateStatus r.SagaID "error" w with
      | (some e, w1) =>
        ⟨.ret (some (GoError.wrapf "update status: " e)), w1,
          [Call.UpdateStatus r.SagaID "error"]⟩
      | (none, w1) =>
        ⟨.ret (some (GoError.wrapf "find next: " GoError.ErrServiceNotFound)), w1,
          [Call.UpdateStatus r.SagaID "error"]⟩ := by
    simp [Saga.ProcessMessage, Saga.startNextService, hstatus, StatusWorkDone, hfind,
      StatusError]
  rw [hrun]
  rcases hres : s.storage.UpdateStatus r.SagaID "error" w with ⟨eo, w1⟩
  cases eo with
  | none =>
    refine ⟨rfl, rfl, fun _ => ⟨_, rfl, ?_⟩, fun e he => ?_⟩
    · simp [errorsIs]
    · cases he
  | some e0 =>
    refine ⟨rfl, rfl, fun h => ?_, fun e he => ?_⟩
    · cases h
    · cases he
      refine ⟨_, rfl, ?_, ?_⟩
      · simp [errorsIs, errorsIs_self]
      · simp [errorsIs]

theorem ProcessMessage_unknown_service_witness :
    (∀ sv ∈ (SampleWorkflow : List (Service Unit)), sv.Name ≠ "service9") ∧
    ((New ⟨SampleWorkflow⟩ (mockStorer none (some (GoError.foreign 7 "DB error")) none)).ProcessMessage
        (.Response ⟨exampleID, "service9", "done"⟩) ()).calls
      = [Call.UpdateStatus exampleID "error"] ∧
    ∃ err : GoError,
      ((New ⟨SampleWorkflow⟩ (mockStorer none (some (GoError.foreign 7 "DB error")) none)).ProcessMessage
        (.Response ⟨exampleID, "service9", "done"⟩) ()).out = .ret (some err) ∧
      errorsIs err (GoError.foreign 7 "DB error") = true ∧
      errorsIs err GoError.ErrServiceNotFound = false :=
  ⟨by decide,
    (ProcessMessage_unknown_service
      (New ⟨SampleWorkflow⟩ (mockStorer none (some (GoError.foreign 7 "DB error")) none))
      ⟨exampleID, "service9", "done"⟩ () rfl (by decide)).1,
    (ProcessMessage_unknown_service
      (New ⟨SampleWorkflow⟩ (mockStorer none (some (GoError.foreign 7 "DB error")) none))
      ⟨exampleID, "service9", "done"⟩ () rfl (by decide)).2.2.2
      (GoError.foreign 7 "DB error") rfl⟩

end Coordinator

/-! ## The poll -/

section Polling

variable {W M : Type} [Message M]

/-- The events of a batch run from position `pos` are about positions from
`pos` on. -/
theorem Poll.batch_pos_ge (p : Poll W M) :
    ∀ (msgs : List SqsMessage) (pos : Nat) (w : W) (ev : PollEvent M),
      ev ∈ (p.batch pos msgs w).2.2 → pos ≤ ev.pos := by
  intro msgs
  induction msgs with
  | nil => intro pos w ev h; simp [Poll.batch] at h
  | cons m rest ih =>
    intro pos w ev h
    rw [Poll.batch] at h
    split at h
    · simp at h
    · split at h
      · simp at h
      · split at h
        · exact Nat.le_of_succ_le (ih _ _ _ h)
        · split at h
          · simp at h
            subst h
            exact Nat.le_refl _
          · simp only [List.mem_cons] at h
            rcases h with h | h
            · subst h; exact Nat.le_refl _
            · exact Nat.le_of_succ_le (ih _ _ _ h)
          · simp only [List.mem_cons] at h
            rcases h with h | h | h
            · subst h; exact Nat.le_refl _
            · subst h; exact Nat.le_refl _
            · exact Nat.le_of_succ_le (ih _ _ _ h)

/-- A message whose processing fails in every world is not deleted by the
loop over its batch. -/
theorem Poll.batch_no_delete (p : Poll W M) (body : String) (msg : M)
    (hdecode : p.unmarshal body = some msg)
    (hfail : ∀ w : W, ∃ (e : GoError) (w1 : W),
      p.target.ProcessMessage (Message.toAny msg) w = (.ret (some e), w1)) :
    ∀ (msgs : List SqsMessage) (j pos : Nat) (w : W) (m : SqsMessage),
      msgs[j]? = some m → m.Body = some body →
      ∀ handle, PollEvent.delete (pos + j) handle ∉ (p.batch pos msgs w).2.2 := by
  intro msgs
  induction msgs with
  | nil => intro j pos w m hm; simp at hm
  | cons m0 rest ih =>
    intro j pos w m hm hbody handle hmem
    cases j with
    | zero =>
      simp only [List.getElem?_cons_zero, Option.some.injEq] at hm
      subst hm
      rw [Poll.batch] at hmem
      split at hmem
      · simp at hmem
      · rename_i w1 _
        simp only [hbody, hdecode] at hmem
        obtain ⟨e, w2, hproc⟩ := hfail w1
        simp only [hproc, Nat.add_zero, List.mem_cons] at hmem
        rcases hmem with h | h
        · cases h
        · have := Poll.batch_pos_ge p _ _ _ _ h
          simp [PollEvent.pos] at this
    | succ j =>
      simp only [List.getElem?_cons_succ] at hm
      have hrest : ∀ w2, PollEvent.delete (pos + (j + 1)) handle ∉
          (p.batch (pos + 1) rest w2).2.2 := by
        intro w2
        have := ih j (pos + 1) w2 m hm hbody handle
        rwa [Nat.add_assoc, Nat.add_comm 1 j] at this
      have hne : pos + (j + 1) ≠ pos := by omega
      rw [Poll.batch] at hmem
      split at hmem
      · simp at hmem
      · split at hmem
        · simp at hmem
        · split at hmem
          · exact hrest _ hmem
          · split at hmem
            · simp at hmem
            · simp only [List.mem_cons] at hmem
              rcases hmem with h | h
              · cases h
              · exact hrest _ h
            · simp only [List.mem_cons] at hmem
              rcases hmem with h | h | h
              · cases h
              · injection h with h1 _
                exact hne h1
              · exact hrest _ h

/-- A message whose processing fails in every world is deleted in no round
of the poll. -/
theorem Poll.Start_no_delete (p : Poll W M) (body : String) (msg : M)
    (hdecode : p.unmarshal body = some msg)
    (hfail : ∀ w : W, ∃ (e : GoError) (w1 : W),
      p.target.ProcessMessage (Message.toAny msg) w = (.ret (some e), w1)) :
    ∀ (fuel : Nat) (w : W) (round : Round M), round ∈ (p.Start fuel w).2.2 →
      ∀ (j : Nat) (m : SqsMessage), round.batch[j]? = some m → m.Body = some body →
      ∀ handle, PollEvent.delete j handle ∉ round.events := by
  intro fuel
  induction fuel with
  | zero => intro w round h; simp [Poll.Start] at h
  | succ fuel ih =>
    intro w round h j m hm hbody handle
    have hbatch : ∀ (msgs : List SqsMessage) (w2 : W), msgs[j]? = some m →
        PollEvent.delete j handle ∉ (p.batch 0 msgs w2).2.2 := by
      intro msgs w2 hj
      have := Poll.batch_no_delete p body msg hdecode hfail msgs j 0 w2 m hj hbody handle
      rwa [Nat.zero_add] at this
    rw [Poll.Start] at h
    split at h
    · simp at h
    · split at h
      · exact ih _ round h j m hm hbody handle
      · rename_i msgs w2 hrecv
        split at h
        · rename_i w3 evs hb
          simp only [List.mem_cons] at h
          rcases h with h | h
          · subst h
            have := hbatch msgs w2 hm
            rwa [hb] at this
          · exact ih _ round h j m hm hbody handle
        · rename_i w3 evs hb
          simp only [List.mem_singleton] at h
          subst h
          have := hbatch msgs w2 hm
          rwa [hb] at this
        · rename_i reason w3 evs hb
          simp only [List.mem_singleton] at h
          subst h
          have := hbatch msgs w2 hm
          rwa [hb] at this

/-- C6: for a response whose status is neither "done" nor "error" (the empty
status too), `ProcessMessage` returns a non-nil error, calls nothing on the
store or on a sender and leaves the world as it was; and in no round of
`Poll.Start` driving the saga is `DeleteMessage` called for a message whose
body decodes to such a response. -/
theorem ProcessMessage_unknown_status {W : Type} (s : Saga W) (r : Response)
    (hdone : r.Status ≠ "done") (herror : r.Status ≠ "error") :
    (∀ w : W, ∃ err : GoError, s.ProcessMessage (.Response r) w = ⟨.ret (some err), w, []⟩) ∧
    (∀ (p : Poll W Response) (body : String), p.target = s.processor →
      p.unmarshal body = some r →
      ∀ (fuel : Nat) (w : W) (round : Round Response), round ∈ (p.Start fuel w).2.2 →
      ∀ (j : Nat) (m : SqsMessage), round.batch[j]? = some m → m.Body = some body →
      ∀ handle, PollEvent.delete j handle ∉ round.events) := by
  have hrun : ∀ w : W, ∃ err : GoError,
      s.ProcessMessage (.Response r) w = ⟨.ret (some err), w, []⟩ := by
    intro w
    refine ⟨GoError.errorf ("unknown status " ++ r.Status ++ " saga " ++ r.SagaID.String), ?_⟩
    simp [Saga.ProcessMessage, StatusWorkDone, StatusError, hdone, herror]
  refine ⟨hrun, ?_⟩
  intro p body htarget hdecode
  refine Poll.Start_no_delete p body r hdecode ?_
  intro w
  obtain ⟨err, herr⟩ := hrun w
  refine ⟨err, w, ?_⟩
  rw [htarget]
  show ((s.ProcessMessage (AnyMsg.Response r) w).out, (s.ProcessMessage (AnyMsg.Response r) w).world)
    = _
  rw [herr]

theorem ProcessMessage_unknown_status_witness :
    (∃ err : GoError,
      (New ⟨SampleWorkflow⟩ (mockStorer none none none)).ProcessMessage
        (.Response ⟨exampleID, "service1", ""⟩) () = ⟨.ret (some err), (), []⟩) ∧
    PollEvent.delete 0 (some "handle1") ∉
      (⟨[⟨some "empty status", some "handle1"⟩],
        [PollEvent.process 0 ⟨exampleID, "service1", ""⟩]⟩ : Round Response).events :=
  ⟨(ProcessMessage_unknown_status (New ⟨SampleWorkflow⟩ (mockStorer none none none))
      ⟨exampleID, "service1", ""⟩ (by decide) (by decide)).1 (),
    (ProcessMessage_unknown_status (New ⟨SampleWorkflow⟩ (mockStorer none none none))
      ⟨exampleID, "service1", ""⟩ (by decide) (by decide)).2
      (examplePoll (New ⟨SampleWorkflow⟩ (mockStorer none none none))) "empty status" rfl rfl
      1 () ⟨[⟨some "empty status", some "handle1"⟩],
        [PollEvent.process 0 ⟨exampleID, "service1", ""⟩]⟩ (List.Mem.head _)
      0 ⟨some "empty status", some "handle1"⟩ rfl rfl (some "handle1")⟩

end Polling

/-! ## The saga on the repository's storage -/

section OnStorage

variable {Q : Type}

/-- On a healthy database `UpdateService` returns nil, rewrites the service of
the rows with the id and the previous service, and leaves the database
healthy. -/
theorem Storage.UpdateService_healthy (id : UUID) (prev next : String) (db : DB)
    (h : db.healthy) :
    (Storage.UpdateService id prev next db).1 = none ∧
    (Storage.UpdateService id prev next db).2.rows = db.rows.map (advanceRow id prev next) ∧
    (Storage.UpdateService id prev next db).2.healthy := by
  unfold DB.healthy at h
  rcases db with ⟨rows, clock, faults⟩
  cases faults with
  | nil =>
    refine ⟨rfl, ?_, ?_⟩
    · simp [Storage.UpdateService, DB.ExecContext, updateServiceStmt, advanceRow]
    · intro f hf
      simp [Storage.UpdateService, DB.ExecContext] at hf
  | cons f rest =>
    have hf : f = Fault.ok := h f (List.mem_cons_self _ _)
    subst hf
    refine ⟨rfl, ?_, ?_⟩
    · simp [Storage.UpdateService, DB.ExecContext, updateServiceStmt, advanceRow]
    · intro f hf
      simp only [Storage.UpdateService, DB.ExecContext] at hf
      exact h f (List.mem_cons_of_mem _ hf)

/-- The method `Storage.UpdateService` never returns `sql.ErrNoRows`: it does
not look at the number of rows the statement affected. -/
theorem Storage.UpdateService_ne_ErrNoRows (id : UUID) (prev next : String) (db : DB) :
    (Storage.UpdateService id prev next db).1 ≠ some GoError.ErrNoRows := by
  rcases db with ⟨rows, clock, faults⟩
  rcases faults with _ | ⟨f, rest⟩
  · simp [Storage.UpdateService, DB.ExecContext]
  · cases f <;> simp [Storage.UpdateService, DB.ExecContext]

/-- Rewriting the service twice is rewriting it once, the two names differing. -/
theorem advanceRow_idem (id : UUID) (prev next : String) (hne : next ≠ prev) (r : SagaRow) :
    advanceRow id prev next (advanceRow id prev next r) = advanceRow id prev next r := by
  unfold advanceRow
  by_cases h : r.id = id ∧ r.service = prev
  · simp [h, hne]
  · simp [h]

/-- In a list of services with distinct names, two positions hold two names. -/
theorem name_ne_of_nodup (services : List (Service Q))
    (hnodup : (services.map (fun sv => sv.Name)).Nodup) (j i : Nat) (tv sv : Service Q)
    (hji : j < i) (hj : services[j]? = some tv) (hi : services[i]? = some sv) :
    tv.Name ≠ sv.Name := by
  have hilt : i < (services.map (fun sv => sv.Name)).length := by
    rcases Nat.lt_or_ge i services.length with h | h
    · simpa using h
    · rw [List.getElem?_eq_none h] at hi; cases hi
  have := (List.nodup_iff_getElem?_ne_getElem?.1 hnodup) j i hji hilt
  simpa [List.getElem?_map, hj, hi] using this

/-- The database after a "done" response naming a participant that has a
successor and a name no earlier participant has: the one `UpdateService`
leaves, whatever the sender does. -/
theorem ProcessMessage_onStorage_db_first (services : List (Service Q))
    (id : UUID) (i : Nat) (A B : Service Q)
    (hA : services[i]? = some A) (hB : services[i + 1]? = some B)
    (hmin : ∀ (j : Nat) (tv : Service Q), j < i → services[j]? = some tv → tv.Name ≠ A.Name)
    (w : Sys Q) :
    ((Saga.onStorage services).ProcessMessage (.Response ⟨id, A.Name, "done"⟩) w).world.db =
      (Storage.UpdateService id A.Name B.Name w.db).2 := by
  have hfind : (Saga.onStorage services).findNextService A.Name =
      .ret (B.onQueues, none) := by
    refine (findNextService_at (Saga.onStorage services) A.Name i A.onQueues ?_ rfl ?_).2
      B.onQueues ?_
    · simp [Saga.onStorage, New, List.getElem?_map, hA]
    · intro j tv hj htv
      simp only [Saga.onStorage, New, List.getElem?_map] at htv
      cases hsj : services[j]? with
      | none => rw [hsj] at htv; cases htv
      | some tv0 =>
        rw [hsj] at htv
        simp only [Option.map_some', Option.some.injEq] at htv
        subst htv
        exact hmin j tv0 hj hsj
    · simp [Saga.onStorage, New, List.getElem?_map, hB]
  simp only [Saga.ProcessMessage, StatusWorkDone, if_true, Saga.startNextService, hfind]
  simp only [Saga.onStorage, New, Storage.storer, Service.onQueues]
  cases (Storage.UpdateService id A.Name B.Name w.db).1 with
  | some e =>
    by_cases he : e = GoError.ErrNoRows
    · simp [he]
    · simp [he]
  | none =>
    cases hs : B.Sender with
    | none => simp [Service.send]
    | some sd =>
      simp only [Service.send, Option.map_some', Sender.onQueues]
      cases (sd.Send ⟨id, CommandStart⟩ w.queues).1 <;> rfl

/-- The database after a "done" response from a participant that has a
successor: the one `UpdateService` leaves, whatever the sender does. -/
theorem ProcessMessage_onStorage_db (services : List (Service Q))
    (hnodup : (services.map (fun sv => sv.Name)).Nodup) (id : UUID) (i : Nat) (A B : Service Q)
    (hA : services[i]? = some A) (hB : services[i + 1]? = some B) (w : Sys Q) :
    ((Saga.onStorage services).ProcessMessage (.Response ⟨id, A.Name, "done"⟩) w).world.db =
      (Storage.UpdateService id A.Name B.Name w.db).2 := by
  have hfind : (Saga.onStorage services).findNextService A.Name =
      .ret (B.onQueues, none) := by
    refine (findNextService_at (Saga.onStorage services) A.Name i A.onQueues ?_ rfl ?_).2
      B.onQueues ?_
    · simp [Saga.onStorage, New, List.getElem?_map, hA]
    · intro j tv hj htv
      simp only [Saga.onStorage, New, List.getElem?_map] at htv
      cases hsj : services[j]? with
      | none => rw [hsj] at htv; cases htv
      | some tv0 =>
        rw [hsj] at htv
        simp only [Option.map_some', Option.some.injEq] at htv
        subst htv
        exact name_ne_of_nodup services hnodup j i tv0 A hj hsj hA
    · simp [Saga.onStorage, New, List.getElem?_map, hB]
  simp only [Saga.ProcessMessage, StatusWorkDone, if_true, Saga.startNextService, hfind]
  simp only [Saga.onStorage, New, Storage.storer, Service.onQueues]
  cases (Storage.UpdateService id A.Name B.Name w.db).1 with
  | some e =>
    by_cases he : e = GoError.ErrNoRows
    · simp [he]
    · simp [he]
  | none =>
    cases hs : B.Sender with
    | none => simp [Service.send]
    | some sd =>
      simp only [Service.send, Option.map_some', Sender.onQueues]
      cases (sd.Send ⟨id, CommandStart⟩ w.queues).1 <;> rfl

/-- Whatever the driver does, `UpdateService` leaves the rows as they were or
rewrites the service of those with the id and the previous service. -/
theorem Storage.UpdateService_rows (id : UUID) (prev next : String) (db : DB) :
    (Storage.UpdateService id prev next db).2.rows = db.rows ∨
    (Storage.UpdateService id prev next db).2.rows = db.rows.map (advanceRow id prev next) := by
  rcases db with ⟨rows, clock, faults⟩
  rcases faults with _ | ⟨f, rest⟩
  · right
    simp [Storage.UpdateService, DB.ExecContext, updateServiceStmt, advanceRow]
  · cases f
    · right
      simp [Storage.UpdateService, DB.ExecContext, updateServiceStmt, advanceRow]
    · left
      simp [Storage.UpdateService, DB.ExecContext]
    · right
      simp [Storage.UpdateService, DB.ExecContext, updateServiceStmt, advanceRow]

/-- C2: on a workflow with distinct names, for a participant `A` with
successor `B` and `k ≥ 1` deliveries of the "done" response from `A`: whatever
the driver and the senders do, the stored records are then those before the
deliveries or those with the one step from `A` to `B` made, never more; and on
a database that runs every statement, `UpdateService(id, A, B)` rewrites the
service of exactly the rows with the id whose service is `A`, doing it twice is
doing it once, and the stored records after the `k` deliveries are those after
one delivery. -/
theorem deliveries_advance_once (services : List (Service Q))
    (hnodup : (services.map (fun sv => sv.Name)).Nodup) (id : UUID) (i : Nat) (A B : Service Q)
    (hA : services[i]? = some A) (hB : services[i + 1]? = some B) (w : Sys Q)
    (k : Nat) (hk : 1 ≤ k) :
    ((deliveries (Saga.onStorage services) (.Response ⟨id, A.Name, "done"⟩) k w).db.rows =
        w.db.rows ∨
      (deliveries (Saga.onStorage services) (.Response ⟨id, A.Name, "done"⟩) k w).db.rows =
        w.db.rows.map (advanceRow id A.Name B.Name)) ∧
    (w.db.healthy →
      (Storage.UpdateService id A.Name B.Name w.db).2.rows =
        w.db.rows.map (advanceRow id A.Name B.Name) ∧
      (Storage.UpdateService id A.Name B.Name
          (Storage.UpdateService id A.Name B.Name w.db).2).2.rows =
        (Storage.UpdateService id A.Name B.Name w.db).2.rows ∧
      (deliveries (Saga.onStorage services) (.Response ⟨id, A.Name, "done"⟩) k w).db.rows =
        (deliveries (Saga.onStorage services) (.Response ⟨id, A.Name, "done"⟩) 1 w).db.rows) := by
  have hne : B.Name ≠ A.Name :=
    fun h => name_ne_of_nodup services hnodup i (i + 1) A B (Nat.lt_succ_self i) hA hB h.symm
  have hidem : ∀ rows : List SagaRow,
      (rows.map (advanceRow id A.Name B.Name)).map (advanceRow id A.Name B.Name) =
        rows.map (advanceRow id A.Name B.Name) := by
    intro rows
    rw [List.map_map]
    exact List.map_congr_left (fun r _ => advanceRow_idem id A.Name B.Name hne r)
  have hany : ∀ (n : Nat) (v : Sys Q),
      (deliveries (Saga.onStorage services) (.Response ⟨id, A.Name, "done"⟩) n v).db.rows =
        v.db.rows ∨
      (deliveries (Saga.onStorage services) (.Response ⟨id, A.Name, "done"⟩) n v).db.rows =
        v.db.rows.map (advanceRow id A.Name B.Name) := by
    intro n
    induction n with
    | zero => intro v; exact Or.inl rfl
    | succ n ih =>
      intro v
      rw [deliveries]
      have hone := Storage.UpdateService_rows id A.Name B.Name v.db
      rw [← ProcessMessage_onStorage_db services hnodup id i A B hA hB v] at hone
      rcases ih ((Saga.onStorage services).ProcessMessage
        (.Response ⟨id, A.Name, "done"⟩) v).world with h | h <;> rcases hone with h1 | h1
      · exact Or.inl (h.trans h1)
      · exact Or.inr (h.trans h1)
      · exact Or.inr (h.trans (by rw [h1]))
      · exact Or.inr (h.trans (by rw [h1, hidem]))
  have hstep : ∀ v : Sys Q, v.db.healthy →
      ((Saga.onStorage services).ProcessMessage (.Response ⟨id, A.Name, "done"⟩) v).world.db.rows
        = v.db.rows.map (advanceRow id A.Name B.Name) ∧
      ((Saga.onStorage services).ProcessMessage
        (.Response ⟨id, A.Name, "done"⟩) v).world.db.healthy := by
    intro v hv
    rw [ProcessMessage_onStorage_db services hnodup id i A B hA hB v]
    exact (Storage.UpdateService_healthy id A.Name B.Name v.db hv).2
  have hmany : ∀ (n : Nat) (v : Sys Q), v.db.healthy →
      (deliveries (Saga.onStorage services) (.Response ⟨id, A.Name, "done"⟩) (n + 1) v).db.rows
        = v.db.rows.map (advanceRow id A.Name B.Name) := by
    intro n
    induction n with
    | zero => intro v hv; exact (hstep v hv).1
    | succ n ih =>
      intro v hv
      rw [deliveries, ih _ (hstep v hv).2, (hstep v hv).1, hidem]
  refine ⟨hany k w, fun hdb => ?_⟩
  have h1 := Storage.UpdateService_healthy id A.Name B.Name w.db hdb
  refine ⟨h1.2.1, ?_, ?_⟩
  · rw [(Storage.UpdateService_healthy id A.Name B.Name _ h1.2.2).2.1, h1.2.1, hidem]
  · obtain ⟨n, rfl⟩ : ∃ n, k = n + 1 := ⟨k - 1, by omega⟩
    rw [hmany n w hdb, hmany 0 w hdb]

theorem deliveries_advance_once_witness :
    (deliveries (Saga.onStorage recordingWorkflow) (.Response ⟨exampleID, "service1", "done"⟩) 3
        exampleSys).db.rows =
      (deliveries (Saga.onStorage recordingWorkflow) (.Response ⟨exampleID, "service1", "done"⟩) 1
        exampleSys).db.rows :=
  ((deliveries_advance_once recordingWorkflow (by decide) exampleID 0
    ⟨"service1", "commands1", some (recordingSender 1)⟩
    ⟨"service2", "commands2", some (recordingSender 2)⟩ rfl rfl exampleSys 3 (by decide)).2
    (fun f hf => by simp [exampleSys] at hf)).2.2

/-- C1, the code at the failing input: on the sample workflow with the saga
stored under `service1`, the first "done" response from `service1` moves the
stored service to `service2` and sends one command to `service2`; the second
one finds nothing to update, `UpdateService` returns nil all the same, and a
second command is sent to `service2`. -/
theorem duplicate_done_sends_twice :
    ((Saga.onStorage recordingWorkflow).ProcessMessage
        (.Response ⟨exampleID, "service1", "done"⟩) exampleSys).calls =
      [Call.UpdateService exampleID "service1" "service2", Call.Send 2 ⟨exampleID, "start"⟩] ∧
    ((Saga.onStorage recordingWorkflow).ProcessMessage
        (.Response ⟨exampleID, "service1", "done"⟩) exampleSys).world.db.rows =
      [⟨exampleID, "started", "service2", 0⟩] ∧
    ((Saga.onStorage recordingWorkflow).ProcessMessage (.Response ⟨exampleID, "service1", "done"⟩)
        ((Saga.onStorage recordingWorkflow).ProcessMessage
          (.Response ⟨exampleID, "service1", "done"⟩) exampleSys).world).calls =
      [Call.UpdateService exampleID "service1" "service2", Call.Send 2 ⟨exampleID, "start"⟩] ∧
    (deliveries (Saga.onStorage recordingWorkflow) (.Response ⟨exampleID, "service1", "done"⟩) 2
        exampleSys).queues =
      [(2, ⟨exampleID, "start"⟩), (2, ⟨exampleID, "start"⟩)] := by
  refine ⟨by decide, by decide, by decide, by decide⟩

end OnStorage

/-! ## Failures while starting a saga -/

section StartFailures

variable {W : Type}

/-- C11: on a workflow with a first participant, if `InsertSaga` returns the
error `e`, `Start` returns an error that is `e` for `errors.Is` (it is `e`
itself), having called `InsertSaga` and nothing else: no command is sent. -/
theorem Start_insert_error (storage : Storer W) (first : Service W) (rest : List (Service W))
    (sagaID : UUID) (w w1 : W) (e : GoError)
    (hinsert : storage.InsertSaga sagaID first.Name "started" w = (some e, w1)) :
    ∃ err : GoError,
      (New ⟨first :: rest⟩ storage).Start sagaID w =
        ⟨.ret (some err), w1, [Call.InsertSaga sagaID first.Name "started"]⟩ ∧
      errorsIs err e = true ∧
      (∀ (ref : Nat) (msg : Command),
        Call.Send ref msg ∉ ((New ⟨first :: rest⟩ storage).Start sagaID w).calls) := by
  have hrun : (New ⟨first :: rest⟩ storage).Start sagaID w =
      ⟨.ret (some e), w1, [Call.InsertSaga sagaID first.Name "started"]⟩ := by
    simp [Saga.Start, New, hinsert, StatusStarted]
  refine ⟨e, hrun, errorsIs_self e, ?_⟩
  intro ref msg hmem
  rw [hrun] at hmem
  simp at hmem

theorem Start_insert_error_witness :
    ∃ err : GoError,
      (New ⟨SampleWorkflow⟩ (mockStorer (some (GoError.foreign 1 "DB error")) none none)).Start
          exampleID () =
        ⟨.ret (some err), (), [Call.InsertSaga exampleID "service1" "started"]⟩ ∧
      errorsIs err (GoError.foreign 1 "DB error") = true ∧
      (∀ (ref : Nat) (msg : Command),
        Call.Send ref msg ∉
          ((New ⟨SampleWorkflow⟩
            (mockStorer (some (GoError.foreign 1 "DB error")) none none)).Start
              exampleID ()).calls) :=
  Start_insert_error (mockStorer (some (GoError.foreign 1 "DB error")) none none)
    ⟨"service1", "commands1", none⟩
    [⟨"service2", "commands2", none⟩, ⟨"service3", "commands3", none⟩]
    exampleID () () (GoError.foreign 1 "DB error") rfl

end StartFailures

/-! ## Starting a saga on the repository's storage -/

section StartOnStorage

variable {W Q : Type}

theorem insertStmt_absent (id : UUID) (status service : String) (now : Nat)
    (rows : List SagaRow) (h : ∀ row ∈ rows, row.id ≠ id) :
    (insertStmt id status service now rows).1 =
      rows ++ [{ id := id, status := status, service := service, date_created := now }] := by
  have hany : rows.any (fun r => decide (r.id = id)) = false := by
    rw [List.any_eq_false]
    intro r hr
    simpa using h r hr
  simp [insertStmt, hany]

theorem insertStmt_present (id : UUID) (status service : String) (now : Nat)
    (rows : List SagaRow) (h : ∃ row ∈ rows, row.id = id) :
    (insertStmt id status service now rows).1 = rows := by
  have hany : rows.any (fun r => decide (r.id = id)) = true := by
    rw [List.any_eq_true]
    obtain ⟨r, hr, hid⟩ := h
    exact ⟨r, hr, by simpa using hid⟩
  simp [insertStmt, hany]

/-- When `InsertSaga` returns nil the insert statement was run. -/
theorem Storage.InsertSaga_ok (id : UUID) (service status : String) (db : DB)
    (h : (Storage.InsertSaga id service status db).1 = none) :
    (Storage.InsertSaga id service status db).2.rows =
      (insertStmt id status service db.clock db.rows).1 := by
  rcases db with ⟨rows, clock, faults⟩
  rcases faults with _ | ⟨f, rest⟩
  · simp [Storage.InsertSaga, DB.ExecContext]
  · cases f
    · simp [Storage.InsertSaga, DB.ExecContext]
    · simp [Storage.InsertSaga, DB.ExecContext] at h
    · simp [Storage.InsertSaga, DB.ExecContext]

/-- On a healthy database `InsertSaga` returns nil and leaves the database
healthy. -/
theorem Storage.InsertSaga_healthy (id : UUID) (service status : String) (db : DB)
    (h : db.healthy) :
    (Storage.InsertSaga id service status db).1 = none ∧
    (Storage.InsertSaga id service status db).2.healthy := by
  unfold DB.healthy at h
  rcases db with ⟨rows, clock, faults⟩
  cases faults with
  | nil =>
    refine ⟨rfl, ?_⟩
    intro f hf
    simp [Storage.InsertSaga, DB.ExecContext] at hf
  | cons f rest =>
    have hf : f = Fault.ok := h f (List.mem_cons_self _ _)
    subst hf
    refine ⟨rfl, ?_⟩
    intro f hf
    simp only [Storage.InsertSaga, DB.ExecContext] at hf
    exact h f (List.mem_cons_of_mem _ hf)

/-- The database after `Start`: the one `InsertSaga` leaves, whatever the
sender does. -/
theorem Start_onStorage_db (first : Service Q) (rest : List (Service Q)) (id : UUID)
    (u : Sys Q) :
    ((Saga.onStorage (first :: rest)).Start id u).world.db =
      (Storage.InsertSaga id first.Name "started" u.db).2 := by
  simp only [Saga.Start, Saga.onStorage, New, Storage.storer, Service.onQueues, StatusStarted,
    List.map_cons, List.length_cons, Nat.succ_ne_zero, List.getElem?_cons_zero, if_false]
  cases (Storage.InsertSaga id first.Name "started" u.db).1 with
  | some e => rfl
  | none =>
    cases hs : first.Sender with
    | none => simp [Service.send]
    | some sd =>
      simp only [Service.send, Option.map_some', Sender.onQueues]
      cases (sd.Send ⟨id, CommandStart⟩ u.queues).1 <;> rfl

/-- The calls of `Start` when the insert succeeds and the first participant
has a sender: the insert, then one send, whatever the send returns. -/
theorem Start_onStorage_calls (first : Service Q) (rest : List (Service Q)) (sd : Sender Q)
    (id : UUID) (u : Sys Q) (hsender : first.Sender = some sd)
    (hok : (Storage.InsertSaga id first.Name "started" u.db).1 = none) :
    ((Saga.onStorage (first :: rest)).Start id u).calls =
      [Call.InsertSaga id first.Name "started", Call.Send sd.ref ⟨id, "start"⟩] := by
  simp only [Saga.Start, Saga.onStorage, New, Storage.storer, Service.onQueues, StatusStarted,
    List.map_cons, List.length_cons, Nat.succ_ne_zero, List.getElem?_cons_zero, if_false, hok,
    hsender, Service.send, Option.map_some', Sender.onQueues, CommandStart]
  cases (sd.Send ⟨id, "start"⟩ u.queues).1 <;> rfl

/-- The queues after `Start` when the insert succeeds and the first
participant has a sender: those its `Send` of the initial command leaves. -/
theorem Start_onStorage_queues (first : Service Q) (rest : List (Service Q)) (sd : Sender Q)
    (id : UUID) (u : Sys Q) (hsender : first.Sender = some sd)
    (hok : (Storage.InsertSaga id first.Name "started" u.db).1 = none) :
    ((Saga.onStorage (first :: rest)).Start id u).world.queues =
      (sd.Send ⟨id, "start"⟩ u.queues).2 := by
  simp only [Saga.Start, Saga.onStorage, New, Storage.storer, Service.onQueues, StatusStarted,
    List.map_cons, List.length_cons, Nat.succ_ne_zero, List.getElem?_cons_zero, if_false, hok,
    hsender, Service.send, Option.map_some', Sender.onQueues, CommandStart]
  cases (sd.Send ⟨id, "start"⟩ u.queues).1 <;> rfl

/-- C12: on a workflow with a first participant, if `InsertSaga` succeeds and
the first participant's sender returns the error `q`, `Start` returns an error
that wraps `q` and whose message is "service send: " followed by that of `q`,
while an error of the store is returned as it is; the calls are the insert and
the send, nothing after the failed send, and the world is the one the sender
left; on the repository's storage the database is the one `InsertSaga` left,
with the record of the id, the first participant and "started" in it when the
id was new. -/
theorem Start_send_error (storage : Storer W) (first : Service W) (rest : List (Service W))
    (sd : Sender W) (sagaID : UUID) (w w1 w2 : W) (q : GoError)
    (hsender : first.Sender = some sd)
    (hinsert : storage.InsertSaga sagaID first.Name "started" w = (none, w1))
    (hsend : sd.Send ⟨sagaID, "start"⟩ w1 = (some q, w2)) :
    (∃ err : GoError,
      (New ⟨first :: rest⟩ storage).Start sagaID w =
        ⟨.ret (some err), w2,
          [Call.InsertSaga sagaID first.Name "started", Call.Send sd.ref ⟨sagaID, "start"⟩]⟩ ∧
      errorsIs err q = true ∧
      err.Error = "service send: " ++ q.Error) ∧
    (∀ (e : GoError) (v v1 : W),
      storage.InsertSaga sagaID first.Name "started" v = (some e, v1) →
      ((New ⟨first :: rest⟩ storage).Start sagaID v).out = .ret (some e)) ∧
    (∀ (svc : Service Q) (more : List (Service Q)) (sq : Sender Q) (u : Sys Q) (q1 : GoError),
      svc.Sender = some sq →
      (Storage.InsertSaga sagaID svc.Name "started" u.db).1 = none →
      (sq.Send ⟨sagaID, "start"⟩ u.queues).1 = some q1 →
      ((Saga.onStorage (svc :: more)).Start sagaID u).world.db =
        (Storage.InsertSaga sagaID svc.Name "started" u.db).2 ∧
      ((∀ row ∈ u.db.rows, row.id ≠ sagaID) →
        ({ id := sagaID, status := "started", service := svc.Name,
           date_created := u.db.clock } : SagaRow) ∈
          ((Saga.onStorage (svc :: more)).Start sagaID u).world.db.rows)) := by
  refine ⟨⟨GoError.wrapf "service send: " q, ?_, ?_, rfl⟩, ?_, ?_⟩
  · simp [Saga.Start, New, Service.send, hsender, hinsert, hsend, StatusStarted, CommandStart]
  · simp [errorsIs, errorsIs_self]
  · intro e v v1 hv
    simp [Saga.Start, New, hv, StatusStarted]
  · intro svc more sq u q1 _ hok _
    have hdb := Start_onStorage_db svc more sagaID u
    refine ⟨hdb, fun hnew => ?_⟩
    rw [hdb, Storage.InsertSaga_ok sagaID svc.Name "started" u.db hok,
      insertStmt_absent sagaID "started" svc.Name u.db.clock u.db.rows hnew]
    simp

theorem Start_send_error_witness :
    ∃ err : GoError,
      (New ⟨[⟨"service1", "commands1", some (mockSender 1 (some (GoError.foreign 2 "queue error")))⟩]⟩
          (mockStorer none none none)).Start exampleID () =
        ⟨.ret (some err), (),
          [Call.InsertSaga exampleID "service1" "started",
           Call.Send 1 ⟨exampleID, "start"⟩]⟩ ∧
      errorsIs err (GoError.foreign 2 "queue error") = true ∧
      err.Error = "service send: " ++ (GoError.foreign 2 "queue error").Error :=
  (@Start_send_error Unit Unit (mockStorer none none none)
    ⟨"service1", "commands1", some (mockSender 1 (some (GoError.foreign 2 "queue error")))⟩ []
    (mockSender 1 (some (GoError.foreign 2 "queue error"))) exampleID () () ()
    (GoError.foreign 2 "queue error") rfl rfl rfl).1

/-- C13: on a workflow with a first participant that has a sender, on a
healthy database holding at most one record of the id, two calls of `Start`
with the id leave exactly one record of the id, the second call leaving the
records as the first one left them (its `InsertSaga` returns nil), and each
call sends one `Command` with the id and the name "start" through the first
participant's sender: each call makes one `Send` on it, the queues after the
first call are those this `Send` leaves, and the queues after the second call
are those a second `Send` of the command leaves from there: two commands in
all. -/
theorem Start_twice (first : Service Q) (rest : List (Service Q)) (sd : Sender Q)
    (id : UUID) (u : Sys Q)
    (hsender : first.Sender = some sd) (hdb : u.db.healthy)
    (hkey : u.db.rows.countP (fun r => decide (r.id = id)) ≤ 1) :
    ((Saga.onStorage (first :: rest)).Start id u).calls =
      [Call.InsertSaga id first.Name "started", Call.Send sd.ref ⟨id, "start"⟩] ∧
    ((Saga.onStorage (first :: rest)).Start id
        ((Saga.onStorage (first :: rest)).Start id u).world).calls =
      [Call.InsertSaga id first.Name "started", Call.Send sd.ref ⟨id, "start"⟩] ∧
    (Storage.InsertSaga id first.Name "started"
        ((Saga.onStorage (first :: rest)).Start id u).world.db).1 = none ∧
    ((Saga.onStorage (first :: rest)).Start id
        ((Saga.onStorage (first :: rest)).Start id u).world).world.db.rows =
      ((Saga.onStorage (first :: rest)).Start id u).world.db.rows ∧
    ((Saga.onStorage (first :: rest)).Start id
        ((Saga.onStorage (first :: rest)).Start id u).world).world.db.rows.countP
      (fun r => decide (r.id = id)) = 1 ∧
    ((Saga.onStorage (first :: rest)).Start id u).world.queues =
      (sd.Send ⟨id, "start"⟩ u.queues).2 ∧
    ((Saga.onStorage (first :: rest)).Start id
        ((Saga.onStorage (first :: rest)).Start id u).world).world.queues =
      (sd.Send ⟨id, "start"⟩ (sd.Send ⟨id, "start"⟩ u.queues).2).2 := by
  have h1 := Storage.InsertSaga_healthy id first.Name "started" u.db hdb
  have hdb1 := Start_onStorage_db first rest id u
  have hrows1 := Storage.InsertSaga_ok id first.Name "started" u.db h1.1
  have hhealthy1 : ((Saga.onStorage (first :: rest)).Start id u).world.db.healthy := by
    rw [hdb1]; exact h1.2
  have h2 := Storage.InsertSaga_healthy id first.Name "started" _ hhealthy1
  have hdb2 := Start_onStorage_db first rest id ((Saga.onStorage (first :: rest)).Start id u).world
  have hrows2 := Storage.InsertSaga_ok id first.Name "started" _ h2.1
  -- after the first call the id is stored, once
  have hcount1 : ((Saga.onStorage (first :: rest)).Start id u).world.db.rows.countP
      (fun r => decide (r.id = id)) = 1 := by
    rw [hdb1, hrows1]
    by_cases hex : ∃ row ∈ u.db.rows, row.id = id
    · rw [insertStmt_present id "started" first.Name u.db.clock u.db.rows hex]
      have hpos : 0 < u.db.rows.countP (fun r => decide (r.id = id)) := by
        rw [List.countP_pos_iff]
        obtain ⟨r, hr, hid⟩ := hex
        exact ⟨r, hr, by simpa using hid⟩
      omega
    · have habs : ∀ row ∈ u.db.rows, row.id ≠ id := fun row hr hid => hex ⟨row, hr, hid⟩
      rw [insertStmt_absent id "started" first.Name u.db.clock u.db.rows habs]
      have hzero : u.db.rows.countP (fun r => decide (r.id = id)) = 0 := by
        rw [List.countP_eq_zero]
        intro r hr
        simpa using habs r hr
      simp [List.countP_append, hzero]
  have hex1 : ∃ row ∈ ((Saga.onStorage (first :: rest)).Start id u).world.db.rows,
      row.id = id := by
    have hpos : 0 < ((Saga.onStorage (first :: rest)).Start id u).world.db.rows.countP
        (fun r => decide (r.id = id)) := by omega
    rw [List.countP_pos_iff] at hpos
    obtain ⟨r, hr, hid⟩ := hpos
    exact ⟨r, hr, by simpa using hid⟩
  have hsame : ((Saga.onStorage (first :: rest)).Start id
        ((Saga.onStorage (first :: rest)).Start id u).world).world.db.rows =
      ((Saga.onStorage (first :: rest)).Start id u).world.db.rows := by
    rw [hdb2, hrows2, insertStmt_present id "started" first.Name _ _ hex1]
  have hq1 := Start_onStorage_queues first rest sd id u hsender h1.1
  have hq2 := Start_onStorage_queues first rest sd id _ hsender h2.1
  refine ⟨Start_onStorage_calls first rest sd id u hsender h1.1,
    Start_onStorage_calls first rest sd id _ hsender h2.1, h2.1, hsame, ?_, hq1, ?_⟩
  · rw [hsame, hcount1]
  · rw [hq2, hq1]

theorem Start_twice_witness :
    ((Saga.onStorage recordingWorkflow).Start exampleID
        ((Saga.onStorage recordingWorkflow).Start exampleID
          ⟨⟨[], 0, []⟩, []⟩).world).world.db.rows.countP
      (fun r => decide (r.id = exampleID)) = 1 ∧
    ((Saga.onStorage recordingWorkflow).Start exampleID ⟨⟨[], 0, []⟩, []⟩).world.queues =
      [(1, ⟨exampleID, "start"⟩)] ∧
    ((Saga.onStorage recordingWorkflow).Start exampleID
        ((Saga.onStorage recordingWorkflow).Start exampleID
          ⟨⟨[], 0, []⟩, []⟩).world).world.queues =
      [(1, ⟨exampleID, "start"⟩), (1, ⟨exampleID, "start"⟩)] :=
  (Start_twice ⟨"service1", "commands1", some (recordingSender 1)⟩
    [⟨"service2", "commands2", some (recordingSender 2)⟩,
     ⟨"service3", "commands3", some (recordingSender 3)⟩]
    (recordingSender 1) exampleID ⟨⟨[], 0, []⟩, []⟩ rfl
    (fun f hf => by simp at hf) (by decide)).2.2.2.2

end StartOnStorage

/-! ## The store's status update and the stored service -/

section StoredRecords

variable {Q : Type}

/-- C19: when the driver runs the statement and reports its result,
`UpdateStatus` returns `sql.ErrNoRows` exactly when no record has the id, and
the records are then as they were; when a record has the id it returns nil and
the records are those before with the status of the records of that id set to
the given one, their service and every other record as they were. -/
theorem Storage.UpdateStatus_spec (id : UUID) (status : String) (db : DB)
    (hrun : db.nextRuns) :
    ((Storage.UpdateStatus id status db).1 = some GoError.ErrNoRows ↔
      ∀ row ∈ db.rows, row.id ≠ id) ∧
    ((∀ row ∈ db.rows, row.id ≠ id) → (Storage.UpdateStatus id status db).2.rows = db.rows) ∧
    ((∃ row ∈ db.rows, row.id = id) →
      (Storage.UpdateStatus id status db).1 = none ∧
      (Storage.UpdateStatus id status db).2.rows = db.rows.map (setStatusRow id status) ∧
      ∀ row ∈ db.rows,
        (setStatusRow id status row).service = row.service ∧
        (setStatusRow id status row).id = row.id ∧
        (row.id = id → (setStatusRow id status row).status = status) ∧
        (row.id ≠ id → setStatusRow id status row = row)) := by
  have hres : (Storage.UpdateStatus id status db).1 =
        (if db.rows.countP (fun r => decide (r.id = id)) = 0 then some GoError.ErrNoRows
          else none) ∧
      (Storage.UpdateStatus id status db).2.rows = db.rows.map (setStatusRow id status) := by
    rcases db with ⟨rows, clock, faults⟩
    rcases faults with _ | ⟨f, rest⟩
    · constructor
      · simp only [Storage.UpdateStatus, DB.ExecContext, updateStatusStmt]
        split <;> rfl
      · simp [Storage.UpdateStatus, DB.ExecContext, updateStatusStmt, setStatusRow]
        split <;> rfl
    · rcases hrun with h | h
      · simp at h
      · simp only [List.head?_cons, Option.some.injEq] at h
        subst h
        constructor
        · simp only [Storage.UpdateStatus, DB.ExecContext, updateStatusStmt]
          split <;> rfl
        · simp [Storage.UpdateStatus, DB.ExecContext, updateStatusStmt, setStatusRow]
          split <;> rfl
  have hzero : db.rows.countP (fun r => decide (r.id = id)) = 0 ↔
      ∀ row ∈ db.rows, row.id ≠ id := by
    rw [List.countP_eq_zero]
    constructor
    · intro h row hr; simpa using h row hr
    · intro h row hr; simpa using h row hr
  refine ⟨?_, ?_, ?_⟩
  · rw [hres.1, ← hzero]
    by_cases hc : db.rows.countP (fun r => decide (r.id = id)) = 0 <;> simp [hc]
  · intro habs
    rw [hres.2]
    conv_rhs => rw [← List.map_id db.rows]
    apply List.map_congr_left
    intro row hr
    simp [setStatusRow, habs row hr]
  · rintro ⟨row0, hr0, hid0⟩
    have hne : db.rows.countP (fun r => decide (r.id = id)) ≠ 0 := by
      intro hc
      exact (hzero.1 hc) row0 hr0 hid0
    refine ⟨by rw [hres.1]; simp [hne], hres.2, ?_⟩
    intro row _
    unfold setStatusRow
    by_cases hid : row.id = id <;> simp [hid]

theorem Storage.UpdateStatus_spec_witness :
    (Storage.UpdateStatus exampleID "error" exampleSys.db).1 = none ∧
    (Storage.UpdateStatus exampleID "error" exampleSys.db).2.rows =
      [⟨exampleID, "error", "service1", 0⟩] :=
  ⟨((Storage.UpdateStatus_spec exampleID "error" exampleSys.db (Or.inl rfl)).2.2
      ⟨⟨exampleID, "started", "service1", 0⟩, by simp [exampleSys], rfl⟩).1,
    ((Storage.UpdateStatus_spec exampleID "error" exampleSys.db (Or.inl rfl)).2.2
      ⟨⟨exampleID, "started", "service1", 0⟩, by simp [exampleSys], rfl⟩).2.1⟩

end StoredRecords

/-! ## The stored service is a participant -/

section ServiceInvariant

variable {W Q : Type}

/-- A participant returned by the lookup is one of the workflow. -/
theorem findNextService_mem (s : Saga W) (name : String) (next : Service W)
    (h : s.findNextService name = .ret (next, none)) : next ∈ s.workflow.Services := by
  unfold Saga.findNextService at h
  split at h
  · cases h
  · rename_i i found _
    split at h
    · cases h
    · split at h
      · cases h
      · split at h
        · cases h
        · rename_i nxt hnxt
          cases h
          exact List.getElem?_mem hnxt

/-- Whatever the driver does, `InsertSaga` leaves the rows as they were or
adds the one row it was given. -/
theorem Storage.InsertSaga_rows (id : UUID) (service status : String) (db : DB) :
    (Storage.InsertSaga id service status db).2.rows = db.rows ∨
    (Storage.InsertSaga id service status db).2.rows =
      db.rows ++ [{ id := id, status := status, service := service,
                    date_created := db.clock }] := by
  have hstmt : (insertStmt id status service db.clock db.rows).1 = db.rows ∨
      (insertStmt id status service db.clock db.rows).1 =
        db.rows ++ [{ id := id, status := status, service := service,
                      date_created := db.clock }] := by
    unfold insertStmt
    split
    · exact Or.inl rfl
    · exact Or.inr rfl
  rcases db with ⟨rows, clock, faults⟩
  rcases faults with _ | ⟨f, rest⟩
  · simpa [Storage.InsertSaga, DB.ExecContext] using hstmt
  · cases f
    · simpa [Storage.InsertSaga, DB.ExecContext] using hstmt
    · left
      simp [Storage.InsertSaga, DB.ExecContext]
    · simpa [Storage.InsertSaga, DB.ExecContext] using hstmt

/-- Whatever the driver does, `UpdateStatus` leaves the rows as they were or
sets the status of those with the id. -/
theorem Storage.UpdateStatus_rows (id : UUID) (status : String) (db : DB) :
    (Storage.UpdateStatus id status db).2.rows = db.rows ∨
    (Storage.UpdateStatus id status db).2.rows = db.rows.map (setStatusRow id status) := by
  rcases db with ⟨rows, clock, faults⟩
  rcases faults with _ | ⟨f, rest⟩
  · right
    simp only [Storage.UpdateStatus, DB.ExecContext, updateStatusStmt]
    split <;> rfl
  · cases f
    · right
      simp only [Storage.UpdateStatus, DB.ExecContext, updateStatusStmt]
      split <;> rfl
    · left
      simp [Storage.UpdateStatus, DB.ExecContext]
    · right
      simp [Storage.UpdateStatus, DB.ExecContext, updateStatusStmt, setStatusRow]

/-- The database after `ProcessMessage` on the repository's storage: as it
was, or as one `UpdateStatus` left it, or as one `UpdateService` to the name of
a participant left it. -/
theorem ProcessMessage_onStorage_db_cases (services : List (Service Q)) (inp : AnyMsg)
    (u : Sys Q) :
    ((Saga.onStorage services).ProcessMessage inp u).world.db = u.db ∨
    (∃ (id : UUID) (st : String),
      ((Saga.onStorage services).ProcessMessage inp u).world.db =
        (Storage.UpdateStatus id st u.db).2) ∨
    (∃ (id : UUID) (prev : String) (next : Service Q), next ∈ services ∧
      ((Saga.onStorage services).ProcessMessage inp u).world.db =
        (Storage.UpdateService id prev next.Name u.db).2) := by
  cases inp with
  | Command c => exact Or.inl rfl
  | other t => exact Or.inl rfl
  | Response r =>
    simp only [Saga.ProcessMessage]
    by_cases hdone : r.Status = StatusWorkDone
    · simp only [hdone, if_true, Saga.startNextService]
      cases hfind : (Saga.onStorage services).findNextService r.Service with
      | panic reason => exact Or.inl rfl
      | ret v =>
        rcases v with ⟨next, eo⟩
        cases eo with
        | some err =>
          right; left
          by_cases hend : err = GoError.ErrEndOfWorkflow
          · refine ⟨r.SagaID, StatusCompleted, ?_⟩
            simp only [hend, if_true, Saga.onStorage, New, Storage.storer]
            cases (Storage.UpdateStatus r.SagaID StatusCompleted u.db).1 <;> rfl
          · refine ⟨r.SagaID, StatusError, ?_⟩
            simp only [hend, if_false, Saga.onStorage, New, Storage.storer]
            cases (Storage.UpdateStatus r.SagaID StatusError u.db).1 <;> rfl
        | none =>
          right; right
          have hmem := findNextService_mem _ _ _ hfind
          simp only [Saga.onStorage, New, List.mem_map] at hmem
          obtain ⟨nx, hnx, rfl⟩ := hmem
          refine ⟨r.SagaID, r.Service, nx, hnx, ?_⟩
          simp only [Saga.onStorage, New, Storage.storer, Service.onQueues]
          cases (Storage.UpdateService r.SagaID r.Service nx.Name u.db).1 with
          | some e =>
            by_cases he : e = GoError.ErrNoRows
            · simp [he]
            · simp [he]
          | none =>
            cases hs : nx.Sender with
            | none => simp [Service.send]
            | some sd =>
              simp only [Service.send, Option.map_some', Sender.onQueues]
              cases (sd.Send ⟨r.SagaID, CommandStart⟩ u.queues).1 <;> rfl
    · simp only [hdone, if_false]
      by_cases herr : r.Status = StatusError
      · right; left
        refine ⟨r.SagaID, r.Status, ?_⟩
        simp only [herr, if_true, Saga.onStorage, New, Storage.storer]
        cases (Storage.UpdateStatus r.SagaID StatusError u.db).1 <;> rfl
      · left
        simp [herr]

/-- A call on the saga keeps every stored service the name of a participant. -/
theorem applyOp_service_mem (first : Service Q) (rest : List (Service Q)) (op : Op)
    (u : Sys Q)
    (hinv : ∀ row ∈ u.db.rows, ∃ sv ∈ first :: rest, sv.Name = row.service) :
    ∀ row ∈ (applyOp (Saga.onStorage (first :: rest)) op u).db.rows,
      ∃ sv ∈ first :: rest, sv.Name = row.service := by
  cases op with
  | Start id =>
    simp only [applyOp]
    rw [Start_onStorage_db first rest id u]
    rcases Storage.InsertSaga_rows id first.Name "started" u.db with h | h
    · rw [h]; exact hinv
    · rw [h]
      intro row hrow
      rcases List.mem_append.1 hrow with hr | hr
      · exact hinv row hr
      · simp only [List.mem_singleton] at hr
        subst hr
        exact ⟨first, List.mem_cons_self _ _, rfl⟩
  | ProcessMessage inp =>
    simp only [applyOp]
    rcases ProcessMessage_onStorage_db_cases (first :: rest) inp u with
      h | ⟨id, st, h⟩ | ⟨id, prev, next, hnext, h⟩
    · rw [h]; exact hinv
    · rw [h]
      rcases Storage.UpdateStatus_rows id st u.db with h1 | h1
      · rw [h1]; exact hinv
      · rw [h1]
        intro row hrow
        obtain ⟨r0, hr0, rfl⟩ := List.mem_map.1 hrow
        obtain ⟨sv, hsv, hname⟩ := hinv r0 hr0
        refine ⟨sv, hsv, ?_⟩
        unfold setStatusRow
        by_cases hid : r0.id = id <;> simp [hid, hname]
    · rw [h]
      rcases Storage.UpdateService_rows id prev next.Name u.db with h1 | h1
      · rw [h1]; exact hinv
      · rw [h1]
        intro row hrow
        obtain ⟨r0, hr0, rfl⟩ := List.mem_map.1 hrow
        unfold advanceRow
        by_cases hc : r0.id = id ∧ r0.service = prev
        · exact ⟨next, hnext, by simp [hc]⟩
        · obtain ⟨sv, hsv, hname⟩ := hinv r0 hr0
          exact ⟨sv, hsv, by simp [hc, hname]⟩

theorem applyOps_service_mem (first : Service Q) (rest : List (Service Q)) (ops : List Op) :
    ∀ u : Sys Q,
      (∀ row ∈ u.db.rows, ∃ sv ∈ first :: rest, sv.Name = row.service) →
      ∀ row ∈ (applyOps (Saga.onStorage (first :: rest)) ops u).db.rows,
        ∃ sv ∈ first :: rest, sv.Name = row.service := by
  induction ops with
  | nil => intro u hinv; exact hinv
  | cons op ops ih =>
    intro u hinv
    exact ih _ (applyOp_service_mem first rest op u hinv)

/-- C20: on a workflow with a first participant, after any finite sequence of
`Start` and `ProcessMessage` calls, with any ids, service names and statuses,
whatever the senders and the driver return, made on the repository's storage
from an empty table, every stored record whose status is not "completed" has
for service the name of a participant of the workflow (and so has every
stored record). -/
theorem stored_service_in_workflow (first : Service Q) (rest : List (Service Q))
    (ops : List Op) (clock : Nat) (faults : List Fault) (queues : Q) (row : SagaRow)
    (hrow : row ∈ (applyOps (Saga.onStorage (first :: rest)) ops
      ⟨⟨[], clock, faults⟩, queues⟩).db.rows) :
    (row.status ≠ "completed" → ∃ sv ∈ first :: rest, sv.Name = row.service) ∧
    ∃ sv ∈ first :: rest, sv.Name = row.service := by
  have h := applyOps_service_mem first rest ops ⟨⟨[], clock, faults⟩, queues⟩
    (fun r hr => by simp at hr) row hrow
  exact ⟨fun _ => h, h⟩

theorem stored_service_in_workflow_witness :
    ∃ sv ∈ recordingWorkflow, sv.Name = "service2" :=
  (stored_service_in_workflow ⟨"service1", "commands1", some (recordingSender 1)⟩
    [⟨"service2", "commands2", some (recordingSender 2)⟩,
     ⟨"service3", "commands3", some (recordingSender 3)⟩]
    [Op.Start exampleID, Op.ProcessMessage (.Response ⟨exampleID, "service1", "done"⟩)]
    0 [] [] ⟨exampleID, "started", "service2", 0⟩ (by decide)).2

end ServiceInvariant

/-! ## What the poll deletes -/

section PollDeletes

variable {W M : Type} [Message M]

/-- In the loop over a batch, the message at position `j` is deleted exactly
when the loop takes it up, its body decodes and the processor returns nil for
it; the handle is then its receipt handle. -/
theorem Poll.batch_delete_iff (p : Poll W M) :
    ∀ (msgs : List SqsMessage) (j pos : Nat) (w : W) (m : SqsMessage),
      msgs[j]? = some m → ∀ handle : Option String,
      (PollEvent.delete (pos + j) handle ∈ (p.batch pos msgs w).2.2 ↔
        handle = m.ReceiptHandle ∧
        ∃ (wj w2 : W) (body : String) (msg : M),
          p.reached pos msgs w j = some wj ∧ m.Body = some body ∧
          p.unmarshal body = some msg ∧
          p.target.ProcessMessage (Message.toAny msg) wj = (.ret none, w2)) := by
  intro msgs
  induction msgs with
  | nil => intro j pos w m hm; simp at hm
  | cons m0 rest ih =>
    intro j pos w m hm handle
    have hge : ∀ (w1 : W) (h : Option String),
        PollEvent.delete pos h ∉ (p.batch (pos + 1) rest w1).2.2 := by
      intro w1 h hmem
      have := Poll.batch_pos_ge p rest (pos + 1) w1 _ hmem
      simp [PollEvent.pos] at this
    have hnil : ∀ v : W, p.batch pos [] v = (BatchEnd.completed, v, []) := by
      intro v; simp [Poll.batch]
    rcases hd : p.isDone w with ⟨b, w1⟩
    cases b with
    | true =>
      have hb : ∀ X, p.batch pos (m0 :: X) w = (BatchEnd.returned, w1, []) := by
        intro X; simp only [Poll.batch, hd]
      cases j with
      | zero => simp [hb, Poll.reached, hnil, hd]
      | succ j => simp [hb, Poll.reached, List.take_succ_cons]
    | false =>
      cases hbody : m0.Body with
      | none =>
        have hb : ∀ X, p.batch pos (m0 :: X) w =
            (BatchEnd.panicked "invalid memory address or nil pointer dereference", w1, []) := by
          intro X; simp only [Poll.batch, hd, hbody]
        cases j with
        | zero =>
          simp only [List.getElem?_cons_zero, Option.some.injEq] at hm
          subst hm
          simp [hb, hbody]
        | succ j => simp [hb, Poll.reached, List.take_succ_cons]
      | some body0 =>
        cases hdec : p.unmarshal body0 with
        | none =>
          have hb : ∀ X, p.batch pos (m0 :: X) w = p.batch (pos + 1) X w1 := by
            intro X; simp only [Poll.batch, hd, hbody, hdec]
          cases j with
          | zero =>
            simp only [List.getElem?_cons_zero, Option.some.injEq] at hm
            subst hm
            rw [hb rest]
            constructor
            · intro hmem; exact absurd hmem (hge w1 handle)
            · rintro ⟨_, wj, w2, body, msg, _, hbd, hdc, _⟩
              rw [hbody] at hbd
              cases hbd
              rw [hdec] at hdc
              cases hdc
          | succ j =>
            simp only [List.getElem?_cons_succ] at hm
            have := ih j (pos + 1) w1 m hm handle
            rw [show pos + 1 + j = pos + (j + 1) by omega] at this
            rw [hb rest]
            simpa [Poll.reached, List.take_succ_cons, hb] using this
        | some msg0 =>
          rcases hproc : p.target.ProcessMessage (Message.toAny msg0) w1 with ⟨out, w2⟩
          cases out with
          | panic reason =>
            have hb : ∀ X, p.batch pos (m0 :: X) w =
                (BatchEnd.panicked reason, w2, [PollEvent.process pos msg0]) := by
              intro X; simp only [Poll.batch, hd, hbody, hdec, hproc]
            cases j with
            | zero =>
              simp only [List.getElem?_cons_zero, Option.some.injEq] at hm
              subst hm
              rw [hb rest]
              constructor
              · intro hmem; simp at hmem
              · rintro ⟨_, wj, w3, body, msg, hr, hbd, hdc, hp⟩
                rw [hbody] at hbd
                cases hbd
                rw [hdec] at hdc
                cases hdc
                simp [Poll.reached, hnil, hd] at hr
                subst hr
                rw [hproc] at hp
                cases hp
            | succ j => simp [hb, Poll.reached, List.take_succ_cons]
          | ret eo =>
            cases eo with
            | some e =>
              have hb : ∀ X, p.batch pos (m0 :: X) w =
                  ((p.batch (pos + 1) X w2).1, (p.batch (pos + 1) X w2).2.1,
                    PollEvent.process pos msg0 :: (p.batch (pos + 1) X w2).2.2) := by
                intro X; simp only [Poll.batch, hd, hbody, hdec, hproc]
              cases j with
              | zero =>
                simp only [List.getElem?_cons_zero, Option.some.injEq] at hm
                subst hm
                rw [hb rest]
                constructor
                · intro hmem
                  simp only [List.mem_cons] at hmem
                  rcases hmem with h | h
                  · cases h
                  · exact absurd h (hge w2 handle)
                · rintro ⟨_, wj, w3, body, msg, hr, hbd, hdc, hp⟩
                  rw [hbody] at hbd
                  cases hbd
                  rw [hdec] at hdc
                  cases hdc
                  simp [Poll.reached, hnil, hd] at hr
                  subst hr
                  rw [hproc] at hp
                  cases hp
              | succ j =>
                simp only [List.getElem?_cons_succ] at hm
                have := ih j (pos + 1) w2 m hm handle
                rw [show pos + 1 + j = pos + (j + 1) by omega] at this
                rw [hb rest]
                simpa [Poll.reached, List.take_succ_cons, hb] using this
            | none =>
              have hb : ∀ X, p.batch pos (m0 :: X) w =
                  ((p.batch (pos + 1) X (p.incoming.DeleteMessage m0.ReceiptHandle w2).2).1,
                    (p.batch (pos + 1) X (p.incoming.DeleteMessage m0.ReceiptHandle w2).2).2.1,
                    PollEvent.process pos msg0 :: PollEvent.delete pos m0.ReceiptHandle ::
                      (p.batch (pos + 1) X
                        (p.incoming.DeleteMessage m0.ReceiptHandle w2).2).2.2) := by
                intro X; simp only [Poll.batch, hd, hbody, hdec, hproc]
              cases j with
              | zero =>
                simp only [List.getElem?_cons_zero, Option.some.injEq] at hm
                subst hm
                rw [hb rest]
                constructor
                · intro hmem
                  simp only [List.mem_cons] at hmem
                  rcases hmem with h | h | h
                  · cases h
                  · injection h with _ h2
                    refine ⟨h2, w1, w2, body0, msg0, ?_, hbody, hdec, hproc⟩
                    simp [Poll.reached, hnil, hd]
                  · exact absurd h (hge _ handle)
                · rintro ⟨hh, _⟩
                  subst hh
                  simp
              | succ j =>
                simp only [List.getElem?_cons_succ] at hm
                have := ih j (pos + 1) (p.incoming.DeleteMessage m0.ReceiptHandle w2).2 m hm
                  handle
                rw [show pos + 1 + j = pos + (j + 1) by omega] at this
                rw [hb rest]
                simpa [Poll.reached, List.take_succ_cons, hb] using this

/-- In the events of the loop over a batch a deletion comes right after the
processing of the message at the same position. -/
theorem Poll.batch_delete_after_process (p : Poll W M) :
    ∀ (msgs : List SqsMessage) (pos : Nat) (w : W) (l1 l2 : List (PollEvent M)) (j : Nat)
      (handle : Option String),
      (p.batch pos msgs w).2.2 = l1 ++ PollEvent.delete j handle :: l2 →
      ∃ (l0 : List (PollEvent M)) (msg : M), l1 = l0 ++ [PollEvent.process j msg] := by
  intro msgs
  induction msgs with
  | nil =>
    intro pos w l1 l2 j handle h
    simp [Poll.batch] at h
  | cons m0 rest ih =>
    intro pos w l1 l2 j handle h
    rw [Poll.batch] at h
    split at h
    · simp at h
    · split at h
      · simp at h
      · split at h
        · exact ih _ _ _ _ _ _ h
        · split at h
          · rcases l1 with _ | ⟨x, l1⟩
            · simp at h
            · simp at h
          · rcases l1 with _ | ⟨x, l1⟩
            · simp at h
            · simp only [List.cons_append, List.cons.injEq] at h
              obtain ⟨l0, msg, hl⟩ := ih _ _ _ _ _ _ h.2
              exact ⟨x :: l0, msg, by rw [hl]; rfl⟩
          · rcases l1 with _ | ⟨x, l1⟩
            · simp at h
            · simp only [List.cons_append, List.cons.injEq] at h
              rcases l1 with _ | ⟨y, l1⟩
              · simp only [List.nil_append, List.cons.injEq, PollEvent.delete.injEq] at h
                obtain ⟨hx, ⟨hpos, _⟩, _⟩ := h
                subst hx hpos
                exact ⟨[], _, rfl⟩
              · simp only [List.cons_append, List.cons.injEq] at h
                obtain ⟨l0, msg, hl⟩ := ih _ _ _ _ _ _ h.2.2
                exact ⟨x :: y :: l0, msg, by rw [hl]; rfl⟩

/-- With a context that is never done, bodies that are not nil and a
processor that does not panic, the loop over a batch runs to its end. -/
theorem Poll.batch_completed (p : Poll W M)
    (hlive : ∀ v : W, (p.isDone v).1 = false)
    (hsafe : ∀ (msg : M) (v : W) (reason : String),
      (p.target.ProcessMessage (Message.toAny msg) v).1 ≠ .panic reason) :
    ∀ (msgs : List SqsMessage) (pos : Nat) (w : W), (∀ m ∈ msgs, m.Body ≠ none) →
      (p.batch pos msgs w).1 = BatchEnd.completed := by
  intro msgs
  induction msgs with
  | nil => intro pos w _; simp [Poll.batch]
  | cons m0 rest ih =>
    intro pos w hbodies
    have hrest : ∀ m ∈ rest, m.Body ≠ none := fun m hm => hbodies m (List.mem_cons_of_mem _ hm)
    rw [Poll.batch]
    split
    · rename_i w1 hd
      have := hlive w
      rw [hd] at this
      cases this
    · split
      · rename_i hb
        exact absurd hb (hbodies m0 (List.mem_cons_self _ _))
      · split
        · exact ih _ _ hrest
        · split
          · rename_i reason w2 hp
            exact absurd (congrArg Prod.fst hp) (hsafe _ _ reason)
          · exact ih _ _ hrest
          · exact ih _ _ hrest

/-- A round of the poll holds the events of the loop over its batch, run from
position 0 in the world the batch was received in. -/
theorem Poll.Start_round (p : Poll W M) :
    ∀ (fuel : Nat) (w : W) (round : Round M), round ∈ (p.Start fuel w).2.2 →
      ∃ w0 : W, round.events = (p.batch 0 round.batch w0).2.2 := by
  intro fuel
  induction fuel with
  | zero => intro w round h; simp [Poll.Start] at h
  | succ fuel ih =>
    intro w round h
    rw [Poll.Start] at h
    split at h
    · simp at h
    · split at h
      · exact ih _ round h
      · rename_i msgs w2 hrecv
        split at h
        · rename_i w3 evs hb
          simp only [List.mem_cons] at h
          rcases h with h | h
          · subst h
            exact ⟨w2, by rw [hb]⟩
          · exact ih _ round h
        · rename_i w3 evs hb
          simp only [List.mem_singleton] at h
          subst h
          exact ⟨w2, by rw [hb]⟩
        · rename_i reason w3 evs hb
          simp only [List.mem_singleton] at h
          subst h
          exact ⟨w2, by rw [hb]⟩

/-- The loop over a batch that ran through a first part of it goes on with the
rest, from the next position, in the world the first part left. -/
theorem Poll.batch_append (p : Poll W M) :
    ∀ (l1 l2 : List SqsMessage) (pos : Nat) (w : W),
      (p.batch pos l1 w).1 = BatchEnd.completed →
      p.batch pos (l1 ++ l2) w =
        ((p.batch (pos + l1.length) l2 (p.batch pos l1 w).2.1).1,
         (p.batch (pos + l1.length) l2 (p.batch pos l1 w).2.1).2.1,
         (p.batch pos l1 w).2.2 ++ (p.batch (pos + l1.length) l2 (p.batch pos l1 w).2.1).2.2) := by
  intro l1
  induction l1 with
  | nil => intro l2 pos w _; simp [Poll.batch]
  | cons m rest ih =>
    intro l2 pos w h
    have hlen : pos + (m :: rest).length = pos + 1 + rest.length := by
      simp only [List.length_cons]; omega
    rw [hlen]
    rcases hd : p.isDone w with ⟨d, w1⟩
    cases d with
    | true => simp [Poll.batch, hd] at h
    | false =>
      cases hb : m.Body with
      | none => simp [Poll.batch, hd, hb] at h
      | some body =>
        cases hu : p.unmarshal body with
        | none =>
          have h1 : (p.batch (pos + 1) rest w1).1 = BatchEnd.completed := by
            simpa [Poll.batch, hd, hb, hu] using h
          simp only [List.cons_append, Poll.batch, hd, hb, hu]
          simp only [List.append_eq, ih l2 (pos + 1) w1 h1]
        | some msg =>
          rcases hp : p.target.ProcessMessage (Message.toAny msg) w1 with ⟨out, w2⟩
          cases out with
          | panic reason => simp [Poll.batch, hd, hb, hu, hp] at h
          | ret e =>
            cases e with
            | some e =>
              have h1 : (p.batch (pos + 1) rest w2).1 = BatchEnd.completed := by
                simpa [Poll.batch, hd, hb, hu, hp] using h
              simp only [List.cons_append, Poll.batch, hd, hb, hu, hp]
              simp only [List.append_eq, ih l2 (pos + 1) w2 h1, List.cons_append]
            | none =>
              have h1 : (p.batch (pos + 1) rest
                  (p.incoming.DeleteMessage m.ReceiptHandle w2).2).1 = BatchEnd.completed := by
                simpa [Poll.batch, hd, hb, hu, hp] using h
              simp only [List.cons_append, Poll.batch, hd, hb, hu, hp]
              simp only [List.append_eq, ih l2 (pos + 1) _ h1, List.cons_append]

/-- What the loop over a batch does with the message at position `j`, taken
up in the world `wj`: a body that does not decode leaves the world and the
events as they are; a message handed to the processor is recorded and leaves
the world the processor left, after `DeleteMessage` with the message's receipt
handle when the processor returned nil, and only then; the loop goes on after
an error and ends at a panic. -/
theorem Poll.batch_step (p : Poll W M) (msgs : List SqsMessage) (pos j : Nat) (w wj : W)
    (m : SqsMessage) (hm : msgs[j]? = some m) (hr : p.reached pos msgs w j = some wj) :
    (m.Body = none →
      p.batch pos (msgs.take (j + 1)) w =
        (.panicked "invalid memory address or nil pointer dereference", wj,
          (p.batch pos (msgs.take j) w).2.2)) ∧
    (∀ body, m.Body = some body → p.unmarshal body = none →
      p.batch pos (msgs.take (j + 1)) w =
        (.completed, wj, (p.batch pos (msgs.take j) w).2.2)) ∧
    (∀ body msg e w2, m.Body = some body → p.unmarshal body = some msg →
      p.target.ProcessMessage (Message.toAny msg) wj = (.ret (some e), w2) →
      p.batch pos (msgs.take (j + 1)) w =
        (.completed, w2, (p.batch pos (msgs.take j) w).2.2 ++ [.process (pos + j) msg])) ∧
    (∀ body msg w2, m.Body = some body → p.unmarshal body = some msg →
      p.target.ProcessMessage (Message.toAny msg) wj = (.ret none, w2) →
      p.batch pos (msgs.take (j + 1)) w =
        (.completed, (p.incoming.DeleteMessage m.ReceiptHandle w2).2,
          (p.batch pos (msgs.take j) w).2.2 ++
            [.process (pos + j) msg, .delete (pos + j) m.ReceiptHandle])) ∧
    (∀ body msg reason w2, m.Body = some body → p.unmarshal body = some msg →
      p.target.ProcessMessage (Message.toAny msg) wj = (.panic reason, w2) →
      p.batch pos (msgs.take (j + 1)) w =
        (.panicked reason, w2, (p.batch pos (msgs.take j) w).2.2 ++ [.process (pos + j) msg])) := by
  have hjlt : j < msgs.length := by
    rcases Nat.lt_or_ge j msgs.length with h | h
    · exact h
    · rw [List.getElem?_eq_none h] at hm; cases hm
  have htake : msgs.take (j + 1) = msgs.take j ++ [m] := by
    rw [List.take_succ, hm]; rfl
  have hlen : (msgs.take j).length = j := by
    rw [List.length_take]; omega
  unfold Poll.reached at hr
  split at hr
  · rename_i hdone
    split at hr
    · cases hr
    · rename_i hlive
      have hd : p.isDone (p.batch pos (msgs.take j) w).2.1 = (false, wj) := by
        cases hr
        cases hx : p.isDone (p.batch pos (msgs.take j) w).2.1 with
        | mk d w1 =>
          rw [hx] at hlive
          cases d with
          | true => exact absurd rfl hlive
          | false => rfl
      have happ := Poll.batch_append p (msgs.take j) [m] pos w hdone
      rw [hlen] at happ
      rw [htake, happ]
      refine ⟨?_, ?_, ?_, ?_, ?_⟩
      · intro hb
        simp [Poll.batch, hd, hb]
      · intro body hb hu
        simp [Poll.batch, hd, hb, hu]
      · intro body msg e w2 hb hu hp
        simp [Poll.batch, hd, hb, hu, hp]
      · intro body msg w2 hb hu hp
        simp [Poll.batch, hd, hb, hu, hp]
      · intro body msg reason w2 hb hu hp
        simp [Poll.batch, hd, hb, hu, hp]
  · cases hr

/-- C14: in every round of `Poll.Start`, with `w0` the world the batch was
received in: `DeleteMessage` is called for the message at position `j` exactly
when the loop takes the message up with the context not done, its body decodes
into `M` and `ProcessMessage` returns nil for it, and it is called with the
receipt handle of that message, so a message whose decoding or processing
failed is not deleted; a deletion comes right after the processing of the same
message, never before it; and with a context that is never done, bodies that
are not nil and a processor that does not panic, every message of the batch is
taken up.  The events are the calls made: for a message taken up in the world
`wj`, when the processor returns nil and leaves `w2`, the loop leaves the
world that `DeleteMessage` of the receiver, called on `w2` with the receipt
handle of the message, leaves, and records the processing and then the
deletion; when the processor returns an error it leaves the processor's world
and records the processing alone; when the body does not decode it leaves
`wj` and records nothing. -/
theorem Poll.Start_deletes (p : Poll W M) (fuel : Nat) (w : W) (round : Round M)
    (hround : round ∈ (p.Start fuel w).2.2) :
    (∃ w0 : W, round.events = (p.batch 0 round.batch w0).2.2 ∧
      (∀ (j : Nat) (m : SqsMessage) (handle : Option String), round.batch[j]? = some m →
        (PollEvent.delete j handle ∈ round.events ↔
          handle = m.ReceiptHandle ∧
          ∃ (wj w2 : W) (body : String) (msg : M),
            p.reached 0 round.batch w0 j = some wj ∧ m.Body = some body ∧
            p.unmarshal body = some msg ∧
            p.target.ProcessMessage (Message.toAny msg) wj = (.ret none, w2))) ∧
      (∀ (l1 l2 : List (PollEvent M)) (j : Nat) (handle : Option String),
        round.events = l1 ++ PollEvent.delete j handle :: l2 →
        ∃ (l0 : List (PollEvent M)) (msg : M), l1 = l0 ++ [PollEvent.process j msg]) ∧
      ((∀ v : W, (p.isDone v).1 = false) →
        (∀ (msg : M) (v : W) (reason : String),
          (p.target.ProcessMessage (Message.toAny msg) v).1 ≠ .panic reason) →
        (∀ m ∈ round.batch, m.Body ≠ none) →
        ∀ j : Nat, j < round.batch.length →
          ∃ wj : W, p.reached 0 round.batch w0 j = some wj)) ∧
    (∀ (msgs : List SqsMessage) (w0 wj : W) (j : Nat) (m : SqsMessage),
      msgs[j]? = some m → p.reached 0 msgs w0 j = some wj →
      (∀ (body : String) (msg : M) (w2 : W), m.Body = some body → p.unmarshal body = some msg →
        p.target.ProcessMessage (Message.toAny msg) wj = (.ret none, w2) →
        (p.batch 0 (msgs.take (j + 1)) w0).2.1 =
          (p.incoming.DeleteMessage m.ReceiptHandle w2).2 ∧
        (p.batch 0 (msgs.take (j + 1)) w0).2.2 =
          (p.batch 0 (msgs.take j) w0).2.2 ++
            [PollEvent.process j msg, PollEvent.delete j m.ReceiptHandle]) ∧
      (∀ (body : String) (msg : M) (e : GoError) (w2 : W), m.Body = some body →
        p.unmarshal body = some msg →
        p.target.ProcessMessage (Message.toAny msg) wj = (.ret (some e), w2) →
        (p.batch 0 (msgs.take (j + 1)) w0).2.1 = w2 ∧
        (p.batch 0 (msgs.take (j + 1)) w0).2.2 =
          (p.batch 0 (msgs.take j) w0).2.2 ++ [PollEvent.process j msg]) ∧
      (∀ body : String, m.Body = some body → p.unmarshal body = none →
        (p.batch 0 (msgs.take (j + 1)) w0).2.1 = wj ∧
        (p.batch 0 (msgs.take (j + 1)) w0).2.2 = (p.batch 0 (msgs.take j) w0).2.2)) := by
  refine ⟨?_, ?_⟩
  · obtain ⟨w0, hw0⟩ := Poll.Start_round p fuel w round hround
    refine ⟨w0, hw0, ?_, ?_, ?_⟩
    · intro j m handle hm
      have := Poll.batch_delete_iff p round.batch j 0 w0 m hm handle
      rw [Nat.zero_add] at this
      rw [hw0]
      exact this
    · intro l1 l2 j handle h
      rw [hw0] at h
      exact Poll.batch_delete_after_process p round.batch 0 w0 l1 l2 j handle h
    · intro hlive hsafe hbodies j _
      have hdone := Poll.batch_completed p hlive hsafe (round.batch.take j) 0 w0
        (fun m hm => hbodies m (List.mem_of_mem_take hm))
      refine ⟨(p.isDone (p.batch 0 (round.batch.take j) w0).2.1).2, ?_⟩
      simp [Poll.reached, hdone, hlive]
  · intro msgs w0 wj j m hm hr
    have hstep := Poll.batch_step p msgs 0 j w0 wj m hm hr
    simp only [Nat.zero_add] at hstep
    refine ⟨?_, ?_, ?_⟩
    · intro body msg w2 hb hu hp
      rw [hstep.2.2.2.1 body msg w2 hb hu hp]
      exact ⟨rfl, rfl⟩
    · intro body msg e w2 hb hu hp
      rw [hstep.2.2.1 body msg e w2 hb hu hp]
      exact ⟨rfl, rfl⟩
    · intro body hb hu
      rw [hstep.2.1 body hb hu]
      exact ⟨rfl, rfl⟩

theorem Poll.Start_deletes_witness :
    (recordingPoll.batch 0 recordingBatch []).2.1 =
      [PollCall.processed ⟨exampleID, "service1", "done"⟩, PollCall.deleted (some "handle1"),
       PollCall.processed ⟨exampleID, "failing", "error"⟩,
       PollCall.processed ⟨exampleID, "service3", "done"⟩, PollCall.deleted (some "handle4")] ∧
    (recordingPoll.batch 0 recordingBatch []).2.2 =
      [PollEvent.process 0 ⟨exampleID, "service1", "done"⟩, PollEvent.delete 0 (some "handle1"),
       PollEvent.process 2 ⟨exampleID, "failing", "error"⟩,
       PollEvent.process 3 ⟨exampleID, "service3", "done"⟩,
       PollEvent.delete 3 (some "handle4")] :=
  ((Poll.Start_deletes recordingPoll 1 []
    ⟨recordingBatch,
      [PollEvent.process 0 ⟨exampleID, "service1", "done"⟩, PollEvent.delete 0 (some "handle1"),
       PollEvent.process 2 ⟨exampleID, "failing", "error"⟩,
       PollEvent.process 3 ⟨exampleID, "service3", "done"⟩,
       PollEvent.delete 3 (some "handle4")]⟩ (List.Mem.head _)).2
    recordingBatch []
    [PollCall.processed ⟨exampleID, "service1", "done"⟩, PollCall.deleted (some "handle1"),
     PollCall.processed ⟨exampleID, "failing", "error"⟩]
    3 ⟨some "service3", some "handle4"⟩ rfl rfl).1
    "service3" ⟨exampleID, "service3", "done"⟩
    [PollCall.processed ⟨exampleID, "service1", "done"⟩, PollCall.deleted (some "handle1"),
     PollCall.processed ⟨exampleID, "failing", "error"⟩,
     PollCall.processed ⟨exampleID, "service3", "done"⟩] rfl rfl rfl

end PollDeletes

/-! ## The start handler -/

section Handlers

variable {W : Type}

theorem respond_bad_request (cfg : APIConfig W) :
    cfg.respond ResponseWriter.fresh 400 (.errorResponse { Error := "input saga id is incorrect" })
      = { header := [("Content-Type", "application/json")], status := some 400,
          body := "\x7b\"error\":\"input saga id is incorrect\"\x7d", failWrite := none } := by
  rfl

theorem respond_internal_error (cfg : APIConfig W) :
    cfg.respond ResponseWriter.fresh 500
        (.errorResponse { Error := StatusText StatusInternalServerError })
      = { header := [("Content-Type", "application/json")], status := some 500,
          body := "\x7b\"error\":\"Internal Server Error\"\x7d", failWrite := none } := by
  rfl

theorem respond_ok_nil (cfg : APIConfig W) :
    cfg.respond ResponseWriter.fresh 200 .nil
      = { header := [("Content-Type", "application/json")], status := some 200,
          body := "null", failWrite := none } := by
  rfl

/-- C17: `handleStart`, writing to a fresh writer: when the form value
`saga_id` does not parse as a UUID it responds 400 with the JSON body
`{"error":"input saga id is incorrect"}` and does not call `Saga.Start`; when
it parses and `Saga.Start` returns an error it responds 500 with the body
`{"error":"Internal Server Error"}`, whatever the error; when it parses and
`Saga.Start` returns nil it responds 200. -/
theorem handleStart_status (cfg : APIConfig W) (r : Request) (w : W) :
    (∀ e : GoError, cfg.uuidParse (r.FormValue "saga_id") = .error e →
      (cfg.handleStart ResponseWriter.fresh r w).writer.status = some 400 ∧
      (cfg.handleStart ResponseWriter.fresh r w).writer.body =
        "\x7b\"error\":\"input saga id is incorrect\"\x7d" ∧
      (cfg.handleStart ResponseWriter.fresh r w).started = [] ∧
      (cfg.handleStart ResponseWriter.fresh r w).calls = [] ∧
      (cfg.handleStart ResponseWriter.fresh r w).world = w) ∧
    (∀ (id : UUID) (err : GoError), cfg.uuidParse (r.FormValue "saga_id") = .ok id →
      (cfg.Saga.Start id w).out = .ret (some err) →
      (cfg.handleStart ResponseWriter.fresh r w).writer.status = some 500 ∧
      (cfg.handleStart ResponseWriter.fresh r w).writer.body =
        "\x7b\"error\":\"Internal Server Error\"\x7d" ∧
      (cfg.handleStart ResponseWriter.fresh r w).started = [id]) ∧
    (∀ id : UUID, cfg.uuidParse (r.FormValue "saga_id") = .ok id →
      (cfg.Saga.Start id w).out = .ret none →
      (cfg.handleStart ResponseWriter.fresh r w).writer.status = some 200 ∧
      (cfg.handleStart ResponseWriter.fresh r w).started = [id]) := by
  refine ⟨?_, ?_, ?_⟩
  · intro e he
    simp [APIConfig.handleStart, he, StatusBadRequest, respond_bad_request]
  · intro id err hid hrun
    have hresp := respond_internal_error cfg
    simp only [StatusInternalServerError] at hresp
    simp [APIConfig.handleStart, hid, hrun, StatusInternalServerError, hresp]
  · intro id hid hrun
    simp [APIConfig.handleStart, hid, hrun, StatusOK, respond_ok_nil]

/-- C18 as stated fails: for a request with a valid `saga_id` for which
`Saga.Start` returns nil the response has status 200 and the body `null`, four
bytes, not the empty body. -/
theorem handleStart_ok_body_counterexample :
    exampleParse ((⟨"POST", [("saga_id", ["01020304-0506-0708-090a-0b0c0d0e0f10"])]⟩ :
      Request).FormValue "saga_id") = .ok exampleID ∧
    exampleID.String = "01020304-0506-0708-090a-0b0c0d0e0f10" ∧
    ((APIConfig.mk (New ⟨[⟨"service1", "commands1", some (mockSender 1 none)⟩]⟩
        (mockStorer none none none)) exampleParse).handleStart ResponseWriter.fresh
      ⟨"POST", [("saga_id", ["01020304-0506-0708-090a-0b0c0d0e0f10"])]⟩ ()).writer.status
      = some 200 ∧
    ((APIConfig.mk (New ⟨[⟨"service1", "commands1", some (mockSender 1 none)⟩]⟩
        (mockStorer none none none)) exampleParse).handleStart ResponseWriter.fresh
      ⟨"POST", [("saga_id", ["01020304-0506-0708-090a-0b0c0d0e0f10"])]⟩ ()).writer.body
      = "null" ∧
    ((APIConfig.mk (New ⟨[⟨"service1", "commands1", some (mockSender 1 none)⟩]⟩
        (mockStorer none none none)) exampleParse).handleStart ResponseWriter.fresh
      ⟨"POST", [("saga_id", ["01020304-0506-0708-090a-0b0c0d0e0f10"])]⟩ ()).writer.body.length
      = 4 := by
  refine ⟨rfl, by decide, rfl, rfl, by decide⟩

/-- C18, amended: for a request whose `saga_id` parses and for which
`Saga.Start` returns nil, the response written by `handleStart` to a fresh
writer has status 200, the content type `application/json` and the body
`null`, the JSON encoding of nil. -/
theorem handleStart_ok_body (cfg : APIConfig W) (r : Request) (w : W) (id : UUID)
    (hid : cfg.uuidParse (r.FormValue "saga_id") = .ok id)
    (hrun : (cfg.Saga.Start id w).out = .ret none) :
    (cfg.handleStart ResponseWriter.fresh r w).writer =
      { header := [("Content-Type", "application/json")], status := some 200,
        body := "null", failWrite := none } := by
  simp only [APIConfig.handleStart, hid, hrun, StatusOK, respond_ok_nil]

theorem handleStart_ok_body_witness :
    ((APIConfig.mk (New ⟨[⟨"service1", "commands1", some (mockSender 1 none)⟩]⟩
        (mockStorer none none none)) exampleParse).handleStart ResponseWriter.fresh
      ⟨"POST", [("saga_id", ["01020304-0506-0708-090a-0b0c0d0e0f10"])]⟩ ()).writer =
      { header := [("Content-Type", "application/json")], status := some 200,
        body := "null", failWrite := none } :=
  handleStart_ok_body
    (APIConfig.mk (New ⟨[⟨"service1", "commands1", some (mockSender 1 none)⟩]⟩
      (mockStorer none none none)) exampleParse)
    ⟨"POST", [("saga_id", ["01020304-0506-0708-090a-0b0c0d0e0f10"])]⟩ () exampleID
    rfl rfl

end Handlers

/-! ## The task supervisor -/

section Supervisor

theorem sum_map_set (f : Worker → Nat) :
    ∀ (l : List Worker) (i : Nat) (old new : Worker), l[i]? = some old →
      ((l.set i new).map f).sum + f old = (l.map f).sum + f new := by
  intro l
  induction l with
  | nil => intro i old new h; simp at h
  | cons x xs ih =>
    intro i old new h
    cases i with
    | zero =>
      simp only [List.getElem?_cons_zero, Option.some.injEq] at h
      subst h
      simp only [List.set_cons_zero, List.map_cons, List.sum_cons]
      omega
    | succ i =>
      simp only [List.getElem?_cons_succ] at h
      have := ih i old new h
      simp only [List.set_cons_succ, List.map_cons, List.sum_cons]
      omega

theorem le_sum_map (f : Worker → Nat) :
    ∀ (l : List Worker) (i : Nat) (w : Worker), l[i]? = some w → f w ≤ (l.map f).sum := by
  intro l
  induction l with
  | nil => intro i w h; simp at h
  | cons x xs ih =>
    intro i w h
    cases i with
    | zero =>
      simp only [List.getElem?_cons_zero, Option.some.injEq] at h
      subst h
      simp only [List.map_cons, List.sum_cons]
      omega
    | succ i =>
      simp only [List.getElem?_cons_succ] at h
      have := ih i w h
      simp only [List.map_cons, List.sum_cons]
      omega

theorem sum_map_pos (f : Worker → Nat) :
    ∀ l : List Worker, 0 < (l.map f).sum → ∃ (i : Nat) (w : Worker), l[i]? = some w ∧ 0 < f w := by
  intro l
  induction l with
  | nil => intro h; simp at h
  | cons x xs ih =>
    intro h
    simp only [List.map_cons, List.sum_cons] at h
    by_cases hx : 0 < f x
    · exact ⟨0, x, by simp, hx⟩
    · obtain ⟨i, w, hi, hw⟩ := ih (by omega)
      exact ⟨i + 1, w, by simpa using hi, hw⟩

/-- The invariant holds when `Run` is called. -/
theorem App.init_inv (a : App) : a.init.Inv a where
  len := by simp [App.init]
  wg_eq := by simp [App.init, Worker.active]
  idle_iff := by
    intro i hi
    simp [App.init, List.getElem?_replicate, hi]
  launching_le := by
    intro k hk
    simp [App.init] at hk
    omega
  monitor_absent := by simp [App.init]
  monitor_exited := by simp [App.init]
  code_iff := by
    simp [App.init, Worker.reported, ExitOK, ExitFail]
  code_le := by simp [App.init]
  no_wrong := by simp [App.init, Worker.wrong]
  wg_zero := by simp [App.init]
  ret_code := by simp [App.init]
  absent_code := by simp [App.init]
  blocked_done := by
    intro i t w _ hw hended _
    simp only [App.init, List.getElem?_replicate] at hw
    split at hw
    · cases hw; cases hended
    · cases hw
  cancel_follows := by simp [App.init, Worker.reported]
  result_ok := by
    intro i w x hw hres
    simp only [App.init, List.getElem?_replicate] at hw
    split at hw
    · cases hw; cases hres
    · cases hw

theorem idle_iff_set (a : App) (s : AppState) (h : s.Inv a) (i : Nat) (old new : Worker)
    (hi : s.workers[i]? = some old) (hold : old ≠ Worker.idle) (hnew : new ≠ Worker.idle) :
    ∀ j, j < a.tasks.length →
      ((s.workers.set i new)[j]? = some Worker.idle ↔
        ∃ k, s.main = MainPC.launching k ∧ k ≤ j) := by
  intro j hj
  by_cases hij : i = j
  · subst hij
    have hlt : i < s.workers.length := by rw [h.len]; exact hj
    rw [List.getElem?_set_self hlt]
    have := h.idle_iff i hj
    rw [hi] at this
    constructor
    · intro hc
      simp only [Option.some.injEq] at hc
      exact absurd hc hnew
    · intro hc
      have := this.2 hc
      simp only [Option.some.injEq] at this
      exact absurd this hold
  · rw [List.getElem?_set_ne hij]
    exact h.idle_iff j hj

/-- The invariant is kept when a started worker moves on. -/
theorem AppState.Inv.update (a : App) (s : AppState) (h : s.Inv a) (i : Nat) (old new : Worker)
    (hi : s.workers[i]? = some old) (hold : old ≠ Worker.idle) (hnew : new ≠ Worker.idle)
    (mon : MonitorPC) (wg : Nat)
    (hwg : wg + old.active = s.wg + new.active) (hact : new.active ≤ old.active)
    (hwrong : new.wrong = 0)
    (hmon : (mon = s.monitor ∧ new.reported = old.reported) ∨
      (s.monitor = MonitorPC.selecting ∧ (∃ e, mon = MonitorPC.received e) ∧ new.reported = 1))
    (hblocked : new.ended = true → old.ended = true ∨
      ∀ t, a.tasks[i]? = some t → (∀ r, t.ends false r = false) → s.ctxDone = true)
    (hresult : new.result = old.result ∨ ∀ x, new.result = some x →
      ∃ (t : Runner) (c : Bool), a.tasks[i]? = some t ∧ t.ends c x = true) :
    ({ s with workers := s.workers.set i new, wg := wg, monitor := mon } : AppState).Inv a := by
  have hA := sum_map_set Worker.active s.workers i old new hi
  have hR := sum_map_set Worker.reported s.workers i old new hi
  have hW := sum_map_set Worker.wrong s.workers i old new hi
  have hWold := le_sum_map Worker.wrong s.workers i old hi
  have hRold := le_sum_map Worker.reported s.workers i old hi
  have hw0 := h.no_wrong
  have hwg0 := h.wg_eq
  have hmono : mon ≠ MonitorPC.absent ∧ mon ≠ MonitorPC.exited ∨ mon = s.monitor := by
    rcases hmon with ⟨hm, _⟩ | ⟨_, ⟨e, he⟩, _⟩
    · exact Or.inr hm
    · left; rw [he]; exact ⟨by simp, by simp⟩
  have hsel : s.monitor = MonitorPC.selecting →
      (s.monitor = MonitorPC.absent ↔ False) ∧ (s.monitor = MonitorPC.exited ↔ False) := by
    intro hs; rw [hs]; exact ⟨by simp, by simp⟩
  constructor
  · simp [h.len]
  · show wg = ((s.workers.set i new).map Worker.active).sum
    omega
  · exact idle_iff_set a s h i old new hi hold hnew
  · exact h.launching_le
  · show mon = MonitorPC.absent ↔ _
    rcases hmon with ⟨hm, _⟩ | ⟨hs, ⟨e, he⟩, _⟩
    · rw [hm]; exact h.monitor_absent
    · rw [he]
      have := h.monitor_absent
      rw [hs] at this
      simpa using this
  · show mon = MonitorPC.exited ↔ _
    rcases hmon with ⟨hm, _⟩ | ⟨hs, ⟨e, he⟩, _⟩
    · rw [hm]; exact h.monitor_exited
    · rw [he]
      have := h.monitor_exited
      rw [hs] at this
      simpa using this
  · show (s.exitCode = ExitFail ∨ ∃ e, mon = MonitorPC.received e) ↔
      0 < ((s.workers.set i new).map Worker.reported).sum
    rcases hmon with ⟨hm, hr⟩ | ⟨hs, ⟨e, he⟩, hr⟩
    · have : ((s.workers.set i new).map Worker.reported).sum =
          (s.workers.map Worker.reported).sum := by omega
      rw [this, hm]
      exact h.code_iff
    · constructor
      · intro _; omega
      · intro _; exact Or.inr ⟨e, he⟩
  · exact h.code_le
  · show ((s.workers.set i new).map Worker.wrong).sum = 0
    omega
  · intro hm
    have := h.wg_zero hm
    show wg = 0
    omega
  · exact h.ret_code
  · show mon = MonitorPC.absent → _
    rcases hmon with ⟨hm, _⟩ | ⟨_, ⟨e, he⟩, _⟩
    · rw [hm]; exact h.absent_code
    · rw [he]; intro hc; cases hc
  · intro j t w ht hw hended hblock
    show s.ctxDone = true
    by_cases hij : i = j
    · subst hij
      have hlt : i < s.workers.length := by
        rcases Nat.lt_or_ge i s.workers.length with hl | hl
        · exact hl
        · rw [List.getElem?_eq_none hl] at hi; cases hi
      simp only [List.getElem?_set_self hlt, Option.some.injEq] at hw
      subst hw
      rcases hblocked hended with ho | ho
      · exact h.blocked_done i t old ht hi ho hblock
      · exact ho t ht hblock
    · simp only [List.getElem?_set_ne hij] at hw
      exact h.blocked_done j t w ht hw hended hblock
  · show 0 < ((s.workers.set i new).map Worker.reported).sum →
      s.cancelled = true ∨ (∃ e, mon = MonitorPC.received e) ∨ mon = MonitorPC.cancelling
    intro hpos
    rcases hmon with ⟨hm, hr⟩ | ⟨_, ⟨e, he⟩, _⟩
    · rw [hm]
      exact h.cancel_follows (by omega)
    · exact Or.inr (Or.inl ⟨e, he⟩)
  · intro j w x hw hres
    by_cases hij : i = j
    · subst hij
      have hlt : i < s.workers.length := by
        rcases Nat.lt_or_ge i s.workers.length with hl | hl
        · exact hl
        · rw [List.getElem?_eq_none hl] at hi; cases hi
      simp only [List.getElem?_set_self hlt, Option.some.injEq] at hw
      subst hw
      rcases hresult with ho | ho
      · exact h.result_ok i old x hi (by rw [← ho]; exact hres)
      · exact ho x hres
    · simp only [List.getElem?_set_ne hij] at hw
      exact h.result_ok j w x hw hres

theorem TaskResult.sent_of_failed (r : TaskResult) (h : r.failed = true) :
    ∃ e, r.sent = some e := by
  cases r with
  | nil => cases h
  | err e => exact ⟨e, rfl⟩
  | panic v => exact ⟨_, rfl⟩

/-- Every step keeps the invariant. -/
theorem App.step_inv (a : App) (st : Step) (s s1 : AppState) (h : s.Inv a)
    (hs : a.step st s = some s1) : s1.Inv a := by
  cases st with
  | launch =>
    simp only [App.step] at hs
    split at hs
    · rename_i k hmain
      split at hs
      · rename_i hk
        cases hs
        have hidle : s.workers[k]? = some Worker.idle :=
          (h.idle_iff k hk).2 ⟨k, hmain, Nat.le_refl k⟩
        have hA := sum_map_set Worker.active s.workers k _ Worker.running hidle
        have hR := sum_map_set Worker.reported s.workers k _ Worker.running hidle
        have hW := sum_map_set Worker.wrong s.workers k _ Worker.running hidle
        simp only [Worker.active, Worker.reported, Worker.wrong] at hA hR hW
        have hmon : s.monitor = MonitorPC.absent := h.monitor_absent.2 (Or.inr ⟨k, hmain⟩)
        constructor
        · simp [h.len]
        · show s.wg + 1 = ((s.workers.set k Worker.running).map Worker.active).sum
          have := h.wg_eq
          omega
        · intro j hj
          show (s.workers.set k Worker.running)[j]? = some Worker.idle ↔
            ∃ k1, MainPC.launching (k + 1) = MainPC.launching k1 ∧ k1 ≤ j
          by_cases hkj : k = j
          · subst hkj
            have hlt : k < s.workers.length := by rw [h.len]; exact hk
            rw [List.getElem?_set_self hlt]
            constructor
            · intro hc; cases hc
            · rintro ⟨k1, hk1, hle⟩
              cases hk1
              omega
          · rw [List.getElem?_set_ne hkj]
            rw [h.idle_iff j hj, hmain]
            constructor
            · rintro ⟨k1, hk1, hle⟩
              cases hk1
              exact ⟨k + 1, rfl, by omega⟩
            · rintro ⟨k1, hk1, hle⟩
              cases hk1
              exact ⟨k, rfl, by omega⟩
        · intro k1 hk1
          cases hk1
          omega
        · show s.monitor = MonitorPC.absent ↔ _
          simp [hmon]
        · show s.monitor = MonitorPC.exited ↔ _
          simp [hmon]
        · show (s.exitCode = ExitFail ∨ ∃ e, s.monitor = MonitorPC.received e) ↔
            0 < ((s.workers.set k Worker.running).map Worker.reported).sum
          have : ((s.workers.set k Worker.running).map Worker.reported).sum =
              (s.workers.map Worker.reported).sum := by omega
          rw [this]
          exact h.code_iff
        · exact h.code_le
        · show ((s.workers.set k Worker.running).map Worker.wrong).sum = 0
          have := h.no_wrong
          omega
        · intro hm
          rcases hm with hm | ⟨c, hm⟩ <;> cases hm
        · intro c hm
          cases hm
        · exact h.absent_code
        · intro j t w ht hw hended hblock
          show s.ctxDone = true
          by_cases hkj : k = j
          · subst hkj
            have hlt : k < s.workers.length := by rw [h.len]; exact hk
            simp only [List.getElem?_set_self hlt, Option.some.injEq] at hw
            subst hw
            cases hended
          · simp only [List.getElem?_set_ne hkj] at hw
            exact h.blocked_done j t w ht hw hended hblock
        · show 0 < ((s.workers.set k Worker.running).map Worker.reported).sum → _
          intro hpos
          exact h.cancel_follows (by omega)
        · intro j w x hw hres
          by_cases hkj : k = j
          · subst hkj
            have hlt : k < s.workers.length := by rw [h.len]; exact hk
            simp only [List.getElem?_set_self hlt, Option.some.injEq] at hw
            subst hw
            cases hres
          · simp only [List.getElem?_set_ne hkj] at hw
            exact h.result_ok j w x hw hres
      · cases hs
    all_goals cases hs
  | setup =>
    simp only [App.step] at hs
    split at hs
    · rename_i k hmain
      split at hs
      · rename_i hk
        cases hs
        have hmon : s.monitor = MonitorPC.absent := h.monitor_absent.2 (Or.inr ⟨k, hmain⟩)
        have hcode := h.absent_code hmon
        constructor
        · exact h.len
        · exact h.wg_eq
        · intro j hj
          show s.workers[j]? = some Worker.idle ↔ ∃ k1, MainPC.spawn = MainPC.launching k1 ∧ k1 ≤ j
          rw [h.idle_iff j hj, hmain]
          constructor
          · rintro ⟨k1, hk1, hle⟩
            cases hk1
            omega
          · rintro ⟨k1, hk1, _⟩
            cases hk1
        · intro k1 hk1
          cases hk1
        · show s.monitor = MonitorPC.absent ↔ _
          simp [hmon]
        · show s.monitor = MonitorPC.exited ↔ _
          simp [hmon]
        · show (ExitOK = ExitFail ∨ ∃ e, s.monitor = MonitorPC.received e) ↔ _
          have := h.code_iff
          rw [hcode] at this
          exact this
        · exact Or.inl rfl
        · exact h.no_wrong
        · intro hm
          rcases hm with hm | ⟨c, hm⟩ <;> cases hm
        · intro c hm
          cases hm
        · intro _; rfl
        · exact h.blocked_done
        · exact h.cancel_follows
        · exact h.result_ok
      · cases hs
    all_goals cases hs
  | spawnMonitor =>
    simp only [App.step] at hs
    split at hs
    · rename_i hmain
      cases hs
      have hmon : s.monitor = MonitorPC.absent := h.monitor_absent.2 (Or.inl hmain)
      constructor
      · exact h.len
      · exact h.wg_eq
      · intro j hj
        show s.workers[j]? = some Worker.idle ↔ ∃ k1, MainPC.waiting = MainPC.launching k1 ∧ k1 ≤ j
        rw [h.idle_iff j hj, hmain]
        simp
      · intro k1 hk1
        cases hk1
      · show MonitorPC.selecting = MonitorPC.absent ↔ _
        simp
      · show MonitorPC.selecting = MonitorPC.exited ↔ _
        simp
      · show (s.exitCode = ExitFail ∨ ∃ e, MonitorPC.selecting = MonitorPC.received e) ↔ _
        have := h.code_iff
        rw [hmon] at this
        simpa using this
      · exact h.code_le
      · exact h.no_wrong
      · intro hm
        rcases hm with hm | ⟨c, hm⟩ <;> cases hm
      · intro c hm
        cases hm
      · intro hc; cases hc
      · exact h.blocked_done
      · intro hpos
        have := h.cancel_follows hpos
        rw [hmon] at this
        rcases this with hc | ⟨e, hc⟩ | hc
        · exact Or.inl hc
        · cases hc
        · cases hc
      · exact h.result_ok
    all_goals cases hs
  | taskEnd i r =>
    simp only [App.step] at hs
    split at hs
    · rename_i t hw ht
      split at hs
      · rename_i hends
        cases hs
        refine AppState.Inv.update a s h i Worker.running _ hw (by simp) (by split <;> simp)
          s.monitor s.wg ?_ ?_ ?_ (Or.inl ⟨rfl, ?_⟩) ?_ (Or.inr ?_)
        · cases r.failed <;> simp [Worker.active]
        · cases r.failed <;> simp [Worker.active]
        · cases hf : r.failed <;> simp [Worker.wrong, hf]
        · cases hf : r.failed <;> simp [Worker.reported, hf]
        · intro _
          right
          intro t1 ht1 hblock
          rw [ht] at ht1
          cases ht1
          cases hd : s.ctxDone with
          | true => rfl
          | false =>
            rw [hd, hblock r] at hends
            cases hends
        · intro x hx
          have hxr : x = r := by
            cases hf : r.failed <;> simp [hf, Worker.result] at hx <;> exact hx.symm
          subst hxr
          exact ⟨t, s.ctxDone, ht, hends⟩
      · cases hs
    · cases hs
  | recvErr i =>
    simp only [App.step] at hs
    split at hs
    · rename_i r hw hmon
      split at hs
      · rename_i e he
        cases hs
        have hfailed : r.failed = true := by
          have := le_sum_map Worker.wrong s.workers i _ hw
          rw [h.no_wrong] at this
          cases hf : r.failed with
          | true => rfl
          | false => simp [Worker.wrong, hf] at this
        refine AppState.Inv.update a s h i (Worker.sending r) (Worker.exiting r) hw (by simp)
          (by simp) (MonitorPC.received e) s.wg ?_ ?_ ?_ (Or.inr ⟨hmon, ⟨e, rfl⟩, ?_⟩) ?_
          (Or.inl rfl)
        · simp [Worker.active]
        · simp [Worker.active]
        · simp [Worker.wrong]
        · simp [Worker.reported, hfailed]
        · intro _; exact Or.inl rfl
      · cases hs
    · cases hs
  | workerDone i =>
    simp only [App.step] at hs
    split at hs
    · rename_i r hw
      cases hs
      have hpos : 1 ≤ s.wg := by
        have := le_sum_map Worker.active s.workers i _ hw
        rw [← h.wg_eq] at this
        simpa [Worker.active] using this
      refine AppState.Inv.update a s h i (Worker.exiting r) (Worker.done r) hw (by simp)
        (by simp) s.monitor (s.wg - 1) ?_ ?_ ?_ (Or.inl ⟨rfl, ?_⟩) ?_ (Or.inl rfl)
      · simp only [Worker.active]; omega
      · simp [Worker.active]
      · simp [Worker.wrong]
      · simp [Worker.reported]
      · intro _; exact Or.inl rfl
    · cases hs
  | monitorSet =>
    simp only [App.step] at hs
    split at hs
    · rename_i e hmon
      cases hs
      have hnotabs : ¬ (s.main = MainPC.spawn ∨ ∃ k, s.main = MainPC.launching k) := by
        intro hc
        have := h.monitor_absent.2 hc
        rw [hmon] at this
        cases this
      have hnotret : ¬ ∃ code, s.main = MainPC.returned code := by
        intro hc
        have := h.monitor_exited.2 hc
        rw [hmon] at this
        cases this
      constructor
      · exact h.len
      · exact h.wg_eq
      · exact h.idle_iff
      · exact h.launching_le
      · show MonitorPC.cancelling = MonitorPC.absent ↔ _
        simp [hnotabs]
      · show MonitorPC.cancelling = MonitorPC.exited ↔ _
        simp [hnotret]
      · show (ExitFail = ExitFail ∨ ∃ e, MonitorPC.cancelling = MonitorPC.received e) ↔ _
        have := h.code_iff.1 (Or.inr ⟨e, hmon⟩)
        simp [this]
      · exact Or.inr rfl
      · exact h.no_wrong
      · exact h.wg_zero
      · intro c hm
        exact absurd ⟨c, hm⟩ hnotret
      · intro hc; cases hc
      · exact h.blocked_done
      · intro _; exact Or.inr (Or.inr rfl)
      · exact h.result_ok
    all_goals cases hs
  | recvSignal =>
    simp only [App.step] at hs
    split at hs
    · rename_i sig hmon hstop
      cases hs
      have hnotabs : ¬ (s.main = MainPC.spawn ∨ ∃ k, s.main = MainPC.launching k) := by
        intro hc
        have := h.monitor_absent.2 hc
        rw [hmon] at this
        cases this
      have hnotret : ¬ ∃ code, s.main = MainPC.returned code := by
        intro hc
        have := h.monitor_exited.2 hc
        rw [hmon] at this
        cases this
      constructor
      · exact h.len
      · exact h.wg_eq
      · exact h.idle_iff
      · exact h.launching_le
      · show MonitorPC.cancelling = MonitorPC.absent ↔ _
        simp [hnotabs]
      · show MonitorPC.cancelling = MonitorPC.exited ↔ _
        simp [hnotret]
      · show (s.exitCode = ExitFail ∨ ∃ e, MonitorPC.cancelling = MonitorPC.received e) ↔ _
        have := h.code_iff
        rw [hmon] at this
        simpa using this
      · exact h.code_le
      · exact h.no_wrong
      · exact h.wg_zero
      · exact h.ret_code
      · intro hc; cases hc
      · exact h.blocked_done
      · intro _; exact Or.inr (Or.inr rfl)
      · exact h.result_ok
    · cases hs
  | monitorCancel =>
    simp only [App.step] at hs
    split at hs
    · rename_i hmon
      cases hs
      have hnotabs : ¬ (s.main = MainPC.spawn ∨ ∃ k, s.main = MainPC.launching k) := by
        intro hc
        have := h.monitor_absent.2 hc
        rw [hmon] at this
        cases this
      have hnotret : ¬ ∃ code, s.main = MainPC.returned code := by
        intro hc
        have := h.monitor_exited.2 hc
        rw [hmon] at this
        cases this
      constructor
      · exact h.len
      · exact h.wg_eq
      · exact h.idle_iff
      · exact h.launching_le
      · show MonitorPC.selecting = MonitorPC.absent ↔ _
        simp [hnotabs]
      · show MonitorPC.selecting = MonitorPC.exited ↔ _
        simp [hnotret]
      · show (s.exitCode = ExitFail ∨ ∃ e, MonitorPC.selecting = MonitorPC.received e) ↔ _
        have := h.code_iff
        rw [hmon] at this
        simpa using this
      · exact h.code_le
      · exact h.no_wrong
      · exact h.wg_zero
      · exact h.ret_code
      · intro hc; cases hc
      · intro j t w ht hw hended hblock
        simp [AppState.ctxDone]
      · intro _; exact Or.inl rfl
      · exact h.result_ok
    all_goals cases hs
  | wait =>
    simp only [App.step] at hs
    split at hs
    · rename_i hmain
      split at hs
      · rename_i hwg
        cases hs
        constructor
        · exact h.len
        · exact h.wg_eq
        · intro j hj
          show s.workers[j]? = some Worker.idle ↔
            ∃ k1, MainPC.sendingExit = MainPC.launching k1 ∧ k1 ≤ j
          rw [h.idle_iff j hj, hmain]
          simp
        · intro k1 hk1
          cases hk1
        · show s.monitor = MonitorPC.absent ↔ _
          rw [h.monitor_absent, hmain]
          simp
        · show s.monitor = MonitorPC.exited ↔ _
          rw [h.monitor_exited, hmain]
          simp
        · exact h.code_iff
        · exact h.code_le
        · exact h.no_wrong
        · intro _; exact hwg
        · intro c hm
          cases hm
        · exact h.absent_code
        · exact h.blocked_done
        · exact h.cancel_follows
        · exact h.result_ok
      · cases hs
    all_goals cases hs
  | recvExit =>
    simp only [App.step] at hs
    split at hs
    · rename_i hmain hmon
      cases hs
      constructor
      · exact h.len
      · exact h.wg_eq
      · intro j hj
        show s.workers[j]? = some Worker.idle ↔
          ∃ k1, MainPC.returned s.exitCode = MainPC.launching k1 ∧ k1 ≤ j
        rw [h.idle_iff j hj, hmain]
        simp
      · intro k1 hk1
        cases hk1
      · show MonitorPC.exited = MonitorPC.absent ↔ _
        simp
      · show MonitorPC.exited = MonitorPC.exited ↔ _
        simp
      · show (s.exitCode = ExitFail ∨ ∃ e, MonitorPC.exited = MonitorPC.received e) ↔ _
        have := h.code_iff
        rw [hmon] at this
        simpa using this
      · exact h.code_le
      · exact h.no_wrong
      · intro _; exact h.wg_zero (Or.inl hmain)
      · intro c hm
        cases hm
        rfl
      · intro hc; cases hc
      · exact h.blocked_done
      · intro hpos
        have := h.cancel_follows hpos
        rw [hmon] at this
        rcases this with hc | ⟨e, hc⟩ | hc
        · exact Or.inl hc
        · cases hc
        · cases hc
      · exact h.result_ok
    · cases hs
  | parentCancel =>
    simp only [App.step] at hs
    cases hs
    constructor
    · exact h.len
    · exact h.wg_eq
    · exact h.idle_iff
    · exact h.launching_le
    · exact h.monitor_absent
    · exact h.monitor_exited
    · exact h.code_iff
    · exact h.code_le
    · exact h.no_wrong
    · exact h.wg_zero
    · exact h.ret_code
    · exact h.absent_code
    · intro j t w ht hw hended hblock
      simp [AppState.ctxDone]
    · exact h.cancel_follows
    · exact h.result_ok
  | signal sig =>
    simp only [App.step] at hs
    split at hs
    · cases hs
      constructor
      · exact h.len
      · exact h.wg_eq
      · exact h.idle_iff
      · exact h.launching_le
      · exact h.monitor_absent
      · exact h.monitor_exited
      · exact h.code_iff
      · exact h.code_le
      · exact h.no_wrong
      · exact h.wg_zero
      · exact h.ret_code
      · exact h.absent_code
      · exact h.blocked_done
      · exact h.cancel_follows
      · exact h.result_ok
    · cases hs

/-- The invariant holds after every list of steps taken from the call of `Run`. -/
theorem App.exec_inv (a : App) :
    ∀ (sched : List Step) (s s1 : AppState), s.Inv a → a.exec sched s = some s1 → s1.Inv a := by
  intro sched
  induction sched with
  | nil =>
    intro s s1 h hs
    simp only [App.exec, Option.some.injEq] at hs
    subst hs
    exact h
  | cons st rest ih =>
    intro s s1 h hs
    simp only [App.exec] at hs
    split at hs
    · cases hs
    · rename_i s2 hstep
      exact ih s2 s1 (App.step_inv a st s s2 h hstep) hs

theorem sum_map_le (f g : Worker → Nat) (hfg : ∀ w, f w ≤ g w) :
    ∀ l : List Worker, (l.map f).sum ≤ (l.map g).sum := by
  intro l
  induction l with
  | nil => simp
  | cons x xs ih =>
    simp only [List.map_cons, List.sum_cons]
    have := hfg x
    omega

/-- When `Run` has returned every task has ended and its goroutine too, and
the code returned is `ExitFail` exactly when a task ended with an error or a
panic. -/
theorem AppState.Inv.returned (a : App) (s : AppState) (h : s.Inv a) (code : Nat)
    (hret : s.main = MainPC.returned code) :
    (∀ i, i < a.tasks.length → ∃ r, s.workers[i]? = some (Worker.done r)) ∧
    (code = ExitFail ↔ ∃ (i : Nat) (r : TaskResult),
      s.workers[i]? = some (Worker.done r) ∧ r.failed = true) ∧
    (code = ExitOK ↔ ∀ (i : Nat) (r : TaskResult),
      s.workers[i]? = some (Worker.done r) → r = TaskResult.nil) := by
  have hwg : (s.workers.map Worker.active).sum = 0 := by
    rw [← h.wg_eq]
    exact h.wg_zero (Or.inr ⟨code, hret⟩)
  have hdone : ∀ (i : Nat) (w : Worker), s.workers[i]? = some w → ∃ r, w = Worker.done r := by
    intro i w hw
    have hact := le_sum_map Worker.active s.workers i w hw
    rw [hwg] at hact
    have hi : i < a.tasks.length := by
      rw [← h.len]
      rcases Nat.lt_or_ge i s.workers.length with hl | hl
      · exact hl
      · rw [List.getElem?_eq_none hl] at hw; cases hw
    cases w with
    | idle =>
      obtain ⟨k, hk, _⟩ := (h.idle_iff i hi).1 hw
      rw [hret] at hk
      cases hk
    | running => simp [Worker.active] at hact
    | sending r => simp [Worker.active] at hact
    | exiting r => simp [Worker.active] at hact
    | done r => exact ⟨r, rfl⟩
  have hall : ∀ i, i < a.tasks.length → ∃ r, s.workers[i]? = some (Worker.done r) := by
    intro i hi
    have hlt : i < s.workers.length := by rw [h.len]; exact hi
    obtain ⟨r, hr⟩ := hdone i _ (List.getElem?_eq_getElem hlt)
    exact ⟨r, by rw [List.getElem?_eq_getElem hlt, hr]⟩
  have hcode : code = s.exitCode := h.ret_code code hret
  have hmon : s.monitor = MonitorPC.exited := h.monitor_exited.2 ⟨code, hret⟩
  have hfail : code = ExitFail ↔ ∃ (i : Nat) (r : TaskResult),
      s.workers[i]? = some (Worker.done r) ∧ r.failed = true := by
    have hiff := h.code_iff
    rw [hmon] at hiff
    simp only [reduceCtorEq, exists_false, or_false] at hiff
    rw [hcode, hiff]
    constructor
    · intro hpos
      obtain ⟨i, w, hw, hrep⟩ := sum_map_pos Worker.reported s.workers hpos
      obtain ⟨r, rfl⟩ := hdone i w hw
      refine ⟨i, r, hw, ?_⟩
      cases hf : r.failed with
      | true => rfl
      | false => simp [Worker.reported, hf] at hrep
    · rintro ⟨i, r, hw, hf⟩
      have := le_sum_map Worker.reported s.workers i _ hw
      simp only [Worker.reported, hf, if_true] at this
      omega
  refine ⟨hall, hfail, ?_⟩
  constructor
  · intro hok i r hw
    cases r with
    | nil => rfl
    | err e =>
      have := hfail.2 ⟨i, _, hw, rfl⟩
      rw [hok] at this
      cases this
    | panic v =>
      have := hfail.2 ⟨i, _, hw, rfl⟩
      rw [hok] at this
      cases this
  · intro hnil
    rcases h.code_le with hc | hc
    · rw [hcode]; exact hc
    · rw [← hcode] at hc
      obtain ⟨i, r, hw, hf⟩ := hfail.1 hc
      rw [hnil i r hw] at hf
      cases hf

theorem App.canStep_launching (a : App) (s : AppState) (h : s.Inv a) (k : Nat)
    (hmain : s.main = MainPC.launching k) : a.CanStep s := by
  have hle := h.launching_le k hmain
  rcases Nat.lt_or_ge k a.tasks.length with hk | hk
  · have hidle : s.workers[k]? = some Worker.idle :=
      (h.idle_iff k hk).2 ⟨k, hmain, Nat.le_refl k⟩
    have hsum := sum_map_set Worker.weight s.workers k _ Worker.running hidle
    refine ⟨Step.launch,
      { s with workers := s.workers.set k Worker.running, wg := s.wg + 1,
               main := MainPC.launching (k + 1) },
      rfl, by simp [App.step, hmain, hk], ?_⟩
    simp only [AppState.measure, hmain, Worker.weight] at hsum ⊢
    omega
  · have hk : k = a.tasks.length := by omega
    refine ⟨Step.setup,
      { s with exitCode := ExitOK, notified := true, main := MainPC.spawn },
      rfl, by simp [App.step, hmain, hk], ?_⟩
    simp only [AppState.measure, hmain]
    omega

theorem App.canStep_spawn (a : App) (s : AppState) (h : s.Inv a)
    (hmain : s.main = MainPC.spawn) : a.CanStep s := by
  have hmon : s.monitor = MonitorPC.absent := h.monitor_absent.2 (Or.inl hmain)
  refine ⟨Step.spawnMonitor, { s with monitor := MonitorPC.selecting, main := MainPC.waiting },
    rfl, by simp [App.step, hmain], ?_⟩
  simp only [AppState.measure, hmain, hmon]
  omega

theorem App.canStep_received (a : App) (s : AppState) (e : GoError)
    (hmon : s.monitor = MonitorPC.received e) : a.CanStep s := by
  refine ⟨Step.monitorSet, { s with exitCode := ExitFail, monitor := MonitorPC.cancelling },
    rfl, by simp [App.step, hmon], ?_⟩
  simp only [AppState.measure, hmon]
  omega

theorem App.canStep_cancelling (a : App) (s : AppState)
    (hmon : s.monitor = MonitorPC.cancelling) : a.CanStep s := by
  refine ⟨Step.monitorCancel, { s with cancelled := true, monitor := MonitorPC.selecting },
    rfl, by simp [App.step, hmon], ?_⟩
  simp only [AppState.measure, hmon]
  omega

theorem App.canStep_sending (a : App) (s : AppState) (h : s.Inv a) (i : Nat) (r : TaskResult)
    (hw : s.workers[i]? = some (Worker.sending r)) (hmon : s.monitor = MonitorPC.selecting) :
    a.CanStep s := by
  have hfailed : r.failed = true := by
    have := le_sum_map Worker.wrong s.workers i _ hw
    rw [h.no_wrong] at this
    cases hf : r.failed with
    | true => rfl
    | false => simp [Worker.wrong, hf] at this
  obtain ⟨e, he⟩ := TaskResult.sent_of_failed r hfailed
  have hsum := sum_map_set Worker.weight s.workers i _ (Worker.exiting r) hw
  refine ⟨Step.recvErr i,
    { s with workers := s.workers.set i (Worker.exiting r), monitor := MonitorPC.received e },
    rfl, by simp [App.step, hw, hmon, he], ?_⟩
  simp only [AppState.measure, hmon, Worker.weight] at hsum ⊢
  omega

theorem App.canStep_exiting (a : App) (s : AppState) (i : Nat) (r : TaskResult)
    (hw : s.workers[i]? = some (Worker.exiting r)) : a.CanStep s := by
  have hsum := sum_map_set Worker.weight s.workers i _ (Worker.done r) hw
  refine ⟨Step.workerDone i,
    { s with workers := s.workers.set i (Worker.done r), wg := s.wg - 1 },
    rfl, by simp [App.step, hw], ?_⟩
  simp only [AppState.measure, Worker.weight] at hsum ⊢
  omega

theorem App.canStep_running (a : App) (s : AppState) (i : Nat) (t : Runner) (r : TaskResult)
    (hw : s.workers[i]? = some Worker.running) (ht : a.tasks[i]? = some t)
    (hends : t.ends s.ctxDone r = true) : a.CanStep s := by
  cases hf : r.failed with
  | true =>
    have hsum := sum_map_set Worker.weight s.workers i _ (Worker.sending r) hw
    refine ⟨Step.taskEnd i r, { s with workers := s.workers.set i (Worker.sending r) },
      rfl, by simp [App.step, hw, ht, hends, hf], ?_⟩
    simp only [AppState.measure, Worker.weight] at hsum ⊢
    omega
  | false =>
    have hsum := sum_map_set Worker.weight s.workers i _ (Worker.exiting r) hw
    refine ⟨Step.taskEnd i r, { s with workers := s.workers.set i (Worker.exiting r) },
      rfl, by simp [App.step, hw, ht, hends, hf], ?_⟩
    simp only [AppState.measure, Worker.weight] at hsum ⊢
    omega

/-- Progress: in a state of a run where `Run` has not returned, and where a
step can be taken whenever a task is still inside its call, a goroutine of
`Run` can take a step, and the step brings `Run` nearer to its return. -/
theorem App.progress (a : App) (s : AppState) (h : s.Inv a)
    (hnot : ∀ code, s.main ≠ MainPC.returned code)
    (hrun : ∀ i : Nat, s.workers[i]? = some Worker.running → a.CanStep s) :
    a.CanStep s := by
  have hlate : (s.main = MainPC.waiting ∨ s.main = MainPC.sendingExit) → a.CanStep s := by
    intro hmain
    have hnl : ∀ k, s.main ≠ MainPC.launching k := by
      intro k hk
      rcases hmain with hm | hm <;> rw [hm] at hk <;> cases hk
    cases hmon : s.monitor with
    | absent =>
      rcases h.monitor_absent.1 hmon with hc | ⟨k, hc⟩ <;>
        rcases hmain with hm | hm <;> rw [hm] at hc <;> cases hc
    | exited =>
      obtain ⟨c, hc⟩ := h.monitor_exited.1 hmon
      rcases hmain with hm | hm <;> rw [hm] at hc <;> cases hc
    | received e => exact App.canStep_received a s e hmon
    | cancelling => exact App.canStep_cancelling a s hmon
    | selecting =>
      cases hstop : s.stop with
      | some sig =>
        refine ⟨Step.recvSignal, { s with stop := none, monitor := MonitorPC.cancelling },
          rfl, by simp [App.step, hmon, hstop], ?_⟩
        simp only [AppState.measure, hmon, hstop]
        omega
      | none =>
        by_cases hsum : 0 < (s.workers.map Worker.weight).sum
        · obtain ⟨i, w, hw, hpos⟩ := sum_map_pos Worker.weight s.workers hsum
          have hi : i < a.tasks.length := by
            rw [← h.len]
            rcases Nat.lt_or_ge i s.workers.length with hl | hl
            · exact hl
            · rw [List.getElem?_eq_none hl] at hw; cases hw
          cases w with
          | idle =>
            obtain ⟨k, hk, _⟩ := (h.idle_iff i hi).1 hw
            exact absurd hk (hnl k)
          | running => exact hrun i hw
          | sending r => exact App.canStep_sending a s h i r hw hmon
          | exiting r => exact App.canStep_exiting a s i r hw
          | done r => simp [Worker.weight] at hpos
        · have hwg : s.wg = 0 := by
            have := sum_map_le Worker.active Worker.weight
              (fun w => by cases w <;> simp [Worker.active, Worker.weight]) s.workers
            have := h.wg_eq
            omega
          rcases hmain with hm | hm
          · refine ⟨Step.wait, { s with main := MainPC.sendingExit },
              rfl, by simp [App.step, hm, hwg], ?_⟩
            simp only [AppState.measure, hm]
            omega
          · refine ⟨Step.recvExit,
              { s with main := MainPC.returned s.exitCode, monitor := MonitorPC.exited },
              rfl, by simp [App.step, hm, hmon], ?_⟩
            simp only [AppState.measure, hm, hmon]
            omega
  cases hmain : s.main with
  | launching k => exact App.canStep_launching a s h k hmain
  | spawn => exact App.canStep_spawn a s h hmain
  | waiting => exact hlate (Or.inl hmain)
  | sendingExit => exact hlate (Or.inr hmain)
  | returned code => exact absurd hmain (hnot code)

theorem App.exec_append (a : App) :
    ∀ (l1 l2 : List Step) (s s1 : AppState), a.exec l1 s = some s1 →
      a.exec (l1 ++ l2) s = a.exec l2 s1 := by
  intro l1
  induction l1 with
  | nil =>
    intro l2 s s1 h
    simp only [App.exec, Option.some.injEq] at h
    subst h
    rfl
  | cons st rest ih =>
    intro l2 s s1 h
    simp only [App.exec] at h
    simp only [List.cons_append, App.exec]
    split at h
    · cases h
    · rename_i s2 hstep
      exact ih l2 s2 s1 h

/-- Termination: if a property of states is kept by the steps of the
goroutines and lets a step be taken whenever a task is still inside its call,
then from every state of a run with the property the goroutines of `Run`, left
to themselves, bring `Run` to its return. -/
theorem App.terminates (a : App) (P : AppState → Prop)
    (hkeep : ∀ (s s1 : AppState) (st : Step), s.Inv a → P s → st.external = false →
      a.step st s = some s1 → P s1)
    (hrun : ∀ (s : AppState) (i : Nat), s.Inv a → P s →
      s.workers[i]? = some Worker.running → a.CanStep s) :
    ∀ (n : Nat) (s : AppState), s.measure ≤ n → s.Inv a → P s →
      ∃ (sched : List Step) (s1 : AppState) (code : Nat),
        (∀ st ∈ sched, st.external = false) ∧ a.exec sched s = some s1 ∧
        s1.main = MainPC.returned code := by
  intro n
  induction n with
  | zero =>
    intro s hn h hP
    cases hmain : s.main with
    | returned code => exact ⟨[], s, code, by simp, rfl, hmain⟩
    | _ =>
      obtain ⟨st, s1, _, _, hlt⟩ := App.progress a s h
        (by intro c hc; rw [hmain] at hc; cases hc) (fun i hi => hrun s i h hP hi)
      omega
  | succ n ih =>
    intro s hn h hP
    cases hmain : s.main with
    | returned code => exact ⟨[], s, code, by simp, rfl, hmain⟩
    | _ =>
      obtain ⟨st, s1, hext, hstep, hlt⟩ := App.progress a s h
        (by intro c hc; rw [hmain] at hc; cases hc) (fun i hi => hrun s i h hP hi)
      obtain ⟨sched, s2, code, hsched, hexec, hret⟩ :=
        ih s1 (by omega) (App.step_inv a st s s1 h hstep) (hkeep s s1 st h hP hext hstep)
      refine ⟨st :: sched, s2, code, ?_, ?_, hret⟩
      · intro x hx
        rcases List.mem_cons.1 hx with hx | hx
        · rw [hx]; exact hext
        · exact hsched x hx
      · simp only [App.exec, hstep]
        exact hexec

/-- A step leaves each worker as it was or moves it one stage on. -/
theorem App.step_worker (a : App) (st : Step) (s s1 : AppState) (h : s.Inv a)
    (hs : a.step st s = some s1) (j : Nat) (new : Worker) (hnew : s1.workers[j]? = some new) :
    ∃ old : Worker, s.workers[j]? = some old ∧
      (new = old ∨ (old = Worker.idle ∧ new = Worker.running) ∨
        (old = Worker.running ∧ ∃ r, new = Worker.sending r ∨ new = Worker.exiting r) ∨
        (∃ r, old = Worker.sending r ∧ new = Worker.exiting r) ∨
        (∃ r, old = Worker.exiting r ∧ new = Worker.done r)) := by
  have hset : ∀ (i : Nat) (o n : Worker), s.workers[i]? = some o →
      s1.workers = s.workers.set i n →
      ∃ old : Worker, s.workers[j]? = some old ∧ (new = old ∨ (i = j ∧ old = o ∧ new = n)) := by
    intro i o n ho hw
    rw [hw] at hnew
    by_cases hij : i = j
    · subst hij
      have hlt : i < s.workers.length := by
        rcases Nat.lt_or_ge i s.workers.length with hl | hl
        · exact hl
        · rw [List.getElem?_eq_none hl] at ho; cases ho
      simp only [List.getElem?_set_self hlt, Option.some.injEq] at hnew
      exact ⟨o, ho, Or.inr ⟨rfl, rfl, hnew.symm⟩⟩
    · simp only [List.getElem?_set_ne hij] at hnew
      exact ⟨new, hnew, Or.inl rfl⟩
  have hsame : s1.workers = s.workers → ∃ old : Worker, s.workers[j]? = some old ∧ new = old := by
    intro hw
    rw [hw] at hnew
    exact ⟨new, hnew, rfl⟩
  cases st with
  | launch =>
    simp only [App.step] at hs
    split at hs
    · rename_i k hmain
      split at hs
      · rename_i hk
        cases hs
        have hidle : s.workers[k]? = some Worker.idle :=
          (h.idle_iff k hk).2 ⟨k, hmain, Nat.le_refl k⟩
        obtain ⟨old, ho, hc⟩ := hset k _ Worker.running hidle rfl
        rcases hc with hc | ⟨_, ho1, hn1⟩
        · exact ⟨old, ho, Or.inl hc⟩
        · exact ⟨old, ho, Or.inr (Or.inl ⟨ho1, hn1⟩)⟩
      · cases hs
    all_goals cases hs
  | taskEnd i r =>
    simp only [App.step] at hs
    split at hs
    · rename_i t hw ht
      split at hs
      · cases hs
        obtain ⟨old, ho, hc⟩ := hset i _ _ hw rfl
        rcases hc with hc | ⟨_, ho1, hn1⟩
        · exact ⟨old, ho, Or.inl hc⟩
        · refine ⟨old, ho, Or.inr (Or.inr (Or.inl ⟨ho1, r, ?_⟩))⟩
          rw [hn1]
          cases r.failed <;> simp
      · cases hs
    · cases hs
  | recvErr i =>
    simp only [App.step] at hs
    split at hs
    · rename_i r hw hmon
      split at hs
      · cases hs
        obtain ⟨old, ho, hc⟩ := hset i _ _ hw rfl
        rcases hc with hc | ⟨_, ho1, hn1⟩
        · exact ⟨old, ho, Or.inl hc⟩
        · exact ⟨old, ho, Or.inr (Or.inr (Or.inr (Or.inl ⟨r, ho1, hn1⟩)))⟩
      · cases hs
    · cases hs
  | workerDone i =>
    simp only [App.step] at hs
    split at hs
    · rename_i r hw
      cases hs
      obtain ⟨old, ho, hc⟩ := hset i _ _ hw rfl
      rcases hc with hc | ⟨_, ho1, hn1⟩
      · exact ⟨old, ho, Or.inl hc⟩
      · exact ⟨old, ho, Or.inr (Or.inr (Or.inr (Or.inr ⟨r, ho1, hn1⟩)))⟩
    · cases hs
  | setup =>
    simp only [App.step] at hs
    split at hs
    · split at hs
      · cases hs
        obtain ⟨old, ho, hc⟩ := hsame rfl
        exact ⟨old, ho, Or.inl hc⟩
      · cases hs
    all_goals cases hs
  | spawnMonitor =>
    simp only [App.step] at hs
    split at hs
    · cases hs
      obtain ⟨old, ho, hc⟩ := hsame rfl
      exact ⟨old, ho, Or.inl hc⟩
    all_goals cases hs
  | monitorSet =>
    simp only [App.step] at hs
    split at hs
    · cases hs
      obtain ⟨old, ho, hc⟩ := hsame rfl
      exact ⟨old, ho, Or.inl hc⟩
    all_goals cases hs
  | recvSignal =>
    simp only [App.step] at hs
    split at hs
    · cases hs
      obtain ⟨old, ho, hc⟩ := hsame rfl
      exact ⟨old, ho, Or.inl hc⟩
    · cases hs
  | monitorCancel =>
    simp only [App.step] at hs
    split at hs
    · cases hs
      obtain ⟨old, ho, hc⟩ := hsame rfl
      exact ⟨old, ho, Or.inl hc⟩
    all_goals cases hs
  | wait =>
    simp only [App.step] at hs
    split at hs
    · split at hs
      · cases hs
        obtain ⟨old, ho, hc⟩ := hsame rfl
        exact ⟨old, ho, Or.inl hc⟩
      · cases hs
    all_goals cases hs
  | recvExit =>
    simp only [App.step] at hs
    split at hs
    · cases hs
      obtain ⟨old, ho, hc⟩ := hsame rfl
      exact ⟨old, ho, Or.inl hc⟩
    · cases hs
  | parentCancel =>
    simp only [App.step] at hs
    cases hs
    obtain ⟨old, ho, hc⟩ := hsame rfl
    exact ⟨old, ho, Or.inl hc⟩
  | signal sig =>
    simp only [App.step] at hs
    split at hs
    · cases hs
      obtain ⟨old, ho, hc⟩ := hsame rfl
      exact ⟨old, ho, Or.inl hc⟩
    · cases hs

/-- C15: for every run of `App.Run`, that is every list of steps of its
goroutines and of the world around (the caller's context cancelled, signals):
when `Run` has returned, every task has ended and so has its goroutine, and
the code returned is `ExitFail` (1) exactly when a task ended with a non-nil
error or a panic, `ExitOK` (0) exactly when every task returned nil, whatever
made the tasks end; and `Run` does return: from every state of a run in which
all tasks have ended, the goroutines of `Run` bring it to its return. -/
theorem App.Run_exit_code (a : App) :
    (∀ (sched : List Step) (s : AppState) (code : Nat), a.exec sched a.init = some s →
      s.main = MainPC.returned code →
      (∀ i, i < a.tasks.length → ∃ r, s.workers[i]? = some (Worker.done r)) ∧
      (code = ExitFail ↔ ∃ (i : Nat) (r : TaskResult),
        s.workers[i]? = some (Worker.done r) ∧ r.failed = true) ∧
      (code = ExitOK ↔ ∀ (i : Nat) (r : TaskResult),
        s.workers[i]? = some (Worker.done r) → r = TaskResult.nil)) ∧
    (∀ (sched : List Step) (s : AppState), a.exec sched a.init = some s →
      (∀ (i : Nat) (w : Worker), s.workers[i]? = some w → w.ended = true) →
      ∃ (more : List Step) (code : Nat), (∀ st ∈ more, st.external = false) ∧
        a.Run (sched ++ more) = some code) := by
  constructor
  · intro sched s code hexec hret
    exact AppState.Inv.returned a s (App.exec_inv a sched a.init s (App.init_inv a) hexec)
      code hret
  · intro sched s hexec hended
    have hinv := App.exec_inv a sched a.init s (App.init_inv a) hexec
    obtain ⟨more, s1, code, hmore, hexec1, hret⟩ :=
      App.terminates a (fun x => ∀ (i : Nat) (w : Worker), x.workers[i]? = some w → w.ended = true)
        (by
          intro x x1 st hx hP _ hstep i w hw
          obtain ⟨old, ho, hc⟩ := App.step_worker a st x x1 hx hstep i w hw
          have hold := hP i old ho
          rcases hc with hc | ⟨hc, _⟩ | ⟨hc, _⟩ | ⟨r, _, hc⟩ | ⟨r, _, hc⟩
          · rw [hc]; exact hold
          · rw [hc] at hold; cases hold
          · rw [hc] at hold; cases hold
          · rw [hc]; rfl
          · rw [hc]; rfl)
        (by
          intro x i _ hP hw
          have := hP i _ hw
          cases this)
        s.measure s (Nat.le_refl _) hinv hended
    refine ⟨more, code, hmore, ?_⟩
    simp only [App.Run, App.exec_append a sched more a.init s hexec, hexec1, hret]

theorem App.Run_exit_code_witness :
    (App.mk [Runner.untilDone, Runner.ending (.panic "test panic raised")]).Run
      [.launch, .launch, .setup, .spawnMonitor, .taskEnd 1 (.panic "test panic raised"),
       .recvErr 1, .monitorSet, .monitorCancel, .taskEnd 0 .nil, .workerDone 0, .workerDone 1,
       .wait, .recvExit] = some ExitFail ∧
    (ExitFail = ExitFail ↔ ∃ (i : Nat) (r : TaskResult),
      [Worker.done .nil, Worker.done (.panic "test panic raised")][i]? = some (Worker.done r) ∧
        r.failed = true) :=
  ⟨by decide,
    ((App.Run_exit_code (App.mk [Runner.untilDone, Runner.ending (.panic "test panic raised")])).1
      [.launch, .launch, .setup, .spawnMonitor, .taskEnd 1 (.panic "test panic raised"),
       .recvErr 1, .monitorSet, .monitorCancel, .taskEnd 0 .nil, .workerDone 0, .workerDone 1,
       .wait, .recvExit]
      { workers := [Worker.done .nil, Worker.done (.panic "test panic raised")], wg := 0,
        main := .returned ExitFail, monitor := .exited, exitCode := ExitFail, cancelled := true,
        parentDone := false, notified := true, stop := none }
      ExitFail (by decide) rfl).2.1⟩

/-- A step of a goroutine of `Run` leaves the caller's context as it was. -/
theorem App.step_parentDone (a : App) (st : Step) (s s1 : AppState)
    (hext : st.external = false) (hs : a.step st s = some s1) :
    s1.parentDone = s.parentDone := by
  cases st <;> simp only [Step.external] at hext <;> simp only [App.step] at hs
  all_goals repeat' (first | cases hs | split at hs)
  all_goals first | rfl | cases hext

/-- A context that is done stays done. -/
theorem App.step_ctxDone (a : App) (st : Step) (s s1 : AppState)
    (hs : a.step st s = some s1) (hd : s.ctxDone = true) : s1.ctxDone = true := by
  cases st <;> simp only [App.step] at hs
  all_goals repeat' (first | cases hs | split at hs)
  all_goals first | exact hd | (simp only [AppState.ctxDone] at hd ⊢; simp [hd])

theorem Runner.ending_ends (r x : TaskResult) (c : Bool)
    (h : (Runner.ending r).ends c x = true) : x = r := by
  simpa [Runner.ending] using h

theorem Runner.untilDone_ends (x : TaskResult) (c : Bool)
    (h : Runner.untilDone.ends c x = true) : c = true ∧ x = TaskResult.nil := by
  simpa [Runner.untilDone] using h

/-- With a task `j` that fails on its own, every step keeps the cancellation
pending while the context is not done. -/
theorem App.step_cancelPending (a : App) (j : Nat) (r : TaskResult)
    (hj : a.tasks[j]? = some (Runner.ending r)) (hr : r.failed = true)
    (st : Step) (s s1 : AppState) (h : s.Inv a) (hG : s.cancelPending j)
    (hs : a.step st s = some s1) : s1.cancelPending j := by
  intro hd1
  have hd : s.ctxDone = false := by
    cases hd0 : s.ctxDone with
    | false => rfl
    | true =>
      rw [App.step_ctxDone a st s s1 hs hd0] at hd1
      cases hd1
  have hG1 := hG hd
  have hsetne : ∀ (i : Nat) (n : Worker), i ≠ j →
      (∃ w, s.workers[j]? = some w ∧
        (w = Worker.idle ∨ w = Worker.running ∨ ∃ x, w = Worker.sending x)) →
      (∃ w, (s.workers.set i n)[j]? = some w ∧
        (w = Worker.idle ∨ w = Worker.running ∨ ∃ x, w = Worker.sending x)) := by
    intro i n hij hw
    rw [List.getElem?_set_ne hij]
    exact hw
  have hseteq : ∀ (o n : Worker), s.workers[j]? = some o →
      (n = Worker.idle ∨ n = Worker.running ∨ ∃ x, n = Worker.sending x) →
      (∃ w, (s.workers.set j n)[j]? = some w ∧
        (w = Worker.idle ∨ w = Worker.running ∨ ∃ x, w = Worker.sending x)) := by
    intro o n ho hn
    have hlt : j < s.workers.length := by
      rcases Nat.lt_or_ge j s.workers.length with hl | hl
      · exact hl
      · rw [List.getElem?_eq_none hl] at ho; cases ho
    rw [List.getElem?_set_self hlt]
    exact ⟨n, rfl, hn⟩
  cases st with
  | launch =>
    simp only [App.step] at hs
    split at hs
    · rename_i k hmain
      split at hs
      · rename_i hk
        cases hs
        have hidle : s.workers[k]? = some Worker.idle :=
          (h.idle_iff k hk).2 ⟨k, hmain, Nat.le_refl k⟩
        rcases hG1 with hw | hm
        · left
          by_cases hkj : k = j
          · subst hkj
            exact hseteq _ _ hidle (Or.inr (Or.inl rfl))
          · exact hsetne k _ hkj hw
        · exact Or.inr hm
      · cases hs
    all_goals cases hs
  | taskEnd i x =>
    simp only [App.step] at hs
    split at hs
    · rename_i t hw ht
      split at hs
      · rename_i hends
        cases hs
        rcases hG1 with hw1 | hm
        · left
          by_cases hij : i = j
          · subst hij
            rw [hj] at ht
            cases ht
            have hx := Runner.ending_ends r x _ hends
            subst hx
            simp only [hr, if_true]
            exact hseteq _ _ hw (Or.inr (Or.inr ⟨x, rfl⟩))
          · exact hsetne i _ hij hw1
        · exact Or.inr hm
      · cases hs
    · cases hs
  | recvErr i =>
    simp only [App.step] at hs
    split at hs
    · split at hs
      · rename_i e he
        cases hs
        exact Or.inr (Or.inl ⟨e, rfl⟩)
      · cases hs
    · cases hs
  | workerDone i =>
    simp only [App.step] at hs
    split at hs
    · rename_i x hw
      cases hs
      rcases hG1 with hw1 | hm
      · left
        by_cases hij : i = j
        · subst hij
          obtain ⟨w, hw2, hc⟩ := hw1
          rw [hw] at hw2
          cases hw2
          rcases hc with hc | hc | ⟨y, hc⟩ <;> cases hc
        · exact hsetne i _ hij hw1
      · exact Or.inr hm
    · cases hs
  | setup =>
    simp only [App.step] at hs
    split at hs
    · split at hs
      · cases hs; exact hG1
      · cases hs
    all_goals cases hs
  | spawnMonitor =>
    simp only [App.step] at hs
    split at hs
    · rename_i hmain
      cases hs
      have hmon : s.monitor = MonitorPC.absent := h.monitor_absent.2 (Or.inl hmain)
      rcases hG1 with hw | ⟨e, hm⟩ | hm
      · exact Or.inl hw
      · rw [hmon] at hm; cases hm
      · rw [hmon] at hm; cases hm
    all_goals cases hs
  | monitorSet =>
    simp only [App.step] at hs
    split at hs
    · cases hs; exact Or.inr (Or.inr rfl)
    all_goals cases hs
  | recvSignal =>
    simp only [App.step] at hs
    split at hs
    · cases hs; exact Or.inr (Or.inr rfl)
    · cases hs
  | monitorCancel =>
    simp only [App.step] at hs
    split at hs
    · cases hs
      simp [AppState.ctxDone] at hd1
    all_goals cases hs
  | wait =>
    simp only [App.step] at hs
    split at hs
    · split at hs
      · cases hs; exact hG1
      · cases hs
    all_goals cases hs
  | recvExit =>
    simp only [App.step] at hs
    split at hs
    · rename_i hmain hmon
      cases hs
      rcases hG1 with hw | ⟨e, hm⟩ | hm
      · exact Or.inl hw
      · rw [hmon] at hm; cases hm
      · rw [hmon] at hm; cases hm
    · cases hs
  | parentCancel =>
    simp only [App.step] at hs
    cases hs
    simp [AppState.ctxDone] at hd1
  | signal sig =>
    simp only [App.step] at hs
    split at hs
    · cases hs; exact hG1
    · cases hs

theorem App.exec_cancelPending (a : App) (j : Nat) (r : TaskResult)
    (hj : a.tasks[j]? = some (Runner.ending r)) (hr : r.failed = true) :
    ∀ (sched : List Step) (s s1 : AppState), s.Inv a → s.cancelPending j →
      a.exec sched s = some s1 → s1.cancelPending j := by
  intro sched
  induction sched with
  | nil =>
    intro s s1 _ hG hs
    simp only [App.exec, Option.some.injEq] at hs
    subst hs
    exact hG
  | cons st rest ih =>
    intro s s1 h hG hs
    simp only [App.exec] at hs
    split at hs
    · cases hs
    · rename_i s2 hstep
      exact ih s2 s1 (App.step_inv a st s s2 h hstep)
        (App.step_cancelPending a j r hj hr st s s2 h hG hstep) hs

/-- With a task `j` that fails on its own and tasks that all can end once
the context is done, a step can be taken whenever a task is still inside its
call. -/
theorem App.canStep_of_cancelPending (a : App) (j : Nat) (r : TaskResult)
    (hj : a.tasks[j]? = some (Runner.ending r))
    (hcan : ∀ (i : Nat) (t : Runner), a.tasks[i]? = some t → ∃ x, t.ends true x = true)
    (s : AppState) (i : Nat) (h : s.Inv a) (hG : s.cancelPending j)
    (hw : s.workers[i]? = some Worker.running) : a.CanStep s := by
  have hi : i < a.tasks.length := by
    rw [← h.len]
    rcases Nat.lt_or_ge i s.workers.length with hl | hl
    · exact hl
    · rw [List.getElem?_eq_none hl] at hw; cases hw
  cases hd : s.ctxDone with
  | true =>
    obtain ⟨x, hx⟩ := hcan i _ (List.getElem?_eq_getElem hi)
    exact App.canStep_running a s i _ x hw (List.getElem?_eq_getElem hi) (by rw [hd]; exact hx)
  | false =>
    rcases hG hd with ⟨w, hwj, hc⟩ | ⟨e, hm⟩ | hm
    · have hjlt : j < a.tasks.length := by
        rcases Nat.lt_or_ge j a.tasks.length with hl | hl
        · exact hl
        · rw [List.getElem?_eq_none hl] at hj; cases hj
      rcases hc with hc | hc | ⟨x, hc⟩
      · subst hc
        obtain ⟨k, hk, _⟩ := (h.idle_iff j hjlt).1 hwj
        exact App.canStep_launching a s h k hk
      · subst hc
        exact App.canStep_running a s j _ r hwj hj (by simp [Runner.ending])
      · subst hc
        cases hmon : s.monitor with
        | selecting => exact App.canStep_sending a s h j x hwj hmon
        | received e => exact App.canStep_received a s e hmon
        | cancelling => exact App.canStep_cancelling a s hmon
        | absent =>
          rcases h.monitor_absent.1 hmon with hc | ⟨k, hc⟩
          · exact App.canStep_spawn a s h hc
          · exact App.canStep_launching a s h k hc
        | exited =>
          obtain ⟨code, hc⟩ := h.monitor_exited.1 hmon
          obtain ⟨x1, hx1⟩ := (AppState.Inv.returned a s h code hc).1 i hi
          rw [hw] at hx1
          cases hx1
    · exact App.canStep_received a s e hm
    · exact App.canStep_cancelling a s hm

theorem blockedApp_blocked (N : Nat) (r : TaskResult) (i : Nat) (hi : i < N) :
    (blockedApp N r).tasks[i]? = some Runner.untilDone := by
  simp [blockedApp, List.getElem?_append_left, List.getElem?_replicate, hi]

theorem blockedApp_last (N : Nat) (r : TaskResult) :
    (blockedApp N r).tasks[N]? = some (Runner.ending r) := by
  simp [blockedApp, List.getElem?_append_right]

theorem blockedApp_length (N : Nat) (r : TaskResult) : (blockedApp N r).tasks.length = N + 1 := by
  simp [blockedApp]

theorem blockedApp_can_end (N : Nat) (r : TaskResult) (i : Nat) (t : Runner)
    (ht : (blockedApp N r).tasks[i]? = some t) : ∃ x, t.ends true x = true := by
  rcases Nat.lt_or_ge i N with hi | hi
  · rw [blockedApp_blocked N r i hi] at ht
    cases ht
    exact ⟨TaskResult.nil, by simp [Runner.untilDone]⟩
  · have hlen := blockedApp_length N r
    have hiN : i = N := by
      rcases Nat.lt_or_ge i (N + 1) with hl | hl
      · omega
      · rw [List.getElem?_eq_none (by omega)] at ht; cases ht
    subst hiN
    rw [blockedApp_last] at ht
    cases ht
    exact ⟨r, by simp [Runner.ending]⟩

/-- Steps of the goroutines of `Run` alone leave the caller's context as it was. -/
theorem App.exec_parentDone (a : App) :
    ∀ (sched : List Step) (s s1 : AppState), (∀ st ∈ sched, st.external = false) →
      a.exec sched s = some s1 → s1.parentDone = s.parentDone := by
  intro sched
  induction sched with
  | nil =>
    intro s s1 _ hs
    simp only [App.exec, Option.some.injEq] at hs
    subst hs
    rfl
  | cons st rest ih =>
    intro s s1 hext hs
    simp only [App.exec] at hs
    split at hs
    · cases hs
    · rename_i s2 hstep
      rw [ih s2 s1 (fun x hx => hext x (List.mem_cons_of_mem _ hx)) hs]
      exact App.step_parentDone a st s s2 (hext st (List.mem_cons_self _ _)) hstep

/-- C16: with `N` tasks that block until the shared context is done and one
task that ends with an error or a panic, in every state of every run of
`App.Run`: a blocked task that has ended has seen the context done, and done
by the `cancel()` of `Run` when nothing outside `Run` cancelled it; when `Run`
has returned it returns `ExitFail`, `cancel()` has run, each of the `N` blocked
tasks has returned nil and the failing task has ended, all `N + 1` goroutines
with them; and the failure, a recovered panic too, stops no other task: from
the state the goroutines of `Run` bring every task to its end and `Run` to its
return. -/
theorem App.Run_blocked_tasks (N : Nat) (r : TaskResult) (hr : r.failed = true)
    (sched : List Step) (s : AppState)
    (hexec : (blockedApp N r).exec sched (blockedApp N r).init = some s) :
    (∀ (i : Nat) (w : Worker), i < N → s.workers[i]? = some w → w.ended = true →
      s.ctxDone = true ∧ ((∀ st ∈ sched, st.external = false) → s.cancelled = true)) ∧
    (∀ code, s.main = MainPC.returned code →
      code = ExitFail ∧ s.cancelled = true ∧
      (∀ i, i < N → s.workers[i]? = some (Worker.done TaskResult.nil)) ∧
      s.workers[N]? = some (Worker.done r)) ∧
    (∃ (more : List Step) (s1 : AppState), (∀ st ∈ more, st.external = false) ∧
      (blockedApp N r).exec more s = some s1 ∧ s1.main = MainPC.returned ExitFail ∧
      s1.cancelled = true ∧
      (∀ i, i < N → s1.workers[i]? = some (Worker.done TaskResult.nil)) ∧
      s1.workers[N]? = some (Worker.done r)) := by
  have hret : ∀ (x : AppState) (code : Nat), x.Inv (blockedApp N r) →
      x.main = MainPC.returned code →
      code = ExitFail ∧ x.cancelled = true ∧
      (∀ i, i < N → x.workers[i]? = some (Worker.done TaskResult.nil)) ∧
      x.workers[N]? = some (Worker.done r) := by
    intro x code hx hmain
    have hfin := AppState.Inv.returned (blockedApp N r) x hx code hmain
    have hlen := blockedApp_length N r
    have hlast : x.workers[N]? = some (Worker.done r) := by
      obtain ⟨y, hy⟩ := hfin.1 N (by omega)
      obtain ⟨t, c, ht, hends⟩ := hx.result_ok N _ y hy rfl
      rw [blockedApp_last] at ht
      cases ht
      rw [Runner.ending_ends r y c hends] at hy
      exact hy
    have hcode : code = ExitFail := hfin.2.1.2 ⟨N, r, hlast, hr⟩
    refine ⟨hcode, ?_, ?_, hlast⟩
    · have hpos : 0 < (x.workers.map Worker.reported).sum := by
        have := le_sum_map Worker.reported x.workers N _ hlast
        simp only [Worker.reported, hr, if_true] at this
        omega
      have hmon : x.monitor = MonitorPC.exited := hx.monitor_exited.2 ⟨code, hmain⟩
      rcases hx.cancel_follows hpos with hc | ⟨e, hc⟩ | hc
      · exact hc
      · rw [hmon] at hc; cases hc
      · rw [hmon] at hc; cases hc
    · intro i hi
      obtain ⟨y, hy⟩ := hfin.1 i (by omega)
      obtain ⟨t, c, ht, hends⟩ := hx.result_ok i _ y hy rfl
      rw [blockedApp_blocked N r i hi] at ht
      cases ht
      rw [(Runner.untilDone_ends y c hends).2] at hy
      exact hy
  have hinv := App.exec_inv (blockedApp N r) sched _ s (App.init_inv _) hexec
  have hG0 : (blockedApp N r).init.cancelPending N := by
    intro _
    left
    refine ⟨Worker.idle, ?_, Or.inl rfl⟩
    simp [App.init, blockedApp_length, List.getElem?_replicate]
  have hG := App.exec_cancelPending (blockedApp N r) N r (blockedApp_last N r) hr sched _ s
    (App.init_inv _) hG0 hexec
  refine ⟨?_, fun code hmain => hret s code hinv hmain, ?_⟩
  · intro i w hi hw hended
    have hdone := hinv.blocked_done i _ w (blockedApp_blocked N r i hi) hw hended
      (by intro x; simp [Runner.untilDone])
    refine ⟨hdone, fun hext => ?_⟩
    have hp := App.exec_parentDone (blockedApp N r) sched _ s hext hexec
    simp only [AppState.ctxDone, hp, App.init, Bool.or_false] at hdone
    exact hdone
  · obtain ⟨more, s1, code, hmore, hexec1, hmain⟩ :=
      App.terminates (blockedApp N r) (fun x => x.cancelPending N)
        (fun x x1 st hx hP _ hstep =>
          App.step_cancelPending (blockedApp N r) N r (blockedApp_last N r) hr st x x1 hx hP hstep)
        (fun x i hx hP hw =>
          App.canStep_of_cancelPending (blockedApp N r) N r (blockedApp_last N r)
            (blockedApp_can_end N r) x i hx hP hw)
        s.measure s (Nat.le_refl _) hinv hG
    have hinv1 := App.exec_inv (blockedApp N r) more s s1 hinv hexec1
    obtain ⟨hcode, hrest⟩ := hret s1 code hinv1 hmain
    subst hcode
    exact ⟨more, s1, hmore, hexec1, hmain, hrest⟩

theorem App.Run_blocked_tasks_witness :
    ExitFail = ExitFail ∧ true = true ∧
    (∀ i, i < 2 → [Worker.done .nil, Worker.done .nil,
      Worker.done (.panic "test panic raised")][i]? = some (Worker.done TaskResult.nil)) ∧
    [Worker.done .nil, Worker.done .nil, Worker.done (.panic "test panic raised")][2]? =
      some (Worker.done (.panic "test panic raised")) :=
  (App.Run_blocked_tasks 2 (.panic "test panic raised") rfl
    [.launch, .launch, .launch, .setup, .spawnMonitor,
     .taskEnd 2 (.panic "test panic raised"), .recvErr 2, .monitorSet, .monitorCancel,
     .workerDone 2, .taskEnd 0 .nil, .taskEnd 1 .nil, .workerDone 0, .workerDone 1, .wait,
     .recvExit]
    { workers := [Worker.done .nil, Worker.done .nil, Worker.done (.panic "test panic raised")],
      wg := 0, main := .returned ExitFail, monitor := .exited, exitCode := ExitFail,
      cancelled := true, parentDone := false, notified := true, stop := none }
    (by decide)).2.1 ExitFail rfl

end Supervisor

/-! ## A failed send after the step -/

section SendFailure

variable {W Q : Type}

/-- C21 as stated fails when an earlier participant has the name of `A`: on
the workflow `[a, b, a, c]`, with `A` the third participant and `B = c` its
successor, `UpdateService(id, a, c)` succeeds and the sender of `c` returns an
error, yet a "done" response from `a` is answered from the first `a`: the
calls are `UpdateService(id, a, b)` and a command on the sender of `b`, and
`ProcessMessage` returns nil. -/
theorem ProcessMessage_send_error_counterexample :
    (repeatedWorkflow[2]?.map (fun sv => sv.Name) = some "a") ∧
    (repeatedWorkflow[3]?.map (fun sv => sv.Name) = some "c") ∧
    repeatedWorkflow.length = 4 ∧
    ((mockStorer none none none).UpdateService exampleID "a" "c" () = (none, ())) ∧
    ((mockSender 4 (some (GoError.foreign 2 "queue error"))).Send ⟨exampleID, "start"⟩ () =
      (some (GoError.foreign 2 "queue error"), ())) ∧
    (New ⟨repeatedWorkflow⟩ (mockStorer none none none)).ProcessMessage
        (.Response ⟨exampleID, "a", "done"⟩) () =
      ⟨.ret none, (),
        [Call.UpdateService exampleID "a" "b", Call.Send 2 ⟨exampleID, "start"⟩]⟩ := by
  refine ⟨rfl, rfl, rfl, rfl, rfl, rfl⟩

/-- C21, amended: for a response with status "done" whose service is first
found at a position `i` that is not the last one (the participant `A` there
has a name no earlier participant has), if `UpdateService(id, A, B)` succeeds
and the sender of the participant `B` at `i + 1` returns the error `q`,
`ProcessMessage` returns an error that wraps `q`, with message "service send: "
followed by that of `q`; its calls are the update and the send, no store
operation after the failed send, and the world is the one the sender left; on
the repository's storage the database is the one `UpdateService` left, on a
healthy database with the records of the id and service `A` moved to `B`. -/
theorem ProcessMessage_send_error (s : Saga W) (r : Response) (i : Nat) (sv next : Service W)
    (sd : Sender W) (w w1 w2 : W) (q : GoError)
    (hstatus : r.Status = "done")
    (hi : s.workflow.Services[i]? = some sv) (hname : sv.Name = r.Service)
    (hmin : ∀ (j : Nat) (tv : Service W), j < i →
      s.workflow.Services[j]? = some tv → tv.Name ≠ r.Service)
    (hnext : s.workflow.Services[i + 1]? = some next)
    (hsender : next.Sender = some sd)
    (hupdate : s.storage.UpdateService r.SagaID r.Service next.Name w = (none, w1))
    (hsend : sd.Send ⟨r.SagaID, "start"⟩ w1 = (some q, w2)) :
    (∃ err : GoError,
      s.ProcessMessage (.Response r) w =
        ⟨.ret (some err), w2,
          [Call.UpdateService r.SagaID r.Service next.Name,
           Call.Send sd.ref ⟨r.SagaID, "start"⟩]⟩ ∧
      errorsIs err q = true ∧ err.Error = "service send: " ++ q.Error) ∧
    (∀ (services : List (Service Q)) (id : UUID) (k : Nat) (A B : Service Q) (u : Sys Q),
      (∀ (j : Nat) (tv : Service Q), j < k → services[j]? = some tv → tv.Name ≠ A.Name) →
      services[k]? = some A → services[k + 1]? = some B →
      ((Saga.onStorage services).ProcessMessage (.Response ⟨id, A.Name, "done"⟩) u).world.db =
        (Storage.UpdateService id A.Name B.Name u.db).2 ∧
      (u.db.healthy →
        ((Saga.onStorage services).ProcessMessage
            (.Response ⟨id, A.Name, "done"⟩) u).world.db.rows =
          u.db.rows.map (advanceRow id A.Name B.Name))) := by
  constructor
  · refine ⟨GoError.wrapf "service send: " q, ?_, ?_, rfl⟩
    · have hfind := (findNextService_at s r.Service i sv hi hname hmin).2 next hnext
      simp [Saga.ProcessMessage, Saga.startNextService, hstatus, StatusWorkDone, hfind, hupdate,
        Service.send, hsender, CommandStart, hsend]
    · simp [errorsIs, errorsIs_self]
  · intro services id k A B u hfirst hA hB
    have hdb := ProcessMessage_onStorage_db_first services id k A B hA hB hfirst u
    refine ⟨hdb, fun hh => ?_⟩
    rw [hdb]
    exact (Storage.UpdateService_healthy id A.Name B.Name u.db hh).2.1

theorem ProcessMessage_send_error_witness :
    ∃ err : GoError,
      (New ⟨[⟨"service1", "commands1", none⟩,
          ⟨"service2", "commands2", some (mockSender 2 (some (GoError.foreign 2 "queue error")))⟩,
          ⟨"service3", "commands3", none⟩]⟩ (mockStorer none none none)).ProcessMessage
        (.Response ⟨exampleID, "service1", "done"⟩) () =
        ⟨.ret (some err), (),
          [Call.UpdateService exampleID "service1" "service2",
           Call.Send 2 ⟨exampleID, "start"⟩]⟩ ∧
      errorsIs err (GoError.foreign 2 "queue error") = true ∧
      err.Error = "service send: " ++ (GoError.foreign 2 "queue error").Error :=
  (@ProcessMessage_send_error Unit Unit
    (New ⟨[⟨"service1", "commands1", none⟩,
        ⟨"service2", "commands2", some (mockSender 2 (some (GoError.foreign 2 "queue error")))⟩,
        ⟨"service3", "commands3", none⟩]⟩ (mockStorer none none none))
    ⟨exampleID, "service1", "done"⟩ 0 ⟨"service1", "commands1", none⟩
    ⟨"service2", "commands2", some (mockSender 2 (some (GoError.foreign 2 "queue error")))⟩
    (mockSender 2 (some (GoError.foreign 2 "queue error"))) () () ()
    (GoError.foreign 2 "queue error")
    rfl rfl rfl (fun j _ hj => absurd hj (Nat.not_lt_zero j)) rfl rfl rfl rfl).1

end SendFailure

/-! ## The last participant's response and the stored record -/

section LastIgnoresRecord

variable {Q : Type}

/-- When the driver runs the statement and reports its result, `UpdateStatus`
returns `sql.ErrNoRows` if no row has the id and nil otherwise, and sets the
status of the rows with the id. -/
theorem Storage.UpdateStatus_runs (id : UUID) (status : String) (db : DB) (hrun : db.nextRuns) :
    (Storage.UpdateStatus id status db).1 =
      (if db.rows.countP (fun r => decide (r.id = id)) = 0 then some GoError.ErrNoRows
        else none) ∧
    (Storage.UpdateStatus id status db).2.rows = db.rows.map (setStatusRow id status) := by
  rcases db with ⟨rows, clock, faults⟩
  rcases faults with _ | ⟨f, rest⟩
  · constructor
    · simp only [Storage.UpdateStatus, DB.ExecContext, updateStatusStmt]
      split <;> rfl
    · simp [Storage.UpdateStatus, DB.ExecContext, updateStatusStmt, setStatusRow]
      split <;> rfl
  · rcases hrun with h | h
    · simp at h
    · simp only [List.head?_cons, Option.some.injEq] at h
      subst h
      constructor
      · simp only [Storage.UpdateStatus, DB.ExecContext, updateStatusStmt]
        split <;> rfl
      · simp [Storage.UpdateStatus, DB.ExecContext, updateStatusStmt, setStatusRow]
        split <;> rfl

/-- C24 as stated fails when an earlier participant has the name of the last
one: on the workflow `[a, a]` over the repository store, with the saga stored
at `a` with status "started", a "done" response naming `a` is answered from
the first `a`: the calls are `UpdateService(id, a, a)` and a command on the
sender of the second participant, `UpdateStatus` is not called and the stored
status stays "started". -/
theorem ProcessMessage_last_ignores_record_counterexample :
    (twinWorkflow.getLast?.map (fun sv => sv.Name) = some "a") ∧
    ((Saga.onStorage twinWorkflow).ProcessMessage
        (.Response ⟨exampleID, "a", "done"⟩) twinSys).calls =
      [Call.UpdateService exampleID "a" "a", Call.Send 2 ⟨exampleID, "start"⟩] ∧
    ((Saga.onStorage twinWorkflow).ProcessMessage
        (.Response ⟨exampleID, "a", "done"⟩) twinSys).world.db.rows =
      [⟨exampleID, "started", "a", 0⟩] ∧
    ((Saga.onStorage twinWorkflow).ProcessMessage
        (.Response ⟨exampleID, "a", "done"⟩) twinSys).world.queues =
      [(2, ⟨exampleID, "start"⟩)] := by
  refine ⟨rfl, rfl, rfl, rfl⟩

/-- C24, amended: a "done" response naming the last participant (a name no
earlier participant has) is answered from the workflow alone: whatever the store
holds, `ProcessMessage` calls `UpdateStatus(id, "completed")` and nothing else,
no sender, and leaves the database as that call leaves it; and when a record
of the id is stored, with any service and any status, and the statement runs,
it returns nil and the record has the status "completed" and the service it
had, no step through the participants in between having been made. -/
theorem ProcessMessage_last_ignores_record (services : List (Service Q)) (i : Nat)
    (L : Service Q) (id : UUID) (u : Sys Q)
    (hL : services[i]? = some L) (hlast : i + 1 = services.length)
    (hmin : ∀ (j : Nat) (tv : Service Q), j < i → services[j]? = some tv → tv.Name ≠ L.Name) :
    ((Saga.onStorage services).ProcessMessage (.Response ⟨id, L.Name, "done"⟩) u).calls =
      [Call.UpdateStatus id "completed"] ∧
    ((Saga.onStorage services).ProcessMessage (.Response ⟨id, L.Name, "done"⟩) u).world =
      { u with db := (Storage.UpdateStatus id "completed" u.db).2 } ∧
    (u.db.nextRuns → (∃ row ∈ u.db.rows, row.id = id) →
      ((Saga.onStorage services).ProcessMessage (.Response ⟨id, L.Name, "done"⟩) u).out =
        .ret none ∧
      ((Saga.onStorage services).ProcessMessage
          (.Response ⟨id, L.Name, "done"⟩) u).world.db.rows =
        u.db.rows.map (setStatusRow id "completed") ∧
      ∀ row ∈ u.db.rows, row.id = id →
        ({ id := id, status := "completed", service := row.service,
           date_created := row.date_created } : SagaRow) ∈
          ((Saga.onStorage services).ProcessMessage
            (.Response ⟨id, L.Name, "done"⟩) u).world.db.rows) := by
  have hfind : (Saga.onStorage services).findNextService L.Name =
      .ret (Service.zero, some GoError.ErrEndOfWorkflow) := by
    refine (findNextService_at (Saga.onStorage services) L.Name i L.onQueues ?_ rfl ?_).1 ?_
    · simp [Saga.onStorage, New, List.getElem?_map, hL]
    · intro j tv hj htv
      simp only [Saga.onStorage, New, List.getElem?_map] at htv
      cases hsj : services[j]? with
      | none => rw [hsj] at htv; cases htv
      | some tv0 =>
        rw [hsj] at htv
        simp only [Option.map_some', Option.some.injEq] at htv
        subst htv
        exact hmin j tv0 hj hsj
    · simp [Saga.onStorage, New, hlast]
  have hrun : (Saga.onStorage services).ProcessMessage (.Response ⟨id, L.Name, "done"⟩) u =
      match (Storage.UpdateStatus id "completed" u.db).1 with
      | some e =>
        ⟨.ret (some (GoError.wrapf "update status: " e)),
          { u with db := (Storage.UpdateStatus id "completed" u.db).2 },
          [Call.UpdateStatus id "completed"]⟩
      | none =>
        ⟨.ret none, { u with db := (Storage.UpdateStatus id "completed" u.db).2 },
          [Call.UpdateStatus id "completed"]⟩ := by
    simp only [Saga.ProcessMessage, StatusWorkDone, if_true, Saga.startNextService, hfind]
    simp only [Saga.onStorage, New, Storage.storer, StatusCompleted, if_true]
    cases (Storage.UpdateStatus id "completed" u.db).1 <;> rfl
  refine ⟨?_, ?_, ?_⟩
  · rw [hrun]
    cases (Storage.UpdateStatus id "completed" u.db).1 <;> rfl
  · rw [hrun]
    cases (Storage.UpdateStatus id "completed" u.db).1 <;> rfl
  · intro hnext hex
    have hst := Storage.UpdateStatus_runs id "completed" u.db hnext
    have hne : u.db.rows.countP (fun r => decide (r.id = id)) ≠ 0 := by
      intro hc
      rw [List.countP_eq_zero] at hc
      obtain ⟨row, hr, hid⟩ := hex
      have := hc row hr
      simp [hid] at this
    have hnil : (Storage.UpdateStatus id "completed" u.db).1 = none := by
      rw [hst.1]; simp [hne]
    rw [hrun, hnil]
    refine ⟨rfl, hst.2, ?_⟩
    intro row hr hid
    show _ ∈ (Storage.UpdateStatus id "completed" u.db).2.rows
    rw [hst.2]
    refine List.mem_map.2 ⟨row, hr, ?_⟩
    simp [setStatusRow, hid]

theorem ProcessMessage_last_ignores_record_witness :
    ((Saga.onStorage recordingWorkflow).ProcessMessage
        (.Response ⟨exampleID, "service3", "done"⟩) exampleSys).out = .ret none ∧
    ((Saga.onStorage recordingWorkflow).ProcessMessage
        (.Response ⟨exampleID, "service3", "done"⟩) exampleSys).world.db.rows =
      [⟨exampleID, "completed", "service1", 0⟩] :=
  ⟨((ProcessMessage_last_ignores_record recordingWorkflow 2
      ⟨"service3", "commands3", some (recordingSender 3)⟩ exampleID exampleSys rfl rfl
      (fun j tv hj htv => by
        have hcase : j = 0 ∨ j = 1 := by omega
        rcases hcase with h | h <;> subst h <;> simp [recordingWorkflow] at htv <;>
          subst htv <;> decide)).2.2
      (Or.inl rfl) ⟨⟨exampleID, "started", "service1", 0⟩, by simp [exampleSys], rfl⟩).1,
   ((ProcessMessage_last_ignores_record recordingWorkflow 2
      ⟨"service3", "commands3", some (recordingSender 3)⟩ exampleID exampleSys rfl rfl
      (fun j tv hj htv => by
        have hcase : j = 0 ∨ j = 1 := by omega
        rcases hcase with h | h <;> subst h <;> simp [recordingWorkflow] at htv <;>
          subst htv <;> decide)).2.2
      (Or.inl rfl) ⟨⟨exampleID, "started", "service1", 0⟩, by simp [exampleSys], rfl⟩).2.1⟩

end LastIgnoresRecord

/-! ## What the poll processes -/

section PollProcesses

variable {W M : Type} [Message M]

/-- The messages the loop over a batch hands to the processor are, in order
and once each, the first ones of those of the batch that decode. -/
theorem Poll.batch_process_prefix (p : Poll W M) :
    ∀ (msgs : List SqsMessage) (pos : Nat) (w : W),
      (p.batch pos msgs w).2.2.filterMap PollEvent.processed <+: p.decodable pos msgs := by
  intro msgs
  induction msgs with
  | nil => intro pos w; simp [Poll.batch, Poll.decodable]
  | cons m rest ih =>
    intro pos w
    rw [Poll.batch]
    split
    · simp
    · split
      · simp
      · rename_i body hbody
        split
        · rename_i hdec
          have : p.decodable pos (m :: rest) = p.decodable (pos + 1) rest := by
            simp [Poll.decodable, hbody, hdec]
          rw [this]
          exact ih _ _
        · rename_i msg hdec
          have : p.decodable pos (m :: rest) = (pos, msg) :: p.decodable (pos + 1) rest := by
            simp [Poll.decodable, hbody, hdec]
          rw [this]
          split
          · simp [PollEvent.processed]
          · simp only [List.filterMap_cons, PollEvent.processed]
            exact (List.prefix_cons_inj _).2 (ih _ _)
          · simp only [List.filterMap_cons, PollEvent.processed]
            exact (List.prefix_cons_inj _).2 (ih _ _)

/-- With a context that is never done, bodies that are not nil and a
processor that does not panic, the loop over a batch hands to the processor
every message of the batch that decodes. -/
theorem Poll.batch_process_all (p : Poll W M)
    (hlive : ∀ v : W, (p.isDone v).1 = false)
    (hsafe : ∀ (msg : M) (v : W) (reason : String),
      (p.target.ProcessMessage (Message.toAny msg) v).1 ≠ .panic reason) :
    ∀ (msgs : List SqsMessage) (pos : Nat) (w : W), (∀ m ∈ msgs, m.Body ≠ none) →
      (p.batch pos msgs w).2.2.filterMap PollEvent.processed = p.decodable pos msgs := by
  intro msgs
  induction msgs with
  | nil => intro pos w _; simp [Poll.batch, Poll.decodable]
  | cons m rest ih =>
    intro pos w hbodies
    have hrest : ∀ x ∈ rest, x.Body ≠ none := fun x hx => hbodies x (List.mem_cons_of_mem _ hx)
    rw [Poll.batch]
    split
    · rename_i w1 hd
      have := hlive w
      rw [hd] at this
      cases this
    · split
      · rename_i hb
        exact absurd hb (hbodies m (List.mem_cons_self _ _))
      · rename_i body hbody
        split
        · rename_i hdec
          have : p.decodable pos (m :: rest) = p.decodable (pos + 1) rest := by
            simp [Poll.decodable, hbody, hdec]
          rw [this]
          exact ih _ _ hrest
        · rename_i msg hdec
          have : p.decodable pos (m :: rest) = (pos, msg) :: p.decodable (pos + 1) rest := by
            simp [Poll.decodable, hbody, hdec]
          rw [this]
          split
          · rename_i reason w2 hp
            exact absurd (congrArg Prod.fst hp) (hsafe _ _ reason)
          · simp only [List.filterMap_cons, PollEvent.processed]
            rw [ih _ _ hrest]
          · simp only [List.filterMap_cons, PollEvent.processed]
            rw [ih _ _ hrest]

/-- C23: in every round of `Poll.Start` the messages handed to
`ProcessMessage` are, once each and in the order of the batch, messages of the
batch whose body decodes into `M`, none left out before the last one handed
over; and with a context that is never done, bodies that are not nil and a
processor that does not panic they are all the messages of the batch that
decode, whatever errors the decoding, the processing or the deletion of
earlier messages returned.  The events are the calls made: a message taken up
in the world `wj` whose body decodes is handed to the `ProcessMessage` of the
processor in `wj`, once, and the loop goes on from the world the processor
left when it returned an error, from the world `DeleteMessage` left after it
when it returned nil, and ends only when it panicked; a message whose body
does not decode leaves `wj` as it is, the processor not being called, and the
loop goes on. -/
theorem Poll.Start_processes (p : Poll W M) (fuel : Nat) (w : W) (round : Round M)
    (hround : round ∈ (p.Start fuel w).2.2) :
    round.events.filterMap PollEvent.processed <+: p.decodable 0 round.batch ∧
    ((∀ v : W, (p.isDone v).1 = false) →
      (∀ (msg : M) (v : W) (reason : String),
        (p.target.ProcessMessage (Message.toAny msg) v).1 ≠ .panic reason) →
      (∀ m ∈ round.batch, m.Body ≠ none) →
      round.events.filterMap PollEvent.processed = p.decodable 0 round.batch) ∧
    (∀ (msgs : List SqsMessage) (w0 wj : W) (j : Nat) (m : SqsMessage) (body : String),
      msgs[j]? = some m → p.reached 0 msgs w0 j = some wj → m.Body = some body →
      (p.unmarshal body = none →
        p.batch 0 (msgs.take (j + 1)) w0 =
          (.completed, wj, (p.batch 0 (msgs.take j) w0).2.2)) ∧
      (∀ msg : M, p.unmarshal body = some msg →
        (∀ (e : GoError) (w2 : W),
          p.target.ProcessMessage (Message.toAny msg) wj = (.ret (some e), w2) →
          p.batch 0 (msgs.take (j + 1)) w0 =
            (.completed, w2, (p.batch 0 (msgs.take j) w0).2.2 ++ [PollEvent.process j msg])) ∧
        (∀ w2 : W, p.target.ProcessMessage (Message.toAny msg) wj = (.ret none, w2) →
          p.batch 0 (msgs.take (j + 1)) w0 =
            (.completed, (p.incoming.DeleteMessage m.ReceiptHandle w2).2,
              (p.batch 0 (msgs.take j) w0).2.2 ++
                [PollEvent.process j msg, PollEvent.delete j m.ReceiptHandle])) ∧
        (∀ (reason : String) (w2 : W),
          p.target.ProcessMessage (Message.toAny msg) wj = (.panic reason, w2) →
          p.batch 0 (msgs.take (j + 1)) w0 =
            (.panicked reason, w2,
              (p.batch 0 (msgs.take j) w0).2.2 ++ [PollEvent.process j msg])))) := by
  refine ⟨?_, ?_, ?_⟩
  · obtain ⟨w0, hw0⟩ := Poll.Start_round p fuel w round hround
    rw [hw0]
    exact Poll.batch_process_prefix p round.batch 0 w0
  · obtain ⟨w0, hw0⟩ := Poll.Start_round p fuel w round hround
    rw [hw0]
    exact fun hlive hsafe hbodies =>
      Poll.batch_process_all p hlive hsafe round.batch 0 w0 hbodies
  · intro msgs w0 wj j m body hm hr hb
    have hstep := Poll.batch_step p msgs 0 j w0 wj m hm hr
    simp only [Nat.zero_add] at hstep
    refine ⟨fun hu => hstep.2.1 body hb hu, fun msg hu => ⟨?_, ?_, ?_⟩⟩
    · intro e w2 hp
      exact hstep.2.2.1 body msg e w2 hb hu hp
    · intro w2 hp
      exact hstep.2.2.2.1 body msg w2 hb hu hp
    · intro reason w2 hp
      exact hstep.2.2.2.2 body msg reason w2 hb hu hp

theorem Poll.Start_processes_witness :
    (recordingPoll.batch 0 (recordingBatch.take 3) [] =
      (.completed,
        [PollCall.processed ⟨exampleID, "service1", "done"⟩, PollCall.deleted (some "handle1"),
         PollCall.processed ⟨exampleID, "failing", "error"⟩],
        [PollEvent.process 0 ⟨exampleID, "service1", "done"⟩,
         PollEvent.delete 0 (some "handle1"),
         PollEvent.process 2 ⟨exampleID, "failing", "error"⟩])) ∧
    (recordingPoll.batch 0 recordingBatch [] =
      (.completed,
        [PollCall.processed ⟨exampleID, "service1", "done"⟩, PollCall.deleted (some "handle1"),
         PollCall.processed ⟨exampleID, "failing", "error"⟩,
         PollCall.processed ⟨exampleID, "service3", "done"⟩,
         PollCall.deleted (some "handle4")],
        [PollEvent.process 0 ⟨exampleID, "service1", "done"⟩,
         PollEvent.delete 0 (some "handle1"),
         PollEvent.process 2 ⟨exampleID, "failing", "error"⟩,
         PollEvent.process 3 ⟨exampleID, "service3", "done"⟩,
         PollEvent.delete 3 (some "handle4")])) :=
  have h := (Poll.Start_processes recordingPoll 1 []
    ⟨recordingBatch,
      [PollEvent.process 0 ⟨exampleID, "service1", "done"⟩, PollEvent.delete 0 (some "handle1"),
       PollEvent.process 2 ⟨exampleID, "failing", "error"⟩,
       PollEvent.process 3 ⟨exampleID, "service3", "done"⟩,
       PollEvent.delete 3 (some "handle4")]⟩ (List.Mem.head _)).2.2
  ⟨((h recordingBatch []
      [PollCall.processed ⟨exampleID, "service1", "done"⟩, PollCall.deleted (some "handle1")]
      2 ⟨some "failing", some "handle3"⟩ "failing" rfl rfl rfl).2
      ⟨exampleID, "failing", "error"⟩ rfl).1 (GoError.errorf "failed")
      [PollCall.processed ⟨exampleID, "service1", "done"⟩, PollCall.deleted (some "handle1"),
       PollCall.processed ⟨exampleID, "failing", "error"⟩] rfl,
   ((h recordingBatch []
      [PollCall.processed ⟨exampleID, "service1", "done"⟩, PollCall.deleted (some "handle1"),
       PollCall.processed ⟨exampleID, "failing", "error"⟩]
      3 ⟨some "service3", some "handle4"⟩ "service3" rfl rfl rfl).2
      ⟨exampleID, "service3", "done"⟩ rfl).2.1
      [PollCall.processed ⟨exampleID, "service1", "done"⟩, PollCall.deleted (some "handle1"),
       PollCall.processed ⟨exampleID, "failing", "error"⟩,
       PollCall.processed ⟨exampleID, "service3", "done"⟩] rfl⟩

end PollProcesses

/-! ## The app with no task -/

section NoTask

/-- C25: `App.Run` on an app with no task returns `ExitOK` and nothing else,
and it returns by the steps of its own goroutines alone, from the call and from
every state of a run, no cancellation and no signal being needed; `initialize`
returns this app with every error it returns, so `main`, which runs the app it
gets whatever the error, ends with exit status 0 after a failed start-up. -/
theorem App.Run_no_task :
    (∀ (sched : List Step) (code : Nat), (App.mk []).Run sched = some code → code = ExitOK) ∧
    (App.mk []).Run [.setup, .spawnMonitor, .wait, .recvExit] = some ExitOK ∧
    (∀ (sched : List Step) (s : AppState), (App.mk []).exec sched (App.mk []).init = some s →
      ∃ more : List Step, (∀ st ∈ more, st.external = false) ∧
        (App.mk []).Run (sched ++ more) = some ExitOK) ∧
    (∀ (st : Startup) (app : App) (err : GoError), initService st = .ret (app, some err) →
      app.tasks = [] ∧
      (st.loggerNew = none →
        main st [.setup, .spawnMonitor, .wait, .recvExit] = .ret (some ExitOK))) := by
  have hcode : ∀ (s : AppState) (code : Nat), s.Inv (App.mk []) →
      s.main = MainPC.returned code → code = ExitOK := by
    intro s code hinv hmain
    have hfin := AppState.Inv.returned (App.mk []) s hinv code hmain
    refine hfin.2.2.2 ?_
    intro i r hw
    have hlen : s.workers.length = 0 := hinv.len
    rw [List.getElem?_eq_none (by omega)] at hw
    cases hw
  refine ⟨?_, by decide, ?_, ?_⟩
  · intro sched code hrun
    simp only [App.Run] at hrun
    split at hrun
    · rename_i s hexec
      split at hrun
      · rename_i hmain
        cases hrun
        exact hcode s _ (App.exec_inv _ sched _ s (App.init_inv _) hexec) hmain
      · cases hrun
    · cases hrun
  · intro sched s hexec
    have hinv := App.exec_inv (App.mk []) sched _ s (App.init_inv _) hexec
    obtain ⟨more, s1, code, hmore, hexec1, hmain⟩ :=
      App.terminates (App.mk []) (fun _ => True)
        (fun _ _ _ _ _ _ _ => trivial)
        (fun x i hx _ hw => by
          have hlen : x.workers.length = 0 := hx.len
          rw [List.getElem?_eq_none (by omega)] at hw
          cases hw)
        s.measure s (Nat.le_refl _) hinv trivial
    have hc := hcode s1 code (App.exec_inv _ more s s1 hinv hexec1) hmain
    subst hc
    refine ⟨more, hmore, ?_⟩
    simp only [App.Run, App.exec_append _ sched more _ s hexec, hexec1, hmain]
  · intro st app err hinit
    have happ : app = App.mk [] := by
      simp only [initService] at hinit
      repeat' (first | cases hinit | split at hinit)
      all_goals rfl
    subst happ
    refine ⟨rfl, fun hlog => ?_⟩
    simp only [main, hlog, hinit]
    rfl

end NoTask

/-! ## A saga run from its start to its end -/

section FullRun

variable {Q : Type}

/-- In a workflow with distinct names over the repository store, the lookup
of the participant at position `i` finds it there. -/
theorem findNextService_onStorage (services : List (Service Q))
    (hnodup : (services.map (fun sv => sv.Name)).Nodup) (i : Nat) (A : Service Q)
    (hA : services[i]? = some A) :
    (i + 1 = services.length →
      (Saga.onStorage services).findNextService A.Name =
        .ret (Service.zero, some GoError.ErrEndOfWorkflow)) ∧
    (∀ B, services[i + 1]? = some B →
      (Saga.onStorage services).findNextService A.Name = .ret (B.onQueues, none)) := by
  have hat := findNextService_at (Saga.onStorage services) A.Name i A.onQueues
    (by simp [Saga.onStorage, New, List.getElem?_map, hA]) rfl
    (by
      intro j tv hj htv
      simp only [Saga.onStorage, New, List.getElem?_map] at htv
      cases hsj : services[j]? with
      | none => rw [hsj] at htv; cases htv
      | some tv0 =>
        rw [hsj] at htv
        simp only [Option.map_some', Option.some.injEq] at htv
        subst htv
        exact name_ne_of_nodup services hnodup j i tv0 A hj hsj hA)
  refine ⟨fun hlast => hat.1 (by simp [Saga.onStorage, New, hlast]), fun B hB => hat.2 _ ?_⟩
  simp [Saga.onStorage, New, List.getElem?_map, hB]

/-- The whole result of a "done" response from a participant with a
successor when the store advances and the successor's sender accepts the
command. -/
theorem ProcessMessage_onStorage_step (services : List (Service Q))
    (hnodup : (services.map (fun sv => sv.Name)).Nodup) (id : UUID) (i : Nat) (A B : Service Q)
    (sd : Sender Q) (hA : services[i]? = some A) (hB : services[i + 1]? = some B)
    (hsd : B.Sender = some sd) (w : Sys Q)
    (hok : (Storage.UpdateService id A.Name B.Name w.db).1 = none)
    (hsent : (sd.Send ⟨id, "start"⟩ w.queues).1 = none) :
    (Saga.onStorage services).ProcessMessage (.Response ⟨id, A.Name, "done"⟩) w =
      ⟨.ret none,
        ⟨(Storage.UpdateService id A.Name B.Name w.db).2, (sd.Send ⟨id, "start"⟩ w.queues).2⟩,
        [Call.UpdateService id A.Name B.Name, Call.Send sd.ref ⟨id, "start"⟩]⟩ := by
  have hfind := (findNextService_onStorage services hnodup i A hA).2 B hB
  simp only [Saga.ProcessMessage, StatusWorkDone, if_true, Saga.startNextService, hfind]
  simp only [Saga.onStorage, New, Storage.storer, Service.onQueues, hok, hsd, Service.send,
    Option.map_some', Sender.onQueues, CommandStart, hsent]

/-- The whole result of a "done" response from the last participant when the
store sets the status. -/
theorem ProcessMessage_onStorage_last (services : List (Service Q))
    (hnodup : (services.map (fun sv => sv.Name)).Nodup) (id : UUID) (i : Nat) (L : Service Q)
    (hL : services[i]? = some L) (hlast : i + 1 = services.length) (w : Sys Q)
    (hok : (Storage.UpdateStatus id "completed" w.db).1 = none) :
    (Saga.onStorage services).ProcessMessage (.Response ⟨id, L.Name, "done"⟩) w =
      ⟨.ret none, ⟨(Storage.UpdateStatus id "completed" w.db).2, w.queues⟩,
        [Call.UpdateStatus id "completed"]⟩ := by
  have hfind := (findNextService_onStorage services hnodup i L hL).1 hlast
  simp only [Saga.ProcessMessage, StatusWorkDone, if_true, Saga.startNextService, hfind]
  simp only [Saga.onStorage, New, Storage.storer, StatusCompleted, if_true, hok]

/-- The whole result of `Start` when the store inserts and the first
participant's sender accepts the command. -/
theorem Start_onStorage_run (first : Service Q) (rest : List (Service Q)) (sd : Sender Q)
    (id : UUID) (u : Sys Q) (hsender : first.Sender = some sd)
    (hok : (Storage.InsertSaga id first.Name "started" u.db).1 = none)
    (hsent : (sd.Send ⟨id, "start"⟩ u.queues).1 = none) :
    (Saga.onStorage (first :: rest)).Start id u =
      ⟨.ret none,
        ⟨(Storage.InsertSaga id first.Name "started" u.db).2, (sd.Send ⟨id, "start"⟩ u.queues).2⟩,
        [Call.InsertSaga id first.Name "started", Call.Send sd.ref ⟨id, "start"⟩]⟩ := by
  simp only [Saga.Start, Saga.onStorage, New, Storage.storer, Service.onQueues, List.map_cons,
    List.length_cons, Nat.add_one_ne_zero, if_false, List.getElem?_cons_zero, StatusStarted, hok,
    hsender, Service.send, Option.map_some', Sender.onQueues, CommandStart, hsent]

/-- A healthy driver runs the next statement. -/
theorem DB.healthy_nextRuns (db : DB) (h : db.healthy) : db.nextRuns := by
  unfold DB.nextRuns
  cases hf : db.faults with
  | nil => simp
  | cons f rest =>
    have := h f (by simp [hf])
    simp [this]

/-- The insert of a saga at its first participant stores its record there,
when every record of the saga already stored is at that participant. -/
theorem Storage.InsertSaga_stored (id : UUID) (service : String) (db : DB) (h : db.healthy)
    (hrec : ∀ r ∈ db.rows, r.id = id → r.service = service) :
    (Storage.InsertSaga id service "started" db).2.storedService id service := by
  have hok := (Storage.InsertSaga_healthy id service "started" db h).1
  have hrows := Storage.InsertSaga_ok id service "started" db hok
  unfold DB.storedService
  rw [hrows]
  by_cases hex : ∃ row ∈ db.rows, row.id = id
  · rw [insertStmt_present id "started" service db.clock db.rows hex]
    exact ⟨hex, hrec⟩
  · have habs : ∀ row ∈ db.rows, row.id ≠ id := fun row hr hid => hex ⟨row, hr, hid⟩
    rw [insertStmt_absent id "started" service db.clock db.rows habs]
    refine ⟨⟨_, List.mem_append_right _ (List.mem_singleton_self _), rfl⟩, ?_⟩
    intro r hr hid
    rcases List.mem_append.1 hr with hr | hr
    · exact absurd hid (habs r hr)
    · rw [List.mem_singleton.1 hr]

/-- The update of the current service moves the stored record from the
previous participant to the next. -/
theorem Storage.UpdateService_stored (id : UUID) (prev next : String) (db : DB)
    (h : db.healthy) (hst : db.storedService id prev) :
    (Storage.UpdateService id prev next db).2.storedService id next := by
  have hrows := (Storage.UpdateService_healthy id prev next db h).2.1
  unfold DB.storedService
  rw [hrows]
  obtain ⟨⟨r0, hr0, hid0⟩, hall⟩ := hst
  refine ⟨⟨advanceRow id prev next r0, List.mem_map.2 ⟨r0, hr0, rfl⟩, ?_⟩, ?_⟩
  · simp [advanceRow, hid0, hall r0 hr0 hid0]
  · intro r hr hid
    obtain ⟨r1, hr1, rfl⟩ := List.mem_map.1 hr
    by_cases h1 : r1.id = id
    · simp [advanceRow, h1, hall r1 hr1 h1]
    · have : advanceRow id prev next r1 = r1 := by simp [advanceRow, h1]
      rw [this] at hid
      exact absurd hid h1

/-- The update of the status of a stored saga returns nil, sets the status
and keeps the current service. -/
theorem Storage.UpdateStatus_stored (id : UUID) (status service : String) (db : DB)
    (h : db.healthy) (hst : db.storedService id service) :
    (Storage.UpdateStatus id status db).1 = none ∧
    (Storage.UpdateStatus id status db).2.storedService id service ∧
    (Storage.UpdateStatus id status db).2.storedStatus id status := by
  have hruns := Storage.UpdateStatus_runs id status db (DB.healthy_nextRuns db h)
  obtain ⟨⟨r0, hr0, hid0⟩, hall⟩ := hst
  have hne : db.rows.countP (fun r => decide (r.id = id)) ≠ 0 := by
    intro hc
    rw [List.countP_eq_zero] at hc
    have := hc r0 hr0
    simp [hid0] at this
  refine ⟨by rw [hruns.1]; simp [hne], ?_, ?_⟩
  · unfold DB.storedService
    rw [hruns.2]
    refine ⟨⟨setStatusRow id status r0, List.mem_map.2 ⟨r0, hr0, rfl⟩, ?_⟩, ?_⟩
    · simp [setStatusRow, hid0]
    · intro r hr hid
      obtain ⟨r1, hr1, rfl⟩ := List.mem_map.1 hr
      by_cases h1 : r1.id = id
      · simp [setStatusRow, h1, hall r1 hr1 h1]
      · have : setStatusRow id status r1 = r1 := by simp [setStatusRow, h1]
        rw [this] at hid
        exact absurd hid h1
  · unfold DB.storedStatus
    rw [hruns.2]
    refine ⟨⟨setStatusRow id status r0, List.mem_map.2 ⟨r0, hr0, rfl⟩, ?_⟩, ?_⟩
    · simp [setStatusRow, hid0]
    · intro r hr hid
      obtain ⟨r1, hr1, rfl⟩ := List.mem_map.1 hr
      by_cases h1 : r1.id = id
      · simp [setStatusRow, h1]
      · have : setStatusRow id status r1 = r1 := by simp [setStatusRow, h1]
        rw [this] at hid
        exact absurd hid h1

/-- The "done" responses of the participants from `A` on, delivered in the
order of the workflow to a saga whose record is stored at `A`: every call
returns nil, the commands go to the successors in order, the stored service
follows them, the status ends as "completed", and the queues are those the
sends on the successors' senders leave, the last call sending nothing. -/
theorem runOps_done_walk (services : List (Service Q))
    (hnodup : (services.map (fun sv => sv.Name)).Nodup)
    (hsend : ∀ sv ∈ services, ∃ sd, sv.Sender = some sd ∧ ∀ msg q, (sd.Send msg q).1 = none)
    (id : UUID) :
    ∀ (rest pre : List (Service Q)) (A : Service Q) (w : Sys Q),
      services = pre ++ A :: rest → w.db.healthy → w.db.storedService id A.Name →
      (∀ r ∈ runOps (Saga.onStorage services)
          ((A :: rest).map (fun sv => doneFrom id sv.Name)) w, r.out = .ret none) ∧
      List.Forall₂
        (fun c sv => ∃ sd, sv.Sender = some sd ∧ c = Call.Send sd.ref ⟨id, "start"⟩)
        (((runOps (Saga.onStorage services)
          ((A :: rest).map (fun sv => doneFrom id sv.Name)) w).flatMap
            (fun r => r.calls)).filter Call.isSend) rest ∧
      List.Forall₂ (fun r name => r.world.db.storedService id name)
        (runOps (Saga.onStorage services) ((A :: rest).map (fun sv => doneFrom id sv.Name)) w)
        (rest.map (fun sv => sv.Name) ++
          [((A :: rest).getLast (List.cons_ne_nil _ _)).Name]) ∧
      (∀ r, (runOps (Saga.onStorage services)
          ((A :: rest).map (fun sv => doneFrom id sv.Name)) w).getLast? = some r →
        r.world.db.storedStatus id "completed") ∧
      ((runOps (Saga.onStorage services)
          ((A :: rest).map (fun sv => doneFrom id sv.Name)) w).dropLast.map
            (fun r => r.world.queues) = sendStart id rest w.queues) ∧
      (∀ r, (runOps (Saga.onStorage services)
          ((A :: rest).map (fun sv => doneFrom id sv.Name)) w).getLast? = some r →
        r.world.queues = (sendStart id rest w.queues).getLastD w.queues) := by
  intro rest
  induction rest with
  | nil =>
    intro pre A w hsplit hh hst
    have hA : services[pre.length]? = some A := by simp [hsplit]
    have hlast : pre.length + 1 = services.length := by simp [hsplit]
    have hupd := Storage.UpdateStatus_stored id "completed" A.Name w.db hh hst
    have hrun := ProcessMessage_onStorage_last services hnodup id pre.length A hA hlast w hupd.1
    simp only [List.map_cons, List.map_nil, runOps, runOp, doneFrom, hrun]
    refine ⟨?_, ?_, ?_, ?_, ?_, ?_⟩
    · intro r hr
      rw [List.mem_singleton.1 hr]
    · simp [Call.isSend]
    · simp only [List.nil_append, List.getLast_singleton]
      exact List.Forall₂.cons hupd.2.1 List.Forall₂.nil
    · intro r hr
      simp only [List.getLast?_singleton, Option.some.injEq] at hr
      rw [← hr]
      exact hupd.2.2
    · simp [sendStart]
    · intro r hr
      simp only [List.getLast?_singleton, Option.some.injEq] at hr
      rw [← hr]
      simp [sendStart]
  | cons B rest ih =>
    intro pre A w hsplit hh hst
    have hA : services[pre.length]? = some A := by
      rw [hsplit, List.getElem?_append_right (Nat.le_refl _)]
      simp
    have hB : services[pre.length + 1]? = some B := by
      rw [hsplit, List.getElem?_append_right (by omega)]
      simp
    obtain ⟨sd, hsd, hsent⟩ := hsend B (by simp [hsplit])
    have hupd := Storage.UpdateService_healthy id A.Name B.Name w.db hh
    have hrun := ProcessMessage_onStorage_step services hnodup id pre.length A B sd hA hB hsd w
      hupd.1 (hsent _ _)
    have hst1 := Storage.UpdateService_stored id A.Name B.Name w.db hh hst
    have hnext := ih (pre ++ [A]) B
      ⟨(Storage.UpdateService id A.Name B.Name w.db).2, (sd.Send ⟨id, "start"⟩ w.queues).2⟩
      (by simp [hsplit]) hupd.2.2 hst1
    have hruns : runOps (Saga.onStorage services)
        ((A :: B :: rest).map (fun sv => doneFrom id sv.Name)) w =
        ⟨.ret none,
          ⟨(Storage.UpdateService id A.Name B.Name w.db).2, (sd.Send ⟨id, "start"⟩ w.queues).2⟩,
          [Call.UpdateService id A.Name B.Name, Call.Send sd.ref ⟨id, "start"⟩]⟩ ::
        runOps (Saga.onStorage services) ((B :: rest).map (fun sv => doneFrom id sv.Name))
          ⟨(Storage.UpdateService id A.Name B.Name w.db).2,
            (sd.Send ⟨id, "start"⟩ w.queues).2⟩ := by
      show runOps _ (doneFrom id A.Name :: (B :: rest).map (fun sv => doneFrom id sv.Name)) w = _
      simp only [runOps, runOp, doneFrom, hrun]
    rw [hruns]
    obtain ⟨h1, h2, h3, h4, h5, h6⟩ := hnext
    have hsendStart : sendStart id (B :: rest) w.queues =
        (sd.Send ⟨id, "start"⟩ w.queues).2 ::
          sendStart id rest (sd.Send ⟨id, "start"⟩ w.queues).2 := by
      simp only [sendStart, hsd]
    have hlast : ∀ r0 : Run (Sys Q) (Option GoError),
        (r0 :: runOps (Saga.onStorage services)
          ((B :: rest).map (fun sv => doneFrom id sv.Name))
          ⟨(Storage.UpdateService id A.Name B.Name w.db).2,
            (sd.Send ⟨id, "start"⟩ w.queues).2⟩).getLast? =
        (runOps (Saga.onStorage services)
          ((B :: rest).map (fun sv => doneFrom id sv.Name))
          ⟨(Storage.UpdateService id A.Name B.Name w.db).2,
            (sd.Send ⟨id, "start"⟩ w.queues).2⟩).getLast? := by
      intro r0
      cases hrs : runOps (Saga.onStorage services)
          ((B :: rest).map (fun sv => doneFrom id sv.Name))
          ⟨(Storage.UpdateService id A.Name B.Name w.db).2,
            (sd.Send ⟨id, "start"⟩ w.queues).2⟩ with
      | nil => simp [runOps] at hrs
      | cons r1 rs => simp [List.getLast?_cons_cons]
    refine ⟨?_, ?_, ?_, ?_, ?_, ?_⟩
    · intro r hr
      rcases List.mem_cons.1 hr with hr | hr
      · rw [hr]
      · exact h1 r hr
    · simp only [List.flatMap_cons, List.cons_append, List.nil_append, List.filter_cons,
        Call.isSend, Bool.false_eq_true, if_false, if_true]
      exact List.Forall₂.cons ⟨sd, hsd, rfl⟩ h2
    · simp only [List.map_cons, List.cons_append]
      refine List.Forall₂.cons hst1 ?_
      have hl : (A :: B :: rest).getLast (List.cons_ne_nil _ _) =
          (B :: rest).getLast (List.cons_ne_nil _ _) := by simp
      rw [hl]
      exact h3
    · intro r hr
      rw [hlast] at hr
      exact h4 r hr
    · rw [hsendStart, ← h5]
      cases hrs : runOps (Saga.onStorage services)
          ((B :: rest).map (fun sv => doneFrom id sv.Name))
          ⟨(Storage.UpdateService id A.Name B.Name w.db).2,
            (sd.Send ⟨id, "start"⟩ w.queues).2⟩ with
      | nil => simp [runOps] at hrs
      | cons r1 rs => simp [List.dropLast]
    · intro r hr
      rw [hlast] at hr
      rw [hsendStart, List.getLastD_cons]
      exact h6 r hr

/-- One result for each call. -/
theorem runOps_length {W : Type} (s : Saga W) (ops : List Op) (w : W) :
    (runOps s ops w).length = ops.length := by
  induction ops generalizing w with
  | nil => rfl
  | cons op ops ih => simp [runOps, ih]

/-- C22: for every workflow `P1 :: rest` with pairwise distinct names whose
senders accept every command, every saga id and every world whose driver
runs every statement and whose store holds no record of the saga (or only
records of it at `P1`), the calls `Start(id)` and then
`ProcessMessage(Response(id, Pk, "done"))` for every participant in workflow
order, on the saga over the repository store, give one result per call, each
of them nil; the `Send` calls made are as many as the participants, the k-th
one on the sender of the k-th participant with the command "start" of the
saga; the queues after the successive calls but the last are those the
`Send` of the command on the senders of `P1, ..., Pn` in turn leaves, and the
last call leaves them as they are, so exactly these n commands are sent; the
stored current service after the successive calls is `P1, ..., Pn` and then
still `Pn`; and after the last call the stored status is "completed". -/
theorem happyPath_walk (P1 : Service Q) (rest : List (Service Q)) (sagaID : UUID) (u : Sys Q)
    (hnodup : ((P1 :: rest).map (fun sv => sv.Name)).Nodup)
    (hsend : ∀ sv ∈ P1 :: rest, ∃ sd, sv.Sender = some sd ∧ ∀ msg q, (sd.Send msg q).1 = none)
    (hhealthy : u.db.healthy)
    (hrec : ∀ r ∈ u.db.rows, r.id = sagaID → r.service = P1.Name) :
    (runOps (Saga.onStorage (P1 :: rest)) (happyPath (P1 :: rest) sagaID) u).length =
      (P1 :: rest).length + 1 ∧
    (∀ r ∈ runOps (Saga.onStorage (P1 :: rest)) (happyPath (P1 :: rest) sagaID) u,
      r.out = .ret none) ∧
    (((runOps (Saga.onStorage (P1 :: rest)) (happyPath (P1 :: rest) sagaID) u).flatMap
      (fun r => r.calls)).filter Call.isSend).length = (P1 :: rest).length ∧
    List.Forall₂
      (fun c sv => ∃ sd, sv.Sender = some sd ∧ c = Call.Send sd.ref ⟨sagaID, "start"⟩)
      (((runOps (Saga.onStorage (P1 :: rest)) (happyPath (P1 :: rest) sagaID) u).flatMap
        (fun r => r.calls)).filter Call.isSend) (P1 :: rest) ∧
    List.Forall₂ (fun r name => r.world.db.storedService sagaID name)
      (runOps (Saga.onStorage (P1 :: rest)) (happyPath (P1 :: rest) sagaID) u)
      ((P1 :: rest).map (fun sv => sv.Name) ++
        [((P1 :: rest).getLast (List.cons_ne_nil _ _)).Name]) ∧
    (∀ r, (runOps (Saga.onStorage (P1 :: rest)) (happyPath (P1 :: rest) sagaID) u).getLast? =
        some r → r.world.db.storedStatus sagaID "completed") ∧
    ((runOps (Saga.onStorage (P1 :: rest)) (happyPath (P1 :: rest) sagaID) u).dropLast.map
      (fun r => r.world.queues) = sendStart sagaID (P1 :: rest) u.queues) ∧
    (∀ r, (runOps (Saga.onStorage (P1 :: rest)) (happyPath (P1 :: rest) sagaID) u).getLast? =
        some r →
      r.world.queues = (sendStart sagaID (P1 :: rest) u.queues).getLastD u.queues) := by
  obtain ⟨sd, hsd, hsent⟩ := hsend P1 (List.mem_cons_self _ _)
  have hins := Storage.InsertSaga_healthy sagaID P1.Name "started" u.db hhealthy
  have hst := Storage.InsertSaga_stored sagaID P1.Name u.db hhealthy hrec
  have hstart := Start_onStorage_run P1 rest sd sagaID u hsd hins.1 (hsent _ _)
  have hwalk := runOps_done_walk (P1 :: rest) hnodup hsend sagaID rest [] P1
    ⟨(Storage.InsertSaga sagaID P1.Name "started" u.db).2, (sd.Send ⟨sagaID, "start"⟩ u.queues).2⟩
    rfl hins.2 hst
  have hruns : runOps (Saga.onStorage (P1 :: rest)) (happyPath (P1 :: rest) sagaID) u =
      ⟨.ret none,
        ⟨(Storage.InsertSaga sagaID P1.Name "started" u.db).2,
          (sd.Send ⟨sagaID, "start"⟩ u.queues).2⟩,
        [Call.InsertSaga sagaID P1.Name "started", Call.Send sd.ref ⟨sagaID, "start"⟩]⟩ ::
      runOps (Saga.onStorage (P1 :: rest)) ((P1 :: rest).map (fun sv => doneFrom sagaID sv.Name))
        ⟨(Storage.InsertSaga sagaID P1.Name "started" u.db).2,
          (sd.Send ⟨sagaID, "start"⟩ u.queues).2⟩ := by
    show runOps _ (Op.Start sagaID :: (P1 :: rest).map (fun sv => doneFrom sagaID sv.Name)) u = _
    simp only [runOps, runOp, hstart]
  obtain ⟨h1, h2, h3, h4, h5, h6⟩ := hwalk
  have hsendStart : sendStart sagaID (P1 :: rest) u.queues =
      (sd.Send ⟨sagaID, "start"⟩ u.queues).2 ::
        sendStart sagaID rest (sd.Send ⟨sagaID, "start"⟩ u.queues).2 := by
    simp only [sendStart, hsd]
  have hlast : ∀ r0 : Run (Sys Q) (Option GoError),
      (r0 :: runOps (Saga.onStorage (P1 :: rest))
        ((P1 :: rest).map (fun sv => doneFrom sagaID sv.Name))
        ⟨(Storage.InsertSaga sagaID P1.Name "started" u.db).2,
          (sd.Send ⟨sagaID, "start"⟩ u.queues).2⟩).getLast? =
      (runOps (Saga.onStorage (P1 :: rest))
        ((P1 :: rest).map (fun sv => doneFrom sagaID sv.Name))
        ⟨(Storage.InsertSaga sagaID P1.Name "started" u.db).2,
          (sd.Send ⟨sagaID, "start"⟩ u.queues).2⟩).getLast? := by
    intro r0
    cases hrs : runOps (Saga.onStorage (P1 :: rest))
        ((P1 :: rest).map (fun sv => doneFrom sagaID sv.Name))
        ⟨(Storage.InsertSaga sagaID P1.Name "started" u.db).2,
          (sd.Send ⟨sagaID, "start"⟩ u.queues).2⟩ with
    | nil => simp [runOps] at hrs
    | cons r1 rs => simp [List.getLast?_cons_cons]
  have hsends : List.Forall₂
      (fun c sv => ∃ sd, sv.Sender = some sd ∧ c = Call.Send sd.ref ⟨sagaID, "start"⟩)
      (((runOps (Saga.onStorage (P1 :: rest)) (happyPath (P1 :: rest) sagaID) u).flatMap
        (fun r => r.calls)).filter Call.isSend) (P1 :: rest) := by
    rw [hruns]
    simp only [List.flatMap_cons, List.cons_append, List.nil_append, List.filter_cons,
      Call.isSend, Bool.false_eq_true, if_false, if_true]
    exact List.Forall₂.cons ⟨sd, hsd, rfl⟩ h2
  refine ⟨?_, ?_, hsends.length_eq, hsends, ?_, ?_, ?_, ?_⟩
  · rw [runOps_length]
    simp [happyPath]
  · rw [hruns]
    intro r hr
    rcases List.mem_cons.1 hr with hr | hr
    · rw [hr]
    · exact h1 r hr
  · rw [hruns]
    simp only [List.map_cons, List.cons_append]
    exact List.Forall₂.cons hst h3
  · rw [hruns]
    intro r hr
    rw [hlast] at hr
    exact h4 r hr
  · rw [hruns, hsendStart, ← h5]
    cases hrs : runOps (Saga.onStorage (P1 :: rest))
        ((P1 :: rest).map (fun sv => doneFrom sagaID sv.Name))
        ⟨(Storage.InsertSaga sagaID P1.Name "started" u.db).2,
          (sd.Send ⟨sagaID, "start"⟩ u.queues).2⟩ with
    | nil => simp [runOps] at hrs
    | cons r1 rs => simp [List.dropLast]
  · rw [hruns]
    intro r hr
    rw [hlast] at hr
    rw [hsendStart, List.getLastD_cons]
    exact h6 r hr

theorem happyPath_walk_witness :
    (runOps (Saga.onStorage recordingWorkflow) (happyPath recordingWorkflow exampleID)
      ⟨⟨[], 0, []⟩, []⟩).length = 4 ∧
    (((runOps (Saga.onStorage recordingWorkflow) (happyPath recordingWorkflow exampleID)
      ⟨⟨[], 0, []⟩, []⟩).flatMap (fun r => r.calls)).filter Call.isSend).length = 3 ∧
    (∀ r, (runOps (Saga.onStorage recordingWorkflow) (happyPath recordingWorkflow exampleID)
        ⟨⟨[], 0, []⟩, []⟩).getLast? = some r →
      r.world.db.storedStatus exampleID "completed") ∧
    ((runOps (Saga.onStorage recordingWorkflow) (happyPath recordingWorkflow exampleID)
        ⟨⟨[], 0, []⟩, []⟩).dropLast.map (fun r => r.world.queues) =
      [[(1, ⟨exampleID, "start"⟩)],
       [(1, ⟨exampleID, "start"⟩), (2, ⟨exampleID, "start"⟩)],
       [(1, ⟨exampleID, "start"⟩), (2, ⟨exampleID, "start"⟩), (3, ⟨exampleID, "start"⟩)]]) ∧
    (∀ r, (runOps (Saga.onStorage recordingWorkflow) (happyPath recordingWorkflow exampleID)
        ⟨⟨[], 0, []⟩, []⟩).getLast? = some r →
      r.world.queues =
        [(1, ⟨exampleID, "start"⟩), (2, ⟨exampleID, "start"⟩), (3, ⟨exampleID, "start"⟩)]) :=
  have h := happyPath_walk ⟨"service1", "commands1", some (recordingSender 1)⟩
    [⟨"service2", "commands2", some (recordingSender 2)⟩,
     ⟨"service3", "commands3", some (recordingSender 3)⟩] exampleID ⟨⟨[], 0, []⟩, []⟩
    (by decide)
    (by
      intro sv hsv
      simp only [List.mem_cons, List.mem_singleton, List.not_mem_nil, or_false] at hsv
      rcases hsv with rfl | rfl | rfl <;> exact ⟨_, rfl, fun _ _ => rfl⟩)
    (by intro f hf; cases hf)
    (by intro r hr; cases hr)
  ⟨h.1, h.2.2.1, h.2.2.2.2.2.1, h.2.2.2.2.2.2.1, h.2.2.2.2.2.2.2⟩

end FullRun

end SagaService
